import Mathlib

/-! ## cppmandel: scheduler core and tile pipeline

A shallow embedding of `OS/AsyncQueue.h`, `Core/Queue.h`, `Math/Rect.h` and of
the coroutine scheduler and tile pipeline of `main.cpp`, followed by the
properties proved about them.

Conventions of the embedding:
* a `Vector<T>` is a `List T` (index 0 first);
* every `AsyncQueue` member runs under the queue mutex, so each call is one
  atomic transition of the queue value; a blocking call that would wait on
  the condition variable returns `none`;
* pointers are natural-number addresses; `none` is `nullptr`.
-/

namespace CppMandel

/-! ## Core/Vector.h -/

namespace Vector

/-- Modelled from the spec: `Core/Vector.h` is not among the sources.
`append` adds one element at the end of the dynamic array. -/
def append {T : Type} (v : List T) (elem : T) : List T := v ++ [elem]

/-- Modelled from the spec: `Core/Vector.h` is not among the sources.
`remove(idx)` deletes the element at `idx` and keeps the order of the rest. -/
def remove {T : Type} (v : List T) (idx : Nat) : List T := v.eraseIdx idx

/-- Modelled from the spec: `Core/Vector.h` is not among the sources.
`resize(n)` makes the length `n`: it truncates, or pads with
default-constructed elements. -/
def resize {T : Type} [Inhabited T] (v : List T) (n : Nat) : List T :=
  v.take n ++ List.replicate (n - v.length) default

/-- Modelled from the spec: `Core/Vector.h` is not among the sources.
`copy(dst, src)` over two slices overwrites the first
`min(dst.length, src.length)` elements of `dst` with those of `src`. -/
def copy {T : Type} (dst src : List T) : List T :=
  src.take dst.length ++ dst.drop src.length

/-- Modelled from the spec: `Core/Vector.h` is not among the sources.
`clear()` drops every element. -/
def clear {T : Type} (_v : List T) : List T := []

/-- Modelled from the spec: `Core/Vector.h` is not among the sources.
`first()` is the element at index 0; on an empty vector the access is out of
bounds (`none`). -/
def first {T : Type} (v : List T) : Option T := v.head?

/-- Modelled from the spec: `Core/Vector.h` is not among the sources.
`last()` is the element at index `length() - 1`; on an empty vector the access
is out of bounds (`none`). -/
def last {T : Type} (v : List T) : Option T := v.getLast?

/-- Modelled from the spec: `Core/Vector.h` is not among the sources.
`quick_remove(idx)` deletes the element at `idx` without keeping the order:
the last element takes its place. -/
def quick_remove {T : Type} (v : List T) (idx : Nat) : List T :=
  match v.getLast? with
  | none => v
  | some x => (v.set idx x).dropLast

end Vector

/-! ## OS/AsyncQueue.h -/

/-- The queue value protected by the mutex of an `AsyncQueue<T>`. -/
structure AsyncQueue (T : Type) where
  queue : List T
deriving DecidableEq, Repr

namespace AsyncQueue

variable {T : Type}

/-- The constructor `AsyncQueue()`: the member vector starts empty. -/
def new : AsyncQueue T := ⟨[]⟩

/-- The member `length()`. -/
def length (q : AsyncQueue T) : Nat := q.queue.length

/-- The member `push(elem)`: `queue.append(elem)` (then signal the condition). -/
def push (q : AsyncQueue T) (elem : T) : AsyncQueue T :=
  ⟨Vector.append q.queue elem⟩

/-- The member `try_pop(out)`: returns the flag, the new `*out` and the new queue. -/
def try_pop (q : AsyncQueue T) (out : T) : Bool × T × AsyncQueue T :=
  match q.queue with
  | [] => (false, out, q)
  | x :: _ => (true, x, ⟨Vector.remove q.queue 0⟩)

/-- The member `pop()`: while the queue is empty the caller waits on the
condition variable (`none`: the call has not taken effect); otherwise it
removes and returns `queue[0]`. -/
def pop (q : AsyncQueue T) : Option (T × AsyncQueue T) :=
  match q.queue with
  | [] => none
  | x :: _ => some (x, ⟨Vector.remove q.queue 0⟩)

/-- The member `pop_all(out)`: waits while empty (`none`), otherwise
`out->resize(queue.length()); copy(out->sub(), queue.sub()); queue.clear()`. -/
def pop_all [Inhabited T] (q : AsyncQueue T) (out : List T) :
    Option (List T × AsyncQueue T) :=
  if q.queue.length = 0 then none
  else
    let out1 := Vector.resize out q.queue.length
    let out2 := Vector.copy out1 q.queue
    some (out2, ⟨Vector.clear q.queue⟩)

/-- The member `try_pop_all(out)`: returns the flag, the new `*out` and the
new queue. -/
def try_pop_all [Inhabited T] (q : AsyncQueue T) (out : List T) :
    Bool × List T × AsyncQueue T :=
  if q.queue.length = 0 then (false, out, q)
  else
    let out1 := Vector.resize out q.queue.length
    let out2 := Vector.copy out1 q.queue
    (true, out2, ⟨Vector.clear q.queue⟩)

end AsyncQueue

/-- One linearised call on an `AsyncQueue`: a `push` of an item, or a `pop`. -/
inductive QueueOp (T : Type) where
  | push (elem : T)
  | pop
deriving DecidableEq, Repr

/-- A queue together with the history of a run: the items pushed so far and
the items the pops have returned so far, both in call order. -/
structure QueueRun (T : Type) where
  q : AsyncQueue T
  pushed : List T
  popped : List T
deriving DecidableEq, Repr

/-- Apply one call.  A `pop` on an empty queue is still waiting, so it has
returned nothing and changed nothing. -/
def QueueRun.step {T : Type} (r : QueueRun T) : QueueOp T → QueueRun T
  | .push elem => { r with q := r.q.push elem, pushed := r.pushed ++ [elem] }
  | .pop =>
    match r.q.pop with
    | none => r
    | some (x, q1) => { r with q := q1, popped := r.popped ++ [x] }

/-- Apply a sequence of calls, first call first. -/
def QueueRun.run {T : Type} (r : QueueRun T) (ops : List (QueueOp T)) : QueueRun T :=
  ops.foldl QueueRun.step r

/-- The run that starts from a freshly constructed queue. -/
def QueueRun.fresh {T : Type} : QueueRun T := ⟨AsyncQueue.new, [], []⟩

/-! ## Math/Vec.h, Math/Utils.h, Math/Rect.h, Core/BitArray.h -/

/-- Modelled from the spec: `Math/Vec.h` is not among the sources.
`Vec2i` is a pair of `int`s, `x` first. -/
abbrev Vec2i := Int × Int

namespace Vec2i

/-- Modelled from the spec: `Math/Vec.h` is not among the sources.
`operator+`, componentwise. -/
def add (a b : Vec2i) : Vec2i := (a.1 + b.1, a.2 + b.2)

/-- Modelled from the spec: `Math/Vec.h` is not among the sources.
`operator-`, componentwise. -/
def sub (a b : Vec2i) : Vec2i := (a.1 - b.1, a.2 - b.2)

/-- Modelled from the spec: `Math/Vec.h` is not among the sources.
`operator*`, componentwise. -/
def mul (a b : Vec2i) : Vec2i := (a.1 * b.1, a.2 * b.2)

/-- Modelled from the spec: `Math/Vec.h` is not among the sources.
`operator/`, componentwise `int` division, which truncates toward zero. -/
def div (a b : Vec2i) : Vec2i := (Int.tdiv a.1 b.1, Int.tdiv a.2 b.2)

/-- Modelled from the spec: `Math/Vec.h` is not among the sources.
`operator<=`: both components are `<=`. -/
def le (a b : Vec2i) : Bool := decide (a.1 ≤ b.1) && decide (a.2 ≤ b.2)

end Vec2i

/-- Modelled from the spec: `Math/Vec.h` is not among the sources.
`area(v)` is `v.x * v.y`. -/
def area (v : Vec2i) : Int := v.1 * v.2

/-- Modelled from the spec: `Math/Utils.h` is not among the sources.
`floor_div(a, b)` divides componentwise and rounds the quotient toward minus
infinity ("floor aligned to tile size"). -/
def floor_div (a b : Vec2i) : Vec2i := (Int.fdiv a.1 b.1, Int.fdiv a.2 b.2)

/-- The struct `GenericRect<Vec2i>`, that is `Rect`. -/
structure Rect where
  min : Vec2i
  max : Vec2i
deriving DecidableEq, Repr

namespace Rect

/-- The member `width()`. -/
def width (r : Rect) : Int := r.max.1 - r.min.1 + 1

/-- The member `height()`. -/
def height (r : Rect) : Int := r.max.2 - r.min.2 + 1

/-- The member `size()`. -/
def size (r : Rect) : Vec2i := (r.width, r.height)

/-- The member `top_left()`. -/
def top_left (r : Rect) : Vec2i := (r.min.1, r.min.2)

end Rect

/-- The function `Rect_WH(p, size)`. -/
def Rect_WH (p size : Vec2i) : Rect :=
  { min := p, max := Vec2i.sub (Vec2i.add p size) (1, 1) }

/-- The function `contains(r, p)` for a rectangle and a point. -/
def contains (r : Rect) (p : Vec2i) : Bool := Vec2i.le r.min p && Vec2i.le p r.max

namespace BitArray

/-- Modelled from the spec: `Core/BitArray.h` is not among the sources.
`BitArray(n)` holds `n` cleared bits. -/
def new (n : Int) : List Bool := List.replicate n.toNat false

/-- Modelled from the spec: `Core/BitArray.h` is not among the sources.
`clear()` clears every bit and keeps the length. -/
def clear (bits : List Bool) : List Bool := List.replicate bits.length false

/-- Modelled from the spec: `Core/BitArray.h` is not among the sources.
`set_bit(i)` sets bit `i`. -/
def set_bit (bits : List Bool) (i : Int) : List Bool := bits.set i.toNat true

/-- Modelled from the spec: `Core/BitArray.h` is not among the sources.
`test_bit(i)` reads bit `i`. -/
def test_bit (bits : List Bool) (i : Int) : Bool := bits.getD i.toNat false

end BitArray

/-! ## Core/Queue.h -/

/-- The struct `Queue<T>`: two stacks. -/
structure Queue (T : Type) where
  s1 : List T
  s2 : List T
deriving DecidableEq, Repr

namespace Queue

variable {T : Type}

/-- A default-constructed `Queue<T>`: both vectors empty. -/
def new : Queue T := ⟨[], []⟩

/-- The member `length()`. -/
def length (q : Queue T) : Nat := q.s1.length + q.s2.length

/-- The member `push(item)`. -/
def push (q : Queue T) (item : T) : Queue T := { q with s1 := Vector.append q.s1 item }

/-- The loop `while (--it >= 0) s2.append(std::move(s1[it]))` of `pop`, entered
with the counter at `it`. -/
def pop_loop (s1 : List T) : Nat → List T → List T
  | 0, s2 => s2
  | it + 1, s2 =>
    match s1[it]? with
    | some x => pop_loop s1 it (Vector.append s2 x)
    | none => s2

/-- The member `pop()`; `none` is the call of `die` on an empty queue. -/
def pop (q : Queue T) : Option (T × Queue T) :=
  let refill : Option (Queue T) :=
    if q.s2.length = 0 then
      if q.s1.length = 0 then none
      else some { s1 := Vector.clear q.s1, s2 := pop_loop q.s1 q.s1.length q.s2 }
    else some q
  match refill with
  | none => none
  | some q1 =>
    match Vector.last q1.s2 with
    | none => none
    | some result => some (result, { q1 with s2 := Vector.remove q1.s2 (q1.s2.length - 1) })

/-- The member `first()`; `none` when the vector access is out of bounds. -/
def first (q : Queue T) : Option T :=
  if q.s2.length ≠ 0 then Vector.last q.s2 else Vector.first q.s1

/-- The member `last()`; `none` when the vector access is out of bounds. -/
def last (q : Queue T) : Option T :=
  if q.s2.length ≠ 0 then Vector.first q.s2 else Vector.last q.s1

end Queue

/-- A `Queue` with the history of a run: the items pushed so far and the items
the pops have returned so far, both in call order. -/
structure QueueTrace (T : Type) where
  q : Queue T
  pushed : List T
  popped : List T
deriving DecidableEq, Repr

/-- Apply one call; `none` when `pop` reaches `die`. -/
def QueueTrace.step {T : Type} (r : QueueTrace T) : QueueOp T → Option (QueueTrace T)
  | .push elem => some { r with q := r.q.push elem, pushed := r.pushed ++ [elem] }
  | .pop =>
    match r.q.pop with
    | none => none
    | some (x, q1) => some { r with q := q1, popped := r.popped ++ [x] }

/-- Apply a sequence of calls, first call first; `none` when a `pop` reaches
`die`. -/
def QueueTrace.run {T : Type} (r : QueueTrace T) : List (QueueOp T) → Option (QueueTrace T)
  | [] => some r
  | op :: ops =>
    match r.step op with
    | none => none
    | some r1 => r1.run ops

/-- The caller's obligation "check length before popping": every `pop` of the
sequence is applied to a queue with `length() > 0`. -/
def QueueTrace.guarded {T : Type} (r : QueueTrace T) : List (QueueOp T) → Prop
  | [] => True
  | .push elem :: ops =>
    QueueTrace.guarded { r with q := r.q.push elem, pushed := r.pushed ++ [elem] } ops
  | .pop :: ops =>
    0 < r.q.length ∧
      match r.q.pop with
      | none => True
      | some (x, q1) => QueueTrace.guarded { r with q := q1, popped := r.popped ++ [x] } ops

/-- The run that starts from an empty `Queue`. -/
def QueueTrace.fresh {T : Type} : QueueTrace T := ⟨Queue.new, [], []⟩

/-! ## main.cpp: handles, notifier, tasks -/

/-- The type `CoroutineHandle`: the address of a coroutine frame, `none` for
`nullptr`. -/
abbrev CoroutineHandle := Option Nat

/-- The type `CoroutineQueue`. -/
abbrev CoroutineQueue := AsyncQueue CoroutineHandle

/-- An OpenGL texture name. -/
abbrev GLuint := Nat

/-- The part of the OpenGL context the program can observe: how many texture
names `glGenTextures` has handed out, and the names passed to
`glDeleteTextures`, in call order. -/
structure GLState where
  generated : Nat
  deleted : List GLuint
deriving DecidableEq, Repr

/-- The call `glGenTextures(1, &id)`: a fresh non-zero name. -/
def glGenTextures (gl : GLState) : GLuint × GLState :=
  (gl.generated + 1, { gl with generated := gl.generated + 1 })

/-- The call `glDeleteTextures(1, &id)`. -/
def glDeleteTextures (gl : GLState) (id : GLuint) : GLState :=
  { gl with deleted := gl.deleted ++ [id] }

/-- The struct `Awaiter`: a continuation and an optional pointer to a shared
`std::atomic<int>`. -/
structure Awaiter where
  coro : CoroutineHandle := none
  count : Option Nat := none
deriving DecidableEq, Repr

/-- The struct `Task<T>::promise_type`. -/
structure promise_type (T : Type) where
  result : T
  awaiter : Awaiter := {}
deriving DecidableEq, Repr

/-- The struct `Task<T>`: the handle it owns, shown together with the promise
stored in the frame that the handle addresses. -/
structure Task (T : Type) where
  coro : CoroutineHandle
  promise : promise_type T
deriving DecidableEq, Repr

/-- The struct `Tile`; `texture` is the array `texture[2]`. -/
structure Tile where
  wip : Bool := false
  color : Nat
  texture : List GLuint := [0, 0]
  released : Bool := false
  current_lod : Int := -1
  pos : Int × Int
deriving DecidableEq, Repr

/-- Where a `build_tile` coroutine is suspended: at `initial_suspend`, at the
first `co_await co_main(...)` (LOD 0) or at the second (LOD 1). -/
inductive BuildPc where
  | initial
  | lod0
  | lod1
deriving DecidableEq, Repr

/-- A live coroutine frame of the tile pipeline.
`upload_texture t finalize promise done`: a `Task<bool>` coroutine, with its
arguments, its promise and whether it has reached `final_suspend`.
`build_tile t pc task awaiter`: a `Task<void>` coroutine with its argument,
its suspension point, the `Task<bool>` owned by the `MainThreadAwaiter`
temporary it is suspended on, and the awaiter of its promise. -/
inductive Frame where
  | upload_texture (t : Nat) (finalize : Bool) (promise : promise_type Bool) (done : Bool)
  | build_tile (t : Nat) (pc : BuildPc) (task : CoroutineHandle) (awaiter : Awaiter)
deriving DecidableEq, Repr

/-- The process state: the two global queues (`none`: the `UniquePtr` is
null), the `std::atomic<int>` cells by address, the coroutine frames by
address (`some none`: destroyed), the handles `destroy()` was called on, the
`Tile` objects by address (`some none`: freed), the GL context, the number
of lines printed by `upload_texture`, the length of the `workers` vector and
`numCPUs`. -/
structure World where
  globalQueue : Option CoroutineQueue
  mainThreadQueue : Option CoroutineQueue
  workers : Nat
  numCPUs : Nat
  atomics : List Int
  frames : List (Option Frame)
  destroyed : List Nat
  tiles : List (Option Tile)
  gl : GLState
  printed : Nat
deriving DecidableEq, Repr

/-- Two's-complement wrap-around of an `int`. -/
def wrap32 (x : Int) : Int := (x + 2 ^ 31) % 2 ^ 32 - 2 ^ 31

/-- The call `coro.destroy()`: frees the frame and runs the destructors of the
objects alive in it.  A `build_tile` frame suspended on a `co_await` holds a
`MainThreadAwaiter` whose `Task<bool>` destroys its own coroutine; the `Tile*`
argument is a plain pointer.  A handle outside `frames` is a coroutine whose
body is not modelled: only the call is recorded.  Destroying through a null
handle or twice is undefined (`none`). -/
def CoroutineHandle.destroy (h : CoroutineHandle) (w : World) : Option World :=
  match h with
  | none => none
  | some a =>
    let w1 := { w with destroyed := w.destroyed ++ [a] }
    match w.frames[a]? with
    | none => some w1
    | some none => none
    | some (some (Frame.upload_texture _ _ _ _)) =>
      some { w1 with frames := w1.frames.set a none }
    | some (some (Frame.build_tile _ pc task _)) =>
      let w2 := { w1 with frames := w1.frames.set a none }
      match pc, task with
      | BuildPc.initial, _ => some w2
      | _, none => some w2
      | _, some u =>
        match w2.frames[u]? with
        | some (some _) =>
          some { w2 with frames := w2.frames.set u none, destroyed := w2.destroyed ++ [u] }
        | _ => none

namespace Awaiter

/-- The member `Awaiter::push_or_destroy`. -/
def push_or_destroy (a : Awaiter) (w : World) : Option World :=
  match w.globalQueue with
  | some q => some { w with globalQueue := some (q.push a.coro) }
  | none => CoroutineHandle.destroy a.coro w

/-- The member `Awaiter::notify`; `count->fetch_add(-1)` is one atomic step
that returns the old value. -/
def notify (a : Awaiter) (w : World) : Option World :=
  if a.coro = none then some w
  else
    match a.count with
    | some p =>
      match w.atomics[p]? with
      | none => none
      | some old =>
        let w1 := { w with atomics := w.atomics.set p (wrap32 (old - 1)) }
        if old = 1 then a.push_or_destroy w1 else some w1
    | none => a.push_or_destroy w

end Awaiter

namespace promise_type

/-- The member `return_value`. -/
def return_value {T : Type} (p : promise_type T) (value : T) : promise_type T :=
  { p with result := value }

end promise_type

namespace Task

variable {T : Type}

/-- The member `Task<T>::await_ready`. -/
def await_ready (_t : Task T) : Bool := false

/-- The member `Task<T>::await_resume`. -/
def await_resume (t : Task T) : T := t.promise.result

/-- The member `Task<T>::await_suspend`; dereferencing a null `globalQueue`
is undefined (`none`). -/
def await_suspend (t : Task T) (c : CoroutineHandle) (w : World) :
    Option (Task T × World) :=
  let t1 := { t with promise := { t.promise with awaiter := { coro := c } } }
  match w.globalQueue with
  | none => none
  | some q => some (t1, { w with globalQueue := some (q.push t.coro) })

/-- The end of a `Task<T>` coroutine body, `co_return value`:
`return_value(value)`, then `final_suspend` returns the promise's awaiter,
whose `await_suspend` calls `notify()`. -/
def co_return (t : Task T) (value : T) (w : World) : Option (Task T × World) :=
  let t1 := { t with promise := t.promise.return_value value }
  match t1.promise.awaiter.notify w with
  | none => none
  | some w1 => some (t1, w1)

end Task

/-! ## main.cpp: combinators -/

/-- The struct `MultiTaskAwaiter<T>`: the tasks, and the address of its
`std::atomic<int> count` member. -/
structure MultiTaskAwaiter (T : Type) where
  tasks : List (Task T)
  count : Nat
deriving DecidableEq, Repr

namespace MultiTaskAwaiter

variable {T : Type}

/-- The constructor: `tasks(std::move(tasks)), count(this->tasks.length())`. -/
def new (tasks : List (Task T)) (w : World) : MultiTaskAwaiter T × World :=
  ({ tasks := tasks, count := w.atomics.length },
   { w with atomics := w.atomics ++ [(tasks.length : Int)] })

/-- The member `await_ready`. -/
def await_ready (_m : MultiTaskAwaiter T) : Bool := false

/-- The member `await_resume`: appends `v.coro.promise().result` for each
task `v` of `tasks`, in vector order. -/
def await_resume (m : MultiTaskAwaiter T) : List T :=
  m.tasks.foldl (fun result v => Vector.append result v.promise.result) []

/-- The loop of `await_suspend` over the tasks that are left. -/
def await_suspend_loop (c : CoroutineHandle) (count : Nat) :
    List (Task T) → World → Option (List (Task T) × World)
  | [], w => some ([], w)
  | t :: ts, w =>
    let t1 := { t with promise := { t.promise with awaiter := { coro := c, count := some count } } }
    match w.globalQueue with
    | none => none
    | some q =>
      match await_suspend_loop c count ts { w with globalQueue := some (q.push t.coro) } with
      | none => none
      | some (ts1, w1) => some (t1 :: ts1, w1)

/-- The member `await_suspend`. -/
def await_suspend (m : MultiTaskAwaiter T) (c : CoroutineHandle) (w : World) :
    Option (MultiTaskAwaiter T × World) :=
  match await_suspend_loop c m.count m.tasks w with
  | none => none
  | some (ts, w1) => some ({ m with tasks := ts }, w1)

/-- Task number `i` of the awaiter runs to its end and returns `vals i`. -/
def finish_task (vals : Nat → T) (s : MultiTaskAwaiter T × World) (i : Nat) :
    Option (MultiTaskAwaiter T × World) :=
  match s.1.tasks[i]? with
  | none => none
  | some t =>
    match t.co_return (vals i) s.2 with
    | none => none
    | some (t1, w1) => some ({ s.1 with tasks := s.1.tasks.set i t1 }, w1)

/-- The tasks finish one after the other in the order given by `order`. -/
def finish_tasks (vals : Nat → T) (s : MultiTaskAwaiter T × World) (order : List Nat) :
    Option (MultiTaskAwaiter T × World) :=
  order.foldlM (finish_task vals) s

end MultiTaskAwaiter

/-- The function `co_all(t, args...)`. -/
def co_all {T : Type} (t : Task T) (args : List (Task T)) (w : World) :
    MultiTaskAwaiter T × World :=
  let v := Vector.append [] t
  let v := args.foldl Vector.append v
  MultiTaskAwaiter.new v w

/-- The struct `MainThreadAwaiter<T>`. -/
structure MainThreadAwaiter (T : Type) where
  task : Task T
deriving DecidableEq, Repr

namespace MainThreadAwaiter

variable {T : Type}

/-- The member `await_ready`. -/
def await_ready (_m : MainThreadAwaiter T) : Bool := false

/-- The member `await_resume`. -/
def await_resume (m : MainThreadAwaiter T) : T := m.task.promise.result

/-- The member `await_suspend`; dereferencing a null `mainThreadQueue` is
undefined (`none`). -/
def await_suspend (m : MainThreadAwaiter T) (c : CoroutineHandle) (w : World) :
    Option (MainThreadAwaiter T × World) :=
  let t1 := { m.task with promise := { m.task.promise with awaiter := { coro := c } } }
  match w.mainThreadQueue with
  | none => none
  | some q => some ({ task := t1 }, { w with mainThreadQueue := some (q.push m.task.coro) })

end MainThreadAwaiter

/-- The function `co_main(task)`. -/
def co_main {T : Type} (task : Task T) : MainThreadAwaiter T := { task := task }

/-! ## main.cpp: worker pool and tile pipeline -/

/-- The process state when `main` starts: both queue pointers null, nothing
allocated. -/
def World.start : World :=
  { globalQueue := none, mainThreadQueue := none, workers := 0, numCPUs := 0,
    atomics := [], frames := [], destroyed := [], tiles := [],
    gl := { generated := 0, deleted := [] }, printed := 0 }

/-- The function `init_workers`; `cpus` is the value of `SDL_GetCPUCount()`. -/
def init_workers (cpus : Nat) (w : World) : World :=
  { w with globalQueue := some AsyncQueue.new, mainThreadQueue := some AsyncQueue.new,
           numCPUs := cpus, workers := w.workers + cpus }

/-- The destructor `Tile::~Tile`: `glDeleteTextures(1, &texture[i])` for
`i = 0 .. current_lod`; reading outside `texture[2]` is undefined (`none`). -/
def Tile.dtor (t : Tile) (gl : GLState) : Option GLState :=
  (List.range (t.current_lod + 1).toNat).foldlM
    (fun g i =>
      match t.texture[i]? with
      | some id => some (glDeleteTextures g id)
      | none => none)
    gl

/-- The function `del_obj<Tile>`: runs the destructor, then frees the object.
Undefined (`none`) on a pointer that is not a live tile. -/
def del_obj (t : Nat) (w : World) : Option World :=
  match w.tiles[t]? with
  | some (some tile) =>
    match tile.dtor w.gl with
    | none => none
    | some gl1 => some { w with gl := gl1, tiles := w.tiles.set t none }
  | _ => none

/-- The function `release_tile`. -/
def release_tile (t : Nat) (w : World) : Option World :=
  match w.tiles[t]? with
  | some (some tile) =>
    if tile.wip then
      some { w with tiles := w.tiles.set t (some { tile with released := true }) }
    else
      del_obj t w
  | _ => none

/-- The call `upload_texture(t, data, size, finalize)`: allocates the
coroutine frame, which stays suspended at `initial_suspend`, and returns the
`Task<bool>`. -/
def upload_texture (t : Nat) (finalize : Bool) (w : World) : Task Bool × World :=
  ({ coro := some w.frames.length, promise := { result := false } },
   { w with frames := w.frames ++
       [some (Frame.upload_texture t finalize { result := false } false)] })

/-- The statement `co_return value` of the `upload_texture` frame at `h`:
`return_value(value)`, the frame is at `final_suspend`, whose awaiter calls
`notify()`. -/
def upload_texture.co_return (h t : Nat) (finalize : Bool) (promise : promise_type Bool)
    (value : Bool) (w : World) : Option World :=
  let promise1 := promise.return_value value
  let w1 := { w with
      frames := w.frames.set h (some (Frame.upload_texture t finalize promise1 true)) }
  promise1.awaiter.notify w1

/-- The body of `upload_texture`, run by the first `resume()` of its frame at
`h`; `err` tells whether `glGetError()` reports an error. -/
def upload_texture.body (h t : Nat) (finalize : Bool) (promise : promise_type Bool)
    (err : Bool) (w : World) : Option World :=
  let (id, gl1) := glGenTextures w.gl
  let w1 := { w with gl := gl1, printed := if err then w.printed + 1 else w.printed }
  match w1.tiles[t]? with
  | some (some tile) =>
    let lod := tile.current_lod + 1
    if 0 ≤ lod ∧ lod < 2 then
      let tile1 := { tile with current_lod := lod, texture := tile.texture.set lod.toNat id }
      let tile2 := if finalize then { tile1 with wip := false } else tile1
      let w2 := { w1 with tiles := w1.tiles.set t (some tile2) }
      if tile2.released then
        match del_obj t w2 with
        | none => none
        | some w3 => upload_texture.co_return h t finalize promise false w3
      else
        upload_texture.co_return h t finalize promise true w2
    else none
  | _ => none

/-- The call `build_tile(tile, ...)`: allocates the coroutine frame, which
stays suspended at `initial_suspend`; the result is the `.coro` of the
returned `Task<void>`. -/
def build_tile (t : Nat) (w : World) : CoroutineHandle × World :=
  (some w.frames.length,
   { w with frames := w.frames ++ [some (Frame.build_tile t BuildPc.initial none {})] })

/-- The expression `co_await co_main(upload_texture(t, data, size, finalize))`
up to the suspension of the `build_tile` frame at `h`. -/
def build_tile.await_upload (h t : Nat) (finalize : Bool) (awaiter : Awaiter) (w : World) :
    Option World :=
  let (task, w1) := upload_texture t finalize w
  match (co_main task).await_suspend (some h) w1, task.coro with
  | some (m, w2), some u =>
    let pc := if finalize then BuildPc.lod1 else BuildPc.lod0
    some { w2 with
      frames := (w2.frames.set u
        (some (Frame.upload_texture t finalize m.task.promise false))).set h
        (some (Frame.build_tile t pc m.task.coro awaiter)) }
  | _, _ => none

/-- The end of the `build_tile` body: `return_void` calls `awaiter.notify()`,
and, `final_suspend` being `suspend_never`, the frame is freed. -/
def build_tile.co_return (h : Nat) (awaiter : Awaiter) (w : World) : Option World :=
  match awaiter.notify w with
  | none => none
  | some w1 => some { w1 with frames := w1.frames.set h none }

/-- The body of `build_tile`, from the suspension point `pc` of its frame at
`h` to the next one.  Only the first part reads the tile (`t->pos`).  After a
`co_await` the result is read from the promise of the awaited task and the
`MainThreadAwaiter` temporary, with its `Task<bool>`, is destroyed. -/
def build_tile.body (h t : Nat) (pc : BuildPc) (task : CoroutineHandle) (awaiter : Awaiter)
    (w : World) : Option World :=
  match pc with
  | BuildPc.initial =>
    match w.tiles[t]? with
    | some (some _) => build_tile.await_upload h t false awaiter w
    | _ => none
  | BuildPc.lod0 =>
    match task with
    | none => none
    | some u =>
      match w.frames[u]? with
      | some (some (Frame.upload_texture _ _ promise _)) =>
        match CoroutineHandle.destroy (some u) w with
        | none => none
        | some w1 =>
          if !promise.result then build_tile.co_return h awaiter w1
          else build_tile.await_upload h t true awaiter w1
      | _ => none
  | BuildPc.lod1 =>
    match task with
    | none => none
    | some u =>
      match w.frames[u]? with
      | some (some (Frame.upload_texture _ _ _ _)) =>
        match CoroutineHandle.destroy (some u) w with
        | none => none
        | some w1 => build_tile.co_return h awaiter w1
      | _ => none

/-- The call `h.done()`; undefined (`none`) on a handle without a live frame. -/
def CoroutineHandle.done (h : CoroutineHandle) (w : World) : Option Bool :=
  match h with
  | none => none
  | some a =>
    match w.frames[a]? with
    | some (some (Frame.upload_texture _ _ _ d)) => some d
    | some (some (Frame.build_tile _ _ _ _)) => some false
    | _ => none

/-- The call `h.resume()`: runs the coroutine from its suspension point to the
next one.  Undefined (`none`) on a null handle, a freed frame or a coroutine
that is at its final suspension point. -/
def CoroutineHandle.resume (h : CoroutineHandle) (err : Bool) (w : World) : Option World :=
  match h with
  | none => none
  | some a =>
    match w.frames[a]? with
    | some (some (Frame.upload_texture t finalize promise false)) =>
      upload_texture.body a t finalize promise err w
    | some (some (Frame.build_tile t pc task awaiter)) =>
      build_tile.body a t pc task awaiter w
    | _ => none

/-- What one turn of the loop of `worker_thread` did. -/
inductive WorkerStatus where
  | waiting
  | returned
  | looping
deriving DecidableEq, Repr

/-- One turn of the `while (true)` loop of `worker_thread`: `pop()` waits on
an empty queue; a null item makes the thread return; an item that is not
`done()` is resumed. -/
def worker_thread.turn (err : Bool) (w : World) : Option (WorkerStatus × World) :=
  match w.globalQueue with
  | none => none
  | some q =>
    match q.pop with
    | none => some (WorkerStatus.waiting, w)
    | some (next, q1) =>
      let w1 := { w with globalQueue := some q1 }
      match next with
      | none => some (WorkerStatus.returned, w1)
      | some a =>
        match CoroutineHandle.done (some a) w1 with
        | none => none
        | some true => some (WorkerStatus.looping, w1)
        | some false =>
          match CoroutineHandle.resume (some a) err w1 with
          | none => none
          | some w2 => some (WorkerStatus.looping, w2)

/-- The function `worker_thread`, for at most `fuel` turns of its loop. -/
def worker_thread (err : Bool) : Nat → World → Option (WorkerStatus × World)
  | 0, w => some (WorkerStatus.looping, w)
  | fuel + 1, w =>
    match worker_thread.turn err w with
    | none => none
    | some (WorkerStatus.looping, w1) => worker_thread err fuel w1
    | some r => some r

/-- The function `terminate_workers`: one null handle per worker. -/
def terminate_workers (w : World) : Option World :=
  match w.globalQueue with
  | none => if w.workers = 0 then some w else none
  | some q =>
    some { w with
      globalQueue := some ((List.range w.workers).foldl (fun q1 _ => q1.push none) q) }

/-- The loop `for (auto c : buf) c.resume()` on the main thread. -/
def resume_all (err : Bool) : List CoroutineHandle → World → Option World
  | [], w => some w
  | c :: buf, w =>
    match CoroutineHandle.resume c err w with
    | none => none
    | some w1 => resume_all err buf w1

/-- The head of the loop of `main_loop`: drain the main-thread queue and
resume what it held. -/
def main_loop.drain (err : Bool) (w : World) : Option World :=
  match w.mainThreadQueue with
  | none => none
  | some mq =>
    match mq.try_pop_all [] with
    | (true, buf, mq1) => resume_all err buf { w with mainThreadQueue := some mq1 }
    | (false, _, _) => some w

/-- The function `wait_for_workers`, entered once every worker thread has
returned (the `SDL_WaitThread` calls). -/
def wait_for_workers (err : Bool) (w : World) : Option World :=
  let w1 := { w with workers := 0, globalQueue := none }
  match w1.mainThreadQueue with
  | none => none
  | some mq =>
    match mq.try_pop_all [] with
    | (_, buf, mq1) =>
      match resume_all err buf { w1 with mainThreadQueue := some mq1 } with
      | none => none
      | some w2 => some { w2 with mainThreadQueue := none }

/-- The struct `TileManager`, without the two `Vec2d` members `offset` and
`scale`, which only reach the image computation. -/
structure TileManager where
  screen_offset : Vec2i := (0, 0)
  tile_size : Vec2i
  tiles : List Nat := []
  tile_bits : List Bool := []
deriving DecidableEq, Repr

/-- The body of the inner loop of `TileManager::update` for one window
position without a tile: `new_obj<Tile>(pos, ...)`, `tiles.append(tile)`,
`tile->wip = true`, `globalQueue->push(build_tile(tile, ...).coro)`.
`color` is the value the constructor computes with `mandelbrot_at`. -/
def TileManager.add_tile (tm : TileManager) (pos : Int × Int) (color : Nat) (w : World) :
    Option (TileManager × World) :=
  let tile := w.tiles.length
  let fresh : Tile := { color := color, pos := pos }
  let w1 : World := { w with tiles := w.tiles ++ [some fresh] }
  let tm1 : TileManager := { tm with tiles := Vector.append tm.tiles tile }
  let w2 : World := { w1 with tiles := w1.tiles.set tile (some { fresh with wip := true }) }
  match build_tile tile w2 with
  | (coro, w3) =>
    match w3.globalQueue with
    | none => none
    | some q => some (tm1, { w3 with globalQueue := some (q.push coro) })

/-- The loop `for (auto t : tiles) release_tile(t)`. -/
def release_tiles : List Nat → World → Option World
  | [], w => some w
  | t :: ts, w =>
    match release_tile t w with
    | none => none
    | some w1 => release_tiles ts w1

/-- The destructor `TileManager::~TileManager`. -/
def TileManager.dtor (tm : TileManager) (w : World) : Option World :=
  release_tiles tm.tiles w

/-- The value `vis` of `TileManager::update`: the visible size in tiles. -/
def TileManager.update.vis (tile_size : Vec2i) (s : Rect) : Vec2i :=
  Vec2i.add (Vec2i.div s.size tile_size) (2, 2)

/-- The value `base` of `TileManager::update`: the offset of the screen in
tiles. -/
def TileManager.update.base (tile_size : Vec2i) (s : Rect) : Vec2i :=
  floor_div s.top_left tile_size

/-- The first loop of `TileManager::update`, entered at index `i`, for at most
`fuel` turns: a tile whose grid index lies outside `visrect` is removed with
`quick_remove(i--)` and released, any other tile is marked in the bit array.
Reading a tile that is not alive is undefined (`none`). -/
def TileManager.update.scan (tile_size base vis : Vec2i) :
    Nat → Nat → List Nat → List Bool → World → Option (List Nat × List Bool × World)
  | 0, _, tiles, bits, w => some (tiles, bits, w)
  | fuel + 1, i, tiles, bits, w =>
    match tiles[i]? with
    | none => some (tiles, bits, w)
    | some t =>
      match w.tiles[t]? with
      | some (some tile) =>
        let index := Vec2i.sub (Vec2i.div tile.pos tile_size) base
        if !contains (Rect_WH (0, 0) vis) index then
          match release_tile t w with
          | none => none
          | some w1 =>
            TileManager.update.scan tile_size base vis fuel i (Vector.quick_remove tiles i)
              bits w1
        else
          TileManager.update.scan tile_size base vis fuel (i + 1) tiles
            (BitArray.set_bit bits (index.2 * vis.1 + index.1)) w
      | _ => none

/-- The body of the second loop of `TileManager::update` at window position
`(x, y)`; `color` gives the placeholder colour the `Tile` constructor computes
for a position. -/
def TileManager.update.visit (base vis : Vec2i) (bits : List Bool) (color : Vec2i → Nat)
    (st : TileManager × World) (xy : Nat × Nat) : Option (TileManager × World) :=
  let offset : Int := (xy.2 : Int) * vis.1 + (xy.1 : Int)
  if BitArray.test_bit bits offset then some st
  else
    let pos := Vec2i.mul (Vec2i.add base ((xy.1 : Int), (xy.2 : Int))) st.1.tile_size
    TileManager.add_tile st.1 pos (color pos) st.2

/-- The window positions in the order of the second loop of
`TileManager::update`: `y` outer, `x` inner. -/
def TileManager.update.positions (vis : Vec2i) : List (Nat × Nat) :=
  (List.range vis.2.toNat).flatMap (fun y => (List.range vis.1.toNat).map (fun x => (x, y)))

/-- The member `TileManager::update`. -/
def TileManager.update (tm : TileManager) (s : Rect) (color : Vec2i → Nat) (w : World) :
    Option (TileManager × World) :=
  let vis := TileManager.update.vis tm.tile_size s
  let vis_area := area vis
  let tile_bits :=
    if (tm.tile_bits.length : Int) ≠ vis_area then BitArray.new vis_area
    else BitArray.clear tm.tile_bits
  let base := TileManager.update.base tm.tile_size s
  match TileManager.update.scan tm.tile_size base vis tm.tiles.length 0 tm.tiles tile_bits w with
  | none => none
  | some (tiles, bits, w1) =>
    (TileManager.update.positions vis).foldlM
      (TileManager.update.visit base vis bits color)
      ({ tm with screen_offset := s.top_left, tiles := tiles, tile_bits := bits }, w1)

/-- The expression `co_await co_main(task)` in the coroutine `c`, followed
by the end of the task's body, `co_return value`. -/
def co_main_then_finish {T : Type} (task : Task T) (c : CoroutineHandle) (value : T)
    (w : World) : Option (Task T × World) :=
  match (co_main task).await_suspend c w with
  | none => none
  | some (m, w1) => m.task.co_return value w1

/-- The expression `co_await task` in the coroutine `c`, for the `Task<bool>`
whose coroutine frame is at `u`, up to the suspension of `c`: `await_ready()`
is false, so `await_suspend(c)` runs on the promise stored in that frame. -/
def Task.co_await (u : Nat) (c : CoroutineHandle) (w : World) : Option World :=
  match w.frames[u]? with
  | some (some (Frame.upload_texture t finalize promise done)) =>
    let task : Task Bool := { coro := some u, promise := promise }
    if task.await_ready then some w
    else
      match task.await_suspend c w with
      | none => none
      | some (t1, w1) =>
        some { w1 with
          frames := w1.frames.set u (some (Frame.upload_texture t finalize t1.promise done)) }
  | _ => none

/-- The state in which an `upload_texture` checkpoint on a released tile
hands over to `notify()`: one more texture name generated, every texture of
the tile (the new one included) deleted, the `Tile` object freed, the line of
a failed upload printed, and the task at its final suspension point with
result `false`. -/
def released_checkpoint (u t : Nat) (finalize : Bool) (promise : promise_type Bool)
    (err : Bool) (w : World) (tile : Tile) : World :=
  { w with
    gl := { generated := w.gl.generated + 1,
            deleted := w.gl.deleted ++
              (tile.texture.set (tile.current_lod + 1).toNat (w.gl.generated + 1)).take
                (tile.current_lod + 1 + 1).toNat },
    printed := if err then w.printed + 1 else w.printed,
    tiles := w.tiles.set t none,
    frames := w.frames.set u
      (some (Frame.upload_texture t finalize { promise with result := false } true)) }

/-- The state in which an `upload_texture` checkpoint on a tile that is not
released hands over to `notify()`: one more texture name generated and stored
as the next level of the tile, `wip` cleared by a finalizing upload, the line
of a failed upload printed, and the task at its final suspension point with
result `true`. -/
def advanced_checkpoint (u t : Nat) (finalize : Bool) (promise : promise_type Bool)
    (err : Bool) (w : World) (tile : Tile) : World :=
  { w with
    gl := { w.gl with generated := w.gl.generated + 1 },
    printed := if err then w.printed + 1 else w.printed,
    tiles := w.tiles.set t
      (some { tile with
        current_lod := tile.current_lod + 1,
        texture := tile.texture.set (tile.current_lod + 1).toNat (w.gl.generated + 1),
        wip := if finalize then false else tile.wip }),
    frames := w.frames.set u
      (some (Frame.upload_texture t finalize { promise with result := true } true)) }

/-- One turn of the loop of `worker_thread` on a queue whose head is the
non-null item `a`: the item is popped, and resumed unless it is `done()`.
`none` when the head of the queue is not `a`, or when the turn is undefined. -/
def worker_thread.process (err : Bool) (w : World) (a : Nat) : Option World :=
  match w.globalQueue with
  | some ⟨next :: rest⟩ =>
    if next = some a then
      let w1 := { w with globalQueue := some ⟨rest⟩ }
      match CoroutineHandle.done (some a) w1 with
      | none => none
      | some true => some w1
      | some false => CoroutineHandle.resume (some a) err w1
    else none
  | _ => none

/-- The stages of the production of one tile that is not released: the
`build_tile` task created; the coarse upload pending on the main-thread queue
(task `u`); the coarse upload done (texture `id0`); the full upload pending;
the full upload done (texture `id1`); `build_tile` run to completion. -/
inductive ProdStage where
  | created
  | coarse_pending (u : Nat)
  | coarse_done (u : Nat) (id0 : GLuint)
  | full_pending (u : Nat) (id0 : GLuint)
  | full_done (u : Nat) (id0 id1 : GLuint)
  | finished (id0 id1 : GLuint)
deriving DecidableEq, Repr

/-- The tile at `t` is alive and not released, with the given `wip` and
`current_lod`, and its first `current_lod + 1` texture handles are `ids`. -/
def tile_state (w : World) (t : Nat) (wip : Bool) (lod : Int) (ids : List GLuint) : Prop :=
  ∃ tile, w.tiles[t]? = some (some tile) ∧ tile.released = false ∧ tile.wip = wip
    ∧ tile.current_lod = lod ∧ tile.texture.length = 2
    ∧ tile.texture.take (lod + 1).toNat = ids

/-- The production of the tile at `t` by the `build_tile` frame at `b` is at
the given stage: the frames of the task and of the upload it awaits, and the
state of the tile. -/
def Production (b t : Nat) : ProdStage → World → Prop
  | .created, w =>
    w.frames[b]? = some (some (Frame.build_tile t BuildPc.initial none {}))
    ∧ tile_state w t true (-1) []
  | .coarse_pending u, w =>
    w.frames[b]? = some (some (Frame.build_tile t BuildPc.lod0 (some u) {}))
    ∧ w.frames[u]? = some (some (Frame.upload_texture t false
        { result := false, awaiter := { coro := some b } } false))
    ∧ tile_state w t true (-1) []
  | .coarse_done u id0, w =>
    w.frames[b]? = some (some (Frame.build_tile t BuildPc.lod0 (some u) {}))
    ∧ w.frames[u]? = some (some (Frame.upload_texture t false
        { result := true, awaiter := { coro := some b } } true))
    ∧ tile_state w t true 0 [id0]
  | .full_pending u id0, w =>
    w.frames[b]? = some (some (Frame.build_tile t BuildPc.lod1 (some u) {}))
    ∧ w.frames[u]? = some (some (Frame.upload_texture t true
        { result := false, awaiter := { coro := some b } } false))
    ∧ tile_state w t true 0 [id0]
  | .full_done u id0 id1, w =>
    w.frames[b]? = some (some (Frame.build_tile t BuildPc.lod1 (some u) {}))
    ∧ w.frames[u]? = some (some (Frame.upload_texture t true
        { result := true, awaiter := { coro := some b } } true))
    ∧ tile_state w t false 1 [id0, id1]
  | .finished id0 id1, w =>
    w.frames[b]? = some none
    ∧ tile_state w t false 1 [id0, id1]

/-- The awaiter stored in the promise of a coroutine frame. -/
def Frame.awaiter : Frame → Awaiter
  | .upload_texture _ _ promise _ => promise.awaiter
  | .build_tile _ _ _ awaiter => awaiter

/-- Whether a frame belongs to an `upload_texture` coroutine. -/
def Frame.isUpload : Frame → Bool
  | .upload_texture _ _ _ _ => true
  | .build_tile _ _ _ _ => false

/-- The handle `a` addresses a frame slot that holds no `upload_texture`
coroutine: the slot exists, and a live frame in it is a `build_tile` frame. -/
def not_upload (frames : List (Option Frame)) (a : Nat) : Prop :=
  a < frames.length ∧ ∀ f, frames[a]? = some (some f) → f.isUpload = false

/-- The invariant that keeps checkpoints on the main thread: no handle on the
worker queue, and no continuation held by a notifier, addresses an
`upload_texture` coroutine. -/
def PipelineInv (frames : List (Option Frame)) (gq : Option CoroutineQueue) : Prop :=
  (∀ q a, gq = some q → some a ∈ q.queue → not_upload frames a)
  ∧ (∀ (x : Nat) (f : Frame) (b : Nat),
      frames[x]? = some (some f) → f.awaiter.coro = some b → not_upload frames b)

/-- One step of the tile pipeline: an `update`, a `release_tile`, one turn of
a worker thread, one drain of the main-thread queue by `main_loop`, or the two
halves of the shutdown. -/
inductive PipelineStep (w : World) : World → Prop where
  | update (tm tm1 : TileManager) (s : Rect) (color : Vec2i → Nat) (w1 : World) :
      TileManager.update tm s color w = some (tm1, w1) → PipelineStep w w1
  | release (t : Nat) (w1 : World) : release_tile t w = some w1 → PipelineStep w w1
  | worker (err : Bool) (status : WorkerStatus) (w1 : World) :
      worker_thread.turn err w = some (status, w1) → PipelineStep w w1
  | drain (err : Bool) (w1 : World) : main_loop.drain err w = some w1 → PipelineStep w w1
  | terminate (w1 : World) : terminate_workers w = some w1 → PipelineStep w w1
  | wait (err : Bool) (w1 : World) : wait_for_workers err w = some w1 → PipelineStep w w1

/-- The states the tile pipeline can reach from `init_workers`. -/
inductive Reachable : World → Prop where
  | init (cpus : Nat) : Reachable (init_workers cpus World.start)
  | step (w w1 : World) : Reachable w → PipelineStep w w1 → Reachable w1

/-- The tile that the second loop of `update` creates for the window position
`xy`: at pixel position `(base + xy) * tile_size`, with `wip` set. -/
def TileManager.update.new_tile (tile_size base : Vec2i) (color : Vec2i → Nat)
    (xy : Nat × Nat) : Tile :=
  { color := color (Vec2i.mul (Vec2i.add base ((xy.1 : Int), (xy.2 : Int))) tile_size),
    pos := Vec2i.mul (Vec2i.add base ((xy.1 : Int), (xy.2 : Int))) tile_size,
    wip := true }

/-- The grid index of the tile at `t` relative to `base`, as the first loop of
`update` computes it: `t->pos / tile_size - base`. -/
def TileManager.update.index (tile_size base : Vec2i) (w : World) (t : Nat) : Option Vec2i :=
  match w.tiles[t]? with
  | some (some tile) => some (Vec2i.sub (Vec2i.div tile.pos tile_size) base)
  | _ => none

/-- Whether the first loop of `update` keeps the tile at `t`: its grid index
lies in `visrect`. -/
def TileManager.update.inside (tile_size base vis : Vec2i) (w : World) (t : Nat) : Bool :=
  match TileManager.update.index tile_size base w t with
  | some index => contains (Rect_WH (0, 0) vis) index
  | none => false

/-- The window positions the second loop of `update` finds without a tile:
those that are the grid index of no tile of `kept`. -/
def TileManager.update.missing (tile_size base vis : Vec2i) (w : World) (kept : List Nat) :
    List (Nat × Nat) :=
  (TileManager.update.positions vis).filter (fun xy =>
    !(kept.any (fun t =>
      TileManager.update.index tile_size base w t == some ((xy.1 : Int), (xy.2 : Int)))))

/-- The positions of `xys` whose bit is clear in `bits`: those for which the
second loop of `update` creates a tile. -/
def TileManager.update.unmarked (vis : Vec2i) (bits : List Bool) (xys : List (Nat × Nat)) :
    List (Nat × Nat) :=
  xys.filter (fun xy => !BitArray.test_bit bits ((xy.2 : Int) * vis.1 + (xy.1 : Int)))

/-- The pixel position of the tile at `t`, when it is alive. -/
def tile_pos (w : World) (t : Nat) : Option Vec2i :=
  match w.tiles[t]? with
  | some (some tile) => some tile.pos
  | _ => none

/-- How the frame list changes in a step: slots are only added, and a live
frame in an old slot was live before, of the same coroutine and with the same
awaiter. -/
def FramesEvolve (fs fs1 : List (Option Frame)) : Prop :=
  fs.length ≤ fs1.length
  ∧ ∀ i f1, i < fs.length → fs1[i]? = some (some f1) →
      ∃ f, fs[i]? = some (some f) ∧ f.isUpload = f1.isUpload ∧ f.awaiter = f1.awaiter

/-- The bit array after the first loop of `update` has marked the tile at
`t`: `tile_bits.set_bit(index.y * vis.x + index.x)`. -/
def TileManager.update.mark (tile_size base vis : Vec2i) (w : World) (bits : List Bool)
    (t : Nat) : List Bool :=
  match TileManager.update.index tile_size base w t with
  | some index => BitArray.set_bit bits (index.2 * vis.1 + index.1)
  | none => bits

/-- The pixel position of the grid coordinate `base + (x, y)`. -/
def TileManager.update.pos_of (tile_size base : Vec2i) (xy : Nat × Nat) : Vec2i :=
  Vec2i.mul (Vec2i.add base ((xy.1 : Int), (xy.2 : Int))) tile_size

/-- The visible window as pixel positions: one for each grid coordinate
`base + (x, y)` with `0 <= x < vis.x` and `0 <= y < vis.y`. -/
def TileManager.update.window (tile_size base vis : Vec2i) : List Vec2i :=
  (TileManager.update.positions vis).map (TileManager.update.pos_of tile_size base)

/-- Whether the tile at `t` sits on a grid coordinate of the window. -/
def TileManager.update.in_window (tile_size base vis : Vec2i) (w : World) (t : Nat) : Bool :=
  match tile_pos w t with
  | some p => decide (p ∈ TileManager.update.window tile_size base vis)
  | none => false

/-- The slot of the task that owns the handle `c`, among the handles `cs` of
the awaiter's tasks in vector order; `cs.length` when no task owns it. -/
def MultiTaskAwaiter.slot_of (c : CoroutineHandle) : List CoroutineHandle → Nat
  | [] => 0
  | x :: xs => if x = c then 0 else MultiTaskAwaiter.slot_of c xs + 1

/-- The coroutine with handle `c` runs to its end and returns `res c`: the
value lands in the promise of the frame that `c` addresses, which the awaiter
reaches through the task that owns `c`, and `final_suspend` notifies. A handle
that none of the tasks owns is not one of the awaited coroutines (`none`). -/
def MultiTaskAwaiter.finish_coro {T : Type} (res : CoroutineHandle → T)
    (s : MultiTaskAwaiter T × World) (c : CoroutineHandle) :
    Option (MultiTaskAwaiter T × World) :=
  let i := MultiTaskAwaiter.slot_of c (s.1.tasks.map (fun t => t.coro))
  match s.1.tasks[i]? with
  | none => none
  | some t =>
    match t.co_return (res c) s.2 with
    | none => none
    | some (t1, w1) => some ({ s.1 with tasks := s.1.tasks.set i t1 }, w1)

/-- The awaited coroutines finish one after the other in the order given by
`order`. -/
def MultiTaskAwaiter.finish_coros {T : Type} (res : CoroutineHandle → T)
    (s : MultiTaskAwaiter T × World) (order : List CoroutineHandle) :
    Option (MultiTaskAwaiter T × World) :=
  order.foldlM (MultiTaskAwaiter.finish_coro res) s

/-! ## Example inputs -/

/-- A process right after `init_workers` on a two-core machine. -/
def exampleWorld : World := init_workers 2 World.start

/-- Three `Task<int>` values, as three distinct coroutines. -/
def exampleTasks : List (Task Nat) :=
  [{ coro := some 10, promise := { result := 0 } },
   { coro := some 11, promise := { result := 0 } },
   { coro := some 12, promise := { result := 0 } }]

/-- The value task `i` returns in the examples. -/
def exampleVals (i : Nat) : Nat := 100 + i

/-- The value the coroutine with handle `c` returns in the examples. -/
def exampleResults (c : CoroutineHandle) : Nat := 200 + c.getD 0

/-- A process with one tile in production and an `upload_texture` task for
it that nobody has awaited yet. -/
def exampleUpload : World :=
  (upload_texture 0 false
    { exampleWorld with tiles := [some { color := 5, pos := (0, 0), wip := true }] }).2

/-- The first await on the task of `exampleUpload` by coroutine 7, the worker
turn that runs the task to completion, and the pop of the notified coroutine 7
from the worker queue. -/
def exampleAwaitedOnce : Option World :=
  match Task.co_await 0 (some 7) exampleUpload with
  | none => none
  | some w1 =>
    match worker_thread.turn false w1 with
    | none => none
    | some (_, w2) =>
      match w2.globalQueue with
      | none => none
      | some q =>
        match q.pop with
        | none => none
        | some (_, q1) => some { w2 with globalQueue := some q1 }

/-- One turn of a worker thread, keeping only the state. -/
def workerTurn (err : Bool) (w : World) : Option World :=
  (worker_thread.turn err w).map Prod.snd

/-- The example process after `update` has created one tile at the origin. -/
def exampleSpawned : Option World :=
  (TileManager.add_tile { tile_size := (128, 128) } (0, 0) 5 exampleWorld).map Prod.snd

/-- A worker has run `build_tile` up to its first checkpoint: the first
`upload_texture` task is on the main-thread queue. -/
def exampleLod0Pending : Option World := exampleSpawned.bind (workerTurn false)

/-- The main thread has run the first checkpoint and a worker has run
`build_tile` up to its second one. -/
def exampleLod1Pending : Option World :=
  (exampleLod0Pending.bind (main_loop.drain false)).bind (workerTurn false)

/-- The production of the example tile has run to its end. -/
def exampleBuilt : Option World :=
  (exampleLod1Pending.bind (main_loop.drain false)).bind (workerTurn false)

/-- The example tile is released while its first checkpoint is pending. -/
def exampleReleased : Option World := exampleLod0Pending.bind (release_tile 0)

/-- The end of `main_loop` while the first checkpoint of the example tile is
pending: `terminate_workers()`, the two workers pop their stop items and
return, `wait_for_workers()`, and then the destructor of the `TileManager`
that holds the tile. -/
def exampleTeardown : Option World :=
  ((((exampleLod0Pending.bind terminate_workers).bind (workerTurn false)).bind
    (workerTurn false)).bind (wait_for_workers false)).bind (TileManager.dtor { tile_size := (128, 128), tiles := [0] })

/-- The example tile as `update` leaves it: in production, nothing uploaded. -/
def exampleTile : Tile := { wip := true, color := 5, pos := (0, 0) }

/-- The released example tile after the main thread has run its pending
checkpoint. -/
def exampleReleasedDone : Option World := exampleReleased.bind (main_loop.drain false)

/-- The example process after `update` on an empty `TileManager` with tiles of
128 pixels and a 100 x 100 screen at the origin: four tiles in production. -/
def exampleUpdated : Option (TileManager × World) :=
  TileManager.update { tile_size := (128, 128) } (Rect_WH (0, 0) (100, 100)) (fun _ => 5)
    exampleWorld

/-- The state of `exampleUpdated` after one worker turn. -/
def exampleUpdatedTurn : Option (WorkerStatus × World) :=
  worker_thread.turn false (exampleUpdated.getD ({ tile_size := (128, 128) }, World.start)).2

/-- The example process with one tile spawned after `terminate_workers`: the
worker queue holds the `build_tile` task and two stop items. -/
def exampleTerminating : Option World := exampleSpawned.bind terminate_workers

/-- The `TileManager` and the process of `exampleUpdated`: four tiles, on the
grid coordinates (0,0), (1,0), (0,1) and (1,1). -/
def exampleManaged : TileManager × World :=
  exampleUpdated.getD ({ tile_size := (128, 128) }, World.start)

/-- The screen of `exampleUpdated` scrolled 100 pixels to the left and 5 down:
its window holds the grid coordinates (-1,0), (0,0), (-1,1) and (0,1). -/
def exampleScrolled : Rect := Rect_WH (-100, 5) (100, 100)

/-! ## Properties of AsyncQueue -/

theorem Vector.copy_resize {T : Type} [Inhabited T] (out src : List T) :
    Vector.copy (Vector.resize out src.length) src = src := by
  have hlen : (Vector.resize out src.length).length = src.length := by
    simp only [Vector.resize, List.length_append, List.length_take, List.length_replicate]
    omega
  simp [Vector.copy, hlen]

theorem QueueRun.step_inv {T : Type} (r : QueueRun T) (op : QueueOp T) (base : List T)
    (h : r.popped ++ r.q.queue = base ++ r.pushed) :
    (r.step op).popped ++ (r.step op).q.queue = base ++ (r.step op).pushed := by
  cases op with
  | push elem =>
    simp only [QueueRun.step, AsyncQueue.push, Vector.append]
    rw [← List.append_assoc, h, List.append_assoc]
  | pop =>
    simp only [QueueRun.step, AsyncQueue.pop]
    cases hq : r.q.queue with
    | nil => simpa [hq] using h
    | cons x rest =>
      simp only [Vector.remove, List.eraseIdx_cons_zero]
      rw [hq] at h
      simpa using h

theorem QueueRun.run_inv {T : Type} (ops : List (QueueOp T)) (r : QueueRun T)
    (base : List T) (h : r.popped ++ r.q.queue = base ++ r.pushed) :
    (r.run ops).popped ++ (r.run ops).q.queue = base ++ (r.run ops).pushed := by
  induction ops generalizing r with
  | nil => simpa [QueueRun.run] using h
  | cons op ops ih =>
    simpa [QueueRun.run] using ih (r.step op) (QueueRun.step_inv r op base h)

/-- C1: for every sequence of push and pop calls on a fresh AsyncQueue, the
items returned by the pops (in return order) followed by the items still
queued are exactly the pushed items in push order; so the popped items are an
initial segment of the pushed ones, the queued ones are the rest, and no item
is lost or duplicated. -/
theorem asyncQueue_lossless_fifo {T : Type} (ops : List (QueueOp T)) :
    (QueueRun.fresh.run ops).popped ++ (QueueRun.fresh.run ops).q.queue
        = (QueueRun.fresh.run ops).pushed
      ∧ (QueueRun.fresh.run ops).popped
        = (QueueRun.fresh.run ops).pushed.take (QueueRun.fresh.run ops).popped.length
      ∧ (QueueRun.fresh.run ops).q.queue
        = (QueueRun.fresh.run ops).pushed.drop (QueueRun.fresh.run ops).popped.length := by
  have h := QueueRun.run_inv ops (QueueRun.fresh : QueueRun T) [] (by
    simp [QueueRun.fresh, AsyncQueue.new])
  simp only [List.nil_append] at h
  refine ⟨h, ?_, ?_⟩
  · rw [← h]; simp
  · rw [← h]; simp

/-- C2: try_pop_all returns true exactly when the queue is non-empty; on true
the output vector is the queue content in FIFO order whatever it held before
and the queue is empty; on false queue and output are unchanged; pop_all on a
non-empty queue returns and has the effect of the true case. -/
theorem asyncQueue_drain_all {T : Type} [Inhabited T] (q : AsyncQueue T) (out : List T) :
    ((q.try_pop_all out).1 = true ↔ q.queue ≠ [])
      ∧ ((q.try_pop_all out).1 = true →
          (q.try_pop_all out).2.1 = q.queue ∧ (q.try_pop_all out).2.2.queue = [])
      ∧ ((q.try_pop_all out).1 = false →
          (q.try_pop_all out).2.1 = out ∧ (q.try_pop_all out).2.2 = q)
      ∧ (q.queue ≠ [] →
          q.pop_all out = some ((q.try_pop_all out).2.1, (q.try_pop_all out).2.2)
            ∧ q.pop_all out = some (q.queue, ⟨[]⟩)) := by
  by_cases hq : q.queue = []
  · simp [AsyncQueue.try_pop_all, AsyncQueue.pop_all, hq]
  · have hlen : ¬ q.queue.length = 0 := by
      simpa [List.length_eq_zero] using hq
    simp [AsyncQueue.try_pop_all, AsyncQueue.pop_all, hq, hlen, Vector.copy_resize,
      Vector.clear]

/-! ## Properties of the combinators -/

theorem wrap32_of_small (n : Nat) (h : n < 2 ^ 31) : wrap32 ((n : Int) + 1 - 1) = n := by
  unfold wrap32
  norm_num at h ⊢
  omega

theorem MultiTaskAwaiter.await_resume_eq {T : Type} (m : MultiTaskAwaiter T) :
    m.await_resume = m.tasks.map (fun v => v.promise.result) := by
  have h : ∀ (ts : List (Task T)) (acc : List T),
      ts.foldl (fun result v => Vector.append result v.promise.result) acc
        = acc ++ ts.map (fun v => v.promise.result) := by
    intro ts
    induction ts with
    | nil => intro acc; simp
    | cons t ts ih =>
      intro acc
      simp only [List.foldl_cons, List.map_cons]
      rw [ih]
      simp [Vector.append]
  simpa [MultiTaskAwaiter.await_resume] using h m.tasks []

/-- What `await_suspend` leaves behind: every task carries the notifier
`Awaiter(c, &count)` and the task handles were pushed in order. -/
theorem MultiTaskAwaiter.await_suspend_loop_spec {T : Type} (c : CoroutineHandle) (p : Nat)
    (ts : List (Task T)) (w : World) (q : CoroutineQueue) (hq : w.globalQueue = some q) :
    MultiTaskAwaiter.await_suspend_loop c p ts w
      = some (ts.map (fun t =>
                { t with promise := { t.promise with awaiter := { coro := c, count := some p } } }),
              { w with globalQueue := some ⟨q.queue ++ ts.map (fun t => t.coro)⟩ }) := by
  induction ts generalizing w q with
  | nil =>
    cases w; cases q
    simp only [MultiTaskAwaiter.await_suspend_loop, List.map_nil, List.append_nil] at *
    simp [hq]
  | cons t ts ih =>
    simp only [MultiTaskAwaiter.await_suspend_loop, hq]
    rw [ih { w with globalQueue := some (q.push t.coro) } (q.push t.coro) rfl]
    simp [AsyncQueue.push, Vector.append]

/-- One `notify()` on a shared counter holding `n + 1`: the counter drops to
`n`, and the continuation is pushed exactly when `n = 0`. -/
theorem Awaiter.notify_counted (h p n : Nat) (w : World) (q : CoroutineQueue)
    (hq : w.globalQueue = some q) (hcell : w.atomics[p]? = some ((n : Int) + 1))
    (hn : n < 2 ^ 31) :
    Awaiter.notify { coro := some h, count := some p } w
      = some { w with atomics := w.atomics.set p (n : Int),
                      globalQueue := some (if n = 0 then q.push (some h) else q) } := by
  simp only [Awaiter.notify, hcell, wrap32_of_small n hn]
  by_cases h0 : n = 0
  · subst h0
    simp [Awaiter.push_or_destroy, hq]
  · have : ¬ ((n : Int) + 1 = 1) := by omega
    simp [this, h0, hq]

theorem MultiTaskAwaiter.finish_task_eq {T : Type} (vals : Nat → T) (m : MultiTaskAwaiter T)
    (w w1 : World) (i : Nat) (t : Task T) (ht : m.tasks[i]? = some t)
    (hn : t.promise.awaiter.notify w = some w1) :
    MultiTaskAwaiter.finish_task vals (m, w) i
      = some ({ m with
                tasks := m.tasks.set i { t with promise := t.promise.return_value (vals i) } },
              w1) := by
  simp [MultiTaskAwaiter.finish_task, ht, Task.co_return, promise_type.return_value, hn]

theorem List.set_of_getElem? {α : Type} (l : List α) (i : Nat) (v : α)
    (h : l[i]? = some v) : l.set i v = l := by
  apply List.ext_getElem?
  intro j
  by_cases hj : i = j
  · subst hj
    have hlt : i < l.length := by
      rcases List.getElem?_eq_some_iff.mp h with ⟨hlt, _⟩
      exact hlt
    rw [List.getElem?_set_self hlt, h]
  · rw [List.getElem?_set_ne hj]

/-- The tasks of an awaiter finish in the order `order` while the shared
counter holds `n + order.length`: all calls return, the counter ends at `n`,
the continuation is pushed once exactly when the counter reaches zero, and each
finished task holds its own value. -/
theorem MultiTaskAwaiter.finish_tasks_counted {T : Type} (vals : Nat → T) (h p : Nat)
    (order : List Nat) :
    ∀ (n : Nat) (m : MultiTaskAwaiter T) (w : World) (q : CoroutineQueue),
      w.globalQueue = some q →
      w.atomics[p]? = some ((n : Int) + (order.length : Int)) →
      n + order.length < 2 ^ 31 →
      (∀ t ∈ m.tasks, t.promise.awaiter = { coro := some h, count := some p }) →
      (∀ i ∈ order, i < m.tasks.length) →
      ∃ m1 : MultiTaskAwaiter T,
        MultiTaskAwaiter.finish_tasks vals (m, w) order
          = some (m1, { w with
                          atomics := w.atomics.set p (n : Int),
                          globalQueue :=
                            some (if n = 0 ∧ order ≠ [] then q.push (some h) else q) })
        ∧ (∀ t ∈ m1.tasks, t.promise.awaiter = { coro := some h, count := some p })
        ∧ m1.tasks.length = m.tasks.length
        ∧ ∀ i, m1.tasks[i]? = (m.tasks[i]?).map (fun t =>
            if i ∈ order then { t with promise := t.promise.return_value (vals i) } else t) := by
  induction order with
  | nil =>
    intro n m w q hq hcell _ haw _
    refine ⟨m, ?_, haw, rfl, ?_⟩
    · have hset : w.atomics.set p (n : Int) = w.atomics :=
        List.set_of_getElem? _ _ _ (by simpa using hcell)
      cases w
      simp only [MultiTaskAwaiter.finish_tasks, List.foldlM_nil] at *
      simp [pure, hset, hq]
    · intro i; cases m.tasks[i]? <;> simp
  | cons i rest ih =>
    intro n m w q hq hcell hn haw hidx
    have hi : i < m.tasks.length := hidx i (List.mem_cons_self _ _)
    have hti : m.tasks[i]? = some (m.tasks[i]) := List.getElem?_eq_getElem hi
    have hawi : (m.tasks[i]).promise.awaiter = { coro := some h, count := some p } :=
      haw _ (List.getElem_mem _)
    have hp : p < w.atomics.length := by
      rcases List.getElem?_eq_some_iff.mp hcell with ⟨hlt, _⟩
      exact hlt
    have hcell1 : w.atomics[p]? = some (((n + rest.length : Nat) : Int) + 1) := by
      have hcast : (n : Int) + ((i :: rest).length : Int)
          = ((n + rest.length : Nat) : Int) + 1 := by
        simp only [List.length_cons]; push_cast; omega
      rw [hcell, hcast]
    have hstep := Awaiter.notify_counted h p (n + rest.length) w q hq hcell1
      (by simp only [List.length_cons] at hn; omega)
    rw [← hawi] at hstep
    have hfin := MultiTaskAwaiter.finish_task_eq vals m w _ i _ hti hstep
    obtain ⟨m1, hrun, haw1, hlen1, hres1⟩ := ih n
      { m with tasks := m.tasks.set i
                { m.tasks[i] with promise := (m.tasks[i]).promise.return_value (vals i) } }
      { w with atomics := w.atomics.set p ((n + rest.length : Nat) : Int),
               globalQueue := some (if n + rest.length = 0 then q.push (some h) else q) }
      (if n + rest.length = 0 then q.push (some h) else q) rfl
      (by simp only [List.getElem?_set_self hp]; push_cast; rfl)
      (by simp only [List.length_cons] at hn; omega)
      (by
        intro t ht
        rcases List.mem_or_eq_of_mem_set ht with ht1 | ht1
        · exact haw t ht1
        · subst ht1; simpa [promise_type.return_value] using hawi)
      (by
        intro j hj
        simpa using hidx j (List.mem_cons_of_mem _ hj))
    refine ⟨m1, ?_, haw1, by simpa using hlen1, ?_⟩
    · simp only [MultiTaskAwaiter.finish_tasks, List.foldlM_cons, hfin] at hrun ⊢
      simp only [bind, Option.bind] at hrun ⊢
      rw [hrun]
      congr 2
      simp only [List.set_set]
      by_cases hn0 : n = 0
      · by_cases hr : rest = []
        · subst hn0; subst hr; simp
        · have : rest.length ≠ 0 := by simpa [List.length_eq_zero] using hr
          simp [hn0, hr, this]
      · have : ¬ (n + rest.length = 0) := by omega
        simp [hn0, this]
    · intro j
      rw [hres1 j]
      by_cases hji : i = j
      · subst hji
        simp [List.getElem?_set_self hi, hti, promise_type.return_value]
      · have hji2 : ¬ j = i := fun e => hji e.symm
        simp [List.getElem?_set_ne hji, List.mem_cons, hji2]

theorem co_all_tasks {T : Type} (t : Task T) (args : List (Task T)) (w : World) :
    co_all t args w = MultiTaskAwaiter.new (t :: args) w := by
  have h : ∀ (xs acc : List (Task T)), xs.foldl Vector.append acc = acc ++ xs := by
    intro xs
    induction xs with
    | nil => intro acc; simp
    | cons x xs ih => intro acc; simp [ih, Vector.append]
  simp [co_all, h, Vector.append]

/-- The state right after `co_await co_all(t, args...)` has suspended the
awaiting coroutine `h`. -/
theorem co_all_await_suspend {T : Type} (t : Task T) (args : List (Task T)) (h : Nat)
    (w : World) (q : CoroutineQueue) (hq : w.globalQueue = some q) :
    (co_all t args w).1.await_suspend (some h) (co_all t args w).2
      = some ({ tasks := (t :: args).map (fun t =>
                  { t with promise :=
                      { t.promise with
                        awaiter := { coro := some h, count := some w.atomics.length } } }),
                count := w.atomics.length },
              { w with atomics := w.atomics ++ [((args.length + 1 : Nat) : Int)],
                       globalQueue := some ⟨q.queue ++ (t :: args).map (fun t => t.coro)⟩ }) := by
  rw [co_all_tasks]
  simp only [MultiTaskAwaiter.new, MultiTaskAwaiter.await_suspend]
  rw [MultiTaskAwaiter.await_suspend_loop_spec (some h) w.atomics.length (t :: args)
    { w with atomics := w.atomics ++ [((t :: args).length : Int)] } q hq]
  simp

/-- A finishing task keeps the handles of the awaiter's tasks. -/
theorem MultiTaskAwaiter.finish_task_coros {T : Type} (vals : Nat → T)
    (s s1 : MultiTaskAwaiter T × World) (i : Nat)
    (h : MultiTaskAwaiter.finish_task vals s i = some s1) :
    s1.1.tasks.map (fun t => t.coro) = s.1.tasks.map (fun t => t.coro) := by
  unfold MultiTaskAwaiter.finish_task at h
  split at h
  · cases h
  · rename_i t ht
    cases hco : t.co_return (vals i) s.2 with
    | none => rw [hco] at h; cases h
    | some r =>
      obtain ⟨t1, w1⟩ := r
      rw [hco] at h
      simp only [Option.some.injEq] at h
      subst h
      have hcoro : t1.coro = t.coro := by
        unfold Task.co_return at hco
        simp only at hco
        split at hco
        · cases hco
        · cases hco
          rfl
      simp only [List.map_set]
      apply List.set_of_getElem?
      rw [List.getElem?_map, ht, hcoro]
      rfl

/-- The slot found for a handle that a task owns holds that handle. -/
theorem slot_of_getElem? (c : CoroutineHandle) (cs : List CoroutineHandle) (hc : c ∈ cs) :
    cs[MultiTaskAwaiter.slot_of c cs]? = some c := by
  induction cs with
  | nil => cases hc
  | cons x xs ih =>
    by_cases hx : x = c
    · simp [MultiTaskAwaiter.slot_of, hx]
    · have hc1 : c ∈ xs := by
        rcases List.mem_cons.mp hc with h | h
        · exact absurd h.symm hx
        · exact h
      simp only [MultiTaskAwaiter.slot_of, hx, if_false, List.getElem?_cons_succ]
      exact ih hc1

/-- Among pairwise distinct handles, the slot found for the handle in slot
`i` is `i`. -/
theorem slot_of_getElem (cs : List CoroutineHandle) (hnd : cs.Nodup) :
    ∀ (i : Nat) (h : i < cs.length), MultiTaskAwaiter.slot_of (cs.get ⟨i, h⟩) cs = i := by
  induction cs with
  | nil => intro i h; cases h
  | cons x xs ih =>
    intro i h
    have hnd1 := List.nodup_cons.mp hnd
    cases i with
    | zero => simp [MultiTaskAwaiter.slot_of]
    | succ j =>
      have hj : j < xs.length := by simpa using h
      have hne : ¬ x = xs.get ⟨j, hj⟩ := by
        intro he
        exact hnd1.1 (he ▸ List.get_mem xs j hj)
      simp only [List.get_cons_succ, MultiTaskAwaiter.slot_of, hne, if_false]
      rw [ih hnd1.2 j hj]

/-- A run of finishing coroutines, each addressed by its handle, is the run of
the tasks in the slots that hold these handles. -/
theorem MultiTaskAwaiter.finish_coros_eq {T : Type} (res : CoroutineHandle → T)
    (cs : List CoroutineHandle) (order : List CoroutineHandle) :
    ∀ (s : MultiTaskAwaiter T × World),
      s.1.tasks.map (fun t => t.coro) = cs →
      (∀ c ∈ order, c ∈ cs) →
      MultiTaskAwaiter.finish_coros res s order
        = MultiTaskAwaiter.finish_tasks (fun i => res ((cs[i]?).getD none)) s
            (order.map (fun c => MultiTaskAwaiter.slot_of c cs)) := by
  induction order with
  | nil => intro s _ _; rfl
  | cons c rest ih =>
    intro s hcs hmem
    have hc : c ∈ cs := hmem c (List.mem_cons_self _ _)
    have hval : res (((cs[MultiTaskAwaiter.slot_of c cs]?).getD none)) = res c := by
      rw [slot_of_getElem? c cs hc]
      rfl
    have hstep : MultiTaskAwaiter.finish_coro res s c
        = MultiTaskAwaiter.finish_task (fun i => res ((cs[i]?).getD none)) s
            (MultiTaskAwaiter.slot_of c cs) := by
      simp only [MultiTaskAwaiter.finish_coro, MultiTaskAwaiter.finish_task, hcs, hval]
    simp only [MultiTaskAwaiter.finish_coros, MultiTaskAwaiter.finish_tasks, List.map_cons,
      List.foldlM_cons, hstep]
    cases hres : MultiTaskAwaiter.finish_task (fun i => res ((cs[i]?).getD none)) s
        (MultiTaskAwaiter.slot_of c cs) with
    | none => rfl
    | some s1 =>
      have hcs1 := (MultiTaskAwaiter.finish_task_coros _ s s1 _ hres).trans hcs
      exact ih s1 hcs1 (fun c1 h1 => hmem c1 (List.mem_cons_of_mem _ h1))

/-- The slots of pairwise distinct handles, in list order, are `0 .. N-1`. -/
theorem slot_of_map_self (cs : List CoroutineHandle) (hnd : cs.Nodup) :
    cs.map (fun c => MultiTaskAwaiter.slot_of c cs) = List.range cs.length := by
  apply List.ext_getElem
  · simp
  · intro i h1 h2
    simp only [List.getElem_map, List.getElem_range]
    exact slot_of_getElem cs hnd i (by simpa using h1)

/-- C3: for every non-empty list of tasks [t1..tN] given to co_all, each
owning its own coroutine, every awaiting coroutine and every order in which
the N coroutines finish, the vector returned by await_resume has N entries
and entry i is the value returned by the coroutine of the i-th submitted
task. -/
theorem await_all_preserves_order {T : Type} (t : Task T) (args : List (Task T)) (h : Nat)
    (w : World) (q : CoroutineQueue) (res : CoroutineHandle → T)
    (order : List CoroutineHandle)
    (hq : w.globalQueue = some q) (hN : args.length + 1 < 2 ^ 31)
    (hown : ((t :: args).map (fun ti => ti.coro)).Nodup)
    (horder : order.Perm ((t :: args).map (fun ti => ti.coro))) :
    ∃ m1 w1 m2 w2,
      (co_all t args w).1.await_suspend (some h) (co_all t args w).2 = some (m1, w1)
      ∧ MultiTaskAwaiter.finish_coros res (m1, w1) order = some (m2, w2)
      ∧ m2.await_resume.length = args.length + 1
      ∧ ∀ (i : Nat) (ti : Task T), (t :: args)[i]? = some ti →
          m2.await_resume[i]? = some (res ti.coro) := by
  have hcs : ((t :: args).map (fun t : Task T =>
      { t with promise :=
          { t.promise with
            awaiter := { coro := some h, count := some w.atomics.length } } })).map
        (fun ti => ti.coro) = (t :: args).map (fun ti => ti.coro) := by
    rw [List.map_map]
    rfl
  have hslots : (order.map (fun c => MultiTaskAwaiter.slot_of c ((t :: args).map (fun ti => ti.coro)))).Perm
      (List.range (args.length + 1)) := by
    have h1 := horder.map (fun c => MultiTaskAwaiter.slot_of c ((t :: args).map (fun ti => ti.coro)))
    rw [slot_of_map_self _ hown] at h1
    simpa using h1
  have hlen : order.length = args.length + 1 := by
    simpa using horder.length_eq
  have hmem : ∀ i, i ∈ order.map (fun c =>
      MultiTaskAwaiter.slot_of c ((t :: args).map (fun ti => ti.coro))) ↔ i < args.length + 1 := by
    intro i; rw [hslots.mem_iff]; simp
  obtain ⟨m2, hrun, _, hlen2, hres⟩ :=
    MultiTaskAwaiter.finish_tasks_counted
      (fun i => res (((((t :: args).map (fun ti => ti.coro))[i]?).getD none)))
      h w.atomics.length
      (order.map (fun c => MultiTaskAwaiter.slot_of c ((t :: args).map (fun ti => ti.coro)))) 0
      { tasks := (t :: args).map (fun t =>
          { t with promise :=
              { t.promise with
                awaiter := { coro := some h, count := some w.atomics.length } } }),
        count := w.atomics.length }
      { w with atomics := w.atomics ++ [((args.length + 1 : Nat) : Int)],
               globalQueue := some ⟨q.queue ++ (t :: args).map (fun t => t.coro)⟩ }
      ⟨q.queue ++ (t :: args).map (fun t => t.coro)⟩ rfl
      (by simp [hlen])
      (by simp only [List.length_map]; omega)
      (by
        intro x hx
        simp only [List.mem_map] at hx
        obtain ⟨y, _, rfl⟩ := hx
        rfl)
      (by
        intro i hi
        simpa using (hmem i).mp hi)
  have heq := MultiTaskAwaiter.finish_coros_eq res ((t :: args).map (fun ti => ti.coro)) order
    ({ tasks := (t :: args).map (fun t =>
          { t with promise :=
              { t.promise with
                awaiter := { coro := some h, count := some w.atomics.length } } }),
        count := w.atomics.length },
      { w with atomics := w.atomics ++ [((args.length + 1 : Nat) : Int)],
               globalQueue := some ⟨q.queue ++ (t :: args).map (fun t => t.coro)⟩ })
    hcs (fun c hc => horder.mem_iff.mp hc)
  refine ⟨_, _, m2, _, co_all_await_suspend t args h w q hq, heq.trans hrun, ?_, ?_⟩
  · rw [MultiTaskAwaiter.await_resume_eq]; simpa using hlen2
  · intro i ti hti
    have hi : i < args.length + 1 := by
      rcases List.getElem?_eq_some_iff.mp hti with ⟨hlt, _⟩
      simpa using hlt
    rw [MultiTaskAwaiter.await_resume_eq, List.getElem?_map, hres i]
    simp only [List.getElem?_map, hti, (hmem i).mpr hi, if_true, Option.map_some']
    rfl

/-- C4: after co_all over N >= 1 tasks has suspended the awaiting coroutine h,
whatever the order in which the tasks finish, each of the first N-1 notify
calls only lowers the shared counter, and the N-th call pushes h onto the
worker queue, once; a notifier without counter dispatches on its notify call;
a notifier with a null continuation changes nothing. -/
theorem join_counter_fires_once {T : Type} (t : Task T) (args : List (Task T)) (h : Nat)
    (w : World) (q : CoroutineQueue) (vals : Nat → T) (order : List Nat)
    (hq : w.globalQueue = some q) (hN : args.length + 1 < 2 ^ 31)
    (horder : order.Perm (List.range (args.length + 1))) :
    (∃ m1 w1 q1,
      (co_all t args w).1.await_suspend (some h) (co_all t args w).2 = some (m1, w1)
      ∧ w1.globalQueue = some q1
      ∧ w1.atomics[m1.count]? = some ((args.length + 1 : Nat) : Int)
      ∧ (∀ k, k < args.length + 1 →
          ∃ mk, MultiTaskAwaiter.finish_tasks vals (m1, w1) (order.take k)
            = some (mk, { w1 with
                            atomics := w1.atomics.set m1.count ((args.length + 1 - k : Nat) : Int) }))
      ∧ ∃ mN, MultiTaskAwaiter.finish_tasks vals (m1, w1) order
            = some (mN, { w1 with
                            atomics := w1.atomics.set m1.count 0,
                            globalQueue := some (q1.push (some h)) }))
    ∧ (∀ w0 : World, Awaiter.notify { coro := some h } w0
          = Awaiter.push_or_destroy { coro := some h } w0)
    ∧ (∀ (cnt : Option Nat) (w0 : World), Awaiter.notify { coro := none, count := cnt } w0
          = some w0) := by
  have hlen : order.length = args.length + 1 := by
    simpa using horder.length_eq
  have hmem : ∀ i, i ∈ order ↔ i < args.length + 1 := by
    intro i; rw [horder.mem_iff]; simp
  have hcount : ∀ (k n : Nat) (ord : List Nat), ord.length = k → n + k = args.length + 1 →
      (∀ i ∈ ord, i < args.length + 1) →
      ∃ mk : MultiTaskAwaiter T,
        MultiTaskAwaiter.finish_tasks vals
          ({ tasks := (t :: args).map (fun t =>
              { t with promise :=
                  { t.promise with
                    awaiter := { coro := some h, count := some w.atomics.length } } }),
             count := w.atomics.length },
           { w with atomics := w.atomics ++ [((args.length + 1 : Nat) : Int)],
                    globalQueue := some ⟨q.queue ++ (t :: args).map (fun t => t.coro)⟩ }) ord
          = some (mk,
            { w with
                atomics := (w.atomics ++ [((args.length + 1 : Nat) : Int)]).set
                  w.atomics.length (n : Int),
                globalQueue := some (if n = 0 ∧ ord ≠ []
                  then (⟨q.queue ++ (t :: args).map (fun t => t.coro)⟩ : CoroutineQueue).push (some h)
                  else ⟨q.queue ++ (t :: args).map (fun t => t.coro)⟩) }) := by
    intro k n ord hk hnk hidx
    obtain ⟨mk, hrun, _⟩ :=
      MultiTaskAwaiter.finish_tasks_counted vals h w.atomics.length ord n
        { tasks := (t :: args).map (fun t =>
            { t with promise :=
                { t.promise with
                  awaiter := { coro := some h, count := some w.atomics.length } } }),
          count := w.atomics.length }
        { w with atomics := w.atomics ++ [((args.length + 1 : Nat) : Int)],
                 globalQueue := some ⟨q.queue ++ (t :: args).map (fun t => t.coro)⟩ }
        ⟨q.queue ++ (t :: args).map (fun t => t.coro)⟩ rfl
        (by simp only [List.getElem?_concat_length, hk, ← hnk]; push_cast; rfl)
        (by omega)
        (by
          intro x hx
          simp only [List.mem_map] at hx
          obtain ⟨y, _, rfl⟩ := hx
          rfl)
        (by
          intro i hi
          simpa using hidx i hi)
    exact ⟨mk, hrun⟩
  refine ⟨⟨_, _, _, co_all_await_suspend t args h w q hq, rfl, ?_, ?_, ?_⟩, ?_, ?_⟩
  · simp
  · intro k hk
    obtain ⟨mk, hrun⟩ := hcount k (args.length + 1 - k) (order.take k)
      (by simp [hlen]; omega) (by omega)
      (fun i hi => (hmem i).mp (List.mem_of_mem_take hi))
    refine ⟨mk, ?_⟩
    rw [hrun]
    have hne : ¬ (args.length + 1 - k = 0) := by omega
    simp [hne]
  · obtain ⟨mN, hrun⟩ := hcount (args.length + 1) 0 order hlen (by omega)
      (fun i hi => (hmem i).mp hi)
    refine ⟨mN, ?_⟩
    rw [hrun]
    have hne : order ≠ [] := by
      intro e; rw [e] at hlen; simp at hlen
    simp [hne]
  · intro w0
    simp [Awaiter.notify]
  · intro cnt w0
    simp [Awaiter.notify]

/-- Witness for C3: tasks A, B, C, owning the coroutines 10, 11 and 12, whose
coroutines finish in the order C, A, B. -/
theorem await_all_preserves_order_witness :
    ∃ m1 w1 m2 w2,
      (co_all (Task.mk (some 10) { result := 0 }) (exampleTasks.drop 1) exampleWorld).1.await_suspend
          (some 7) (co_all (Task.mk (some 10) { result := 0 }) (exampleTasks.drop 1) exampleWorld).2
        = some (m1, w1)
      ∧ MultiTaskAwaiter.finish_coros exampleResults (m1, w1) [some 12, some 10, some 11]
          = some (m2, w2)
      ∧ m2.await_resume.length = (exampleTasks.drop 1).length + 1
      ∧ ∀ (i : Nat) (ti : Task Nat),
          (Task.mk (some 10) { result := 0 } :: exampleTasks.drop 1)[i]? = some ti →
          m2.await_resume[i]? = some (exampleResults ti.coro) :=
  await_all_preserves_order (Task.mk (some 10) { result := 0 }) (exampleTasks.drop 1) 7
    exampleWorld AsyncQueue.new exampleResults [some 12, some 10, some 11] rfl (by decide)
    (by decide) (by decide)

/-- Witness for C4: three tasks finishing in the order C, A, B. -/
theorem join_counter_fires_once_witness :
    (∃ m1 w1 q1,
      (co_all (Task.mk (some 10) { result := 0 }) (exampleTasks.drop 1) exampleWorld).1.await_suspend
          (some 7) (co_all (Task.mk (some 10) { result := 0 }) (exampleTasks.drop 1) exampleWorld).2
        = some (m1, w1)
      ∧ w1.globalQueue = some q1
      ∧ w1.atomics[m1.count]? = some (((exampleTasks.drop 1).length + 1 : Nat) : Int)
      ∧ (∀ k, k < (exampleTasks.drop 1).length + 1 →
          ∃ mk, MultiTaskAwaiter.finish_tasks exampleVals (m1, w1) (([2, 0, 1] : List Nat).take k)
            = some (mk, { w1 with
                            atomics := w1.atomics.set m1.count
                              (((exampleTasks.drop 1).length + 1 - k : Nat) : Int) }))
      ∧ ∃ mN, MultiTaskAwaiter.finish_tasks exampleVals (m1, w1) [2, 0, 1]
            = some (mN, { w1 with
                            atomics := w1.atomics.set m1.count 0,
                            globalQueue := some (q1.push (some 7)) }))
    ∧ (∀ w0 : World, Awaiter.notify { coro := some 7 } w0
          = Awaiter.push_or_destroy { coro := some 7 } w0)
    ∧ (∀ (cnt : Option Nat) (w0 : World), Awaiter.notify { coro := none, count := cnt } w0
          = some w0) :=
  join_counter_fires_once (Task.mk (some 10) { result := 0 }) (exampleTasks.drop 1) 7
    exampleWorld AsyncQueue.new exampleVals [2, 0, 1] rfl (by decide) (by decide)

/-! ## Properties of the notifier during shutdown -/

/-- What `destroy()` leaves alone: everything but the frames and the record of
destroyed handles; the destroyed handle is recorded once and has no live frame
afterwards. -/
theorem CoroutineHandle.destroy_spec (h : Nat) (w w1 : World)
    (hd : CoroutineHandle.destroy (some h) w = some w1) :
    w1.globalQueue = w.globalQueue ∧ w1.mainThreadQueue = w.mainThreadQueue
      ∧ w1.tiles = w.tiles ∧ w1.gl = w.gl ∧ w1.atomics = w.atomics
      ∧ w1.printed = w.printed ∧ w1.workers = w.workers ∧ w1.numCPUs = w.numCPUs
      ∧ w1.frames.length = w.frames.length
      ∧ w1.destroyed.count h = w.destroyed.count h + 1
      ∧ (∀ f, w1.frames[h]? ≠ some (some f)) := by
  unfold CoroutineHandle.destroy at hd
  simp only at hd
  split at hd
  · rename_i hfr
    cases hd
    simp [hfr]
  · cases hd
  · rename_i hfr
    have hlt : h < w.frames.length := by
      rcases List.getElem?_eq_some_iff.mp hfr with ⟨hlt, _⟩
      exact hlt
    cases hd
    simp [List.getElem?_set_self hlt]
  · rename_i t pc task aw hfr
    have hlt : h < w.frames.length := by
      rcases List.getElem?_eq_some_iff.mp hfr with ⟨hlt, _⟩
      exact hlt
    split at hd
    · cases hd
      simp [List.getElem?_set_self hlt]
    · cases hd
      simp [List.getElem?_set_self hlt]
    · rename_i u _
      split at hd
      · rename_i f hfu
        cases hd
        have hne : u ≠ h := by
          intro e
          subst e
          simp [List.getElem?_set_self hlt] at hfu
        have hne2 : ¬ h = u := fun e => hne e.symm
        simp only [List.length_set, List.getElem?_set_ne hne, List.getElem?_set_self hlt,
          List.count_append, List.count_cons, List.count_nil, true_and]
        simp [hne2, hne]
      · cases hd

theorem Awaiter.push_or_destroy_null_queue (a : Awaiter) (w w1 : World)
    (hq : w.globalQueue = none) (hn : a.push_or_destroy w = some w1) :
    w1.globalQueue = none := by
  simp only [Awaiter.push_or_destroy, hq] at hn
  cases hc : a.coro with
  | none => rw [hc] at hn; simp [CoroutineHandle.destroy] at hn
  | some h =>
    rw [hc] at hn
    rw [(CoroutineHandle.destroy_spec h w w1 hn).1, hq]

theorem Awaiter.notify_null_queue (a : Awaiter) (w w1 : World)
    (hq : w.globalQueue = none) (hn : a.notify w = some w1) :
    w1.globalQueue = none := by
  unfold Awaiter.notify at hn
  split at hn
  · cases hn; exact hq
  · split at hn
    · split at hn
      · cases hn
      · simp only at hn
        split at hn
        · exact Awaiter.push_or_destroy_null_queue a _ w1 (by simpa using hq) hn
        · cases hn; simpa using hq
    · exact Awaiter.push_or_destroy_null_queue a w w1 hq hn

theorem del_obj_queues (t : Nat) (w w1 : World) (hd : del_obj t w = some w1) :
    w1.globalQueue = w.globalQueue ∧ w1.mainThreadQueue = w.mainThreadQueue
      ∧ w1.frames = w.frames ∧ w1.destroyed = w.destroyed := by
  unfold del_obj at hd
  split at hd
  · split at hd
    · cases hd
    · cases hd; simp
  · cases hd

theorem upload_texture_co_return_null_queue (h t : Nat) (finalize : Bool)
    (promise : promise_type Bool) (value : Bool) (w w1 : World)
    (hq : w.globalQueue = none)
    (hb : upload_texture.co_return h t finalize promise value w = some w1) :
    w1.globalQueue = none :=
  Awaiter.notify_null_queue _ _ w1 (by simpa using hq) hb

theorem upload_texture_body_null_queue (h t : Nat) (finalize : Bool)
    (promise : promise_type Bool) (err : Bool) (w w1 : World)
    (hq : w.globalQueue = none) (hb : upload_texture.body h t finalize promise err w = some w1) :
    w1.globalQueue = none := by
  unfold upload_texture.body at hb
  simp only [glGenTextures] at hb
  split at hb
  · split at hb
    · split at hb <;> split at hb
      · split at hb
        · cases hb
        · rename_i w3 hdel
          have h3 := (del_obj_queues t _ w3 hdel).1
          exact upload_texture_co_return_null_queue _ _ _ _ _ w3 w1 (by simpa [h3] using hq) hb
      · exact upload_texture_co_return_null_queue _ _ _ _ _ _ w1 (by simpa using hq) hb
      · split at hb
        · cases hb
        · rename_i w3 hdel
          have h3 := (del_obj_queues t _ w3 hdel).1
          exact upload_texture_co_return_null_queue _ _ _ _ _ w3 w1 (by simpa [h3] using hq) hb
      · exact upload_texture_co_return_null_queue _ _ _ _ _ _ w1 (by simpa using hq) hb
    · cases hb
  · cases hb

theorem build_tile_await_upload_queue (h t : Nat) (finalize : Bool) (awaiter : Awaiter)
    (w w1 : World) (hb : build_tile.await_upload h t finalize awaiter w = some w1) :
    w1.globalQueue = w.globalQueue := by
  unfold build_tile.await_upload at hb
  simp only [upload_texture, co_main, MainThreadAwaiter.await_suspend] at hb
  split at hb
  · rename_i m w2 u hm _
    cases hb
    split at hm
    · cases hm
    · cases hm; rfl
  · cases hb

theorem build_tile_co_return_null_queue (h : Nat) (awaiter : Awaiter) (w w1 : World)
    (hq : w.globalQueue = none) (hb : build_tile.co_return h awaiter w = some w1) :
    w1.globalQueue = none := by
  unfold build_tile.co_return at hb
  split at hb
  · cases hb
  · rename_i w2 hn
    cases hb
    exact Awaiter.notify_null_queue awaiter w w2 hq hn

theorem build_tile_body_null_queue (h t : Nat) (pc : BuildPc) (task : CoroutineHandle)
    (awaiter : Awaiter) (w w1 : World) (hq : w.globalQueue = none)
    (hb : build_tile.body h t pc task awaiter w = some w1) : w1.globalQueue = none := by
  unfold build_tile.body at hb
  split at hb
  · split at hb
    · rw [build_tile_await_upload_queue h t false awaiter w w1 hb, hq]
    · cases hb
  · split at hb
    · cases hb
    · rename_i u
      split at hb
      · split at hb
        · cases hb
        · rename_i w2 hd
          have h2 : w2.globalQueue = none := by
            rw [(CoroutineHandle.destroy_spec u w w2 hd).1, hq]
          split at hb
          · exact build_tile_co_return_null_queue h awaiter w2 w1 h2 hb
          · rw [build_tile_await_upload_queue h t true awaiter w2 w1 hb, h2]
      · cases hb
  · split at hb
    · cases hb
    · rename_i u
      split at hb
      · split at hb
        · cases hb
        · rename_i w2 hd
          have h2 : w2.globalQueue = none := by
            rw [(CoroutineHandle.destroy_spec u w w2 hd).1, hq]
          exact build_tile_co_return_null_queue h awaiter w2 w1 h2 hb
      · cases hb

/-- With the worker queue reset, resuming a coroutine leaves it reset. -/
theorem CoroutineHandle.resume_null_queue (c : CoroutineHandle) (err : Bool) (w w1 : World)
    (hq : w.globalQueue = none) (hr : CoroutineHandle.resume c err w = some w1) :
    w1.globalQueue = none := by
  unfold CoroutineHandle.resume at hr
  split at hr
  · cases hr
  · split at hr
    · exact upload_texture_body_null_queue _ _ _ _ _ w w1 hq hr
    · exact build_tile_body_null_queue _ _ _ _ _ w w1 hq hr
    · cases hr

theorem resume_all_null_queue (err : Bool) (buf : List CoroutineHandle) :
    ∀ (w w1 : World), w.globalQueue = none → resume_all err buf w = some w1 →
      w1.globalQueue = none := by
  induction buf with
  | nil => intro w w1 hq hr; simp only [resume_all] at hr; cases hr; exact hq
  | cons c buf ih =>
    intro w w1 hq hr
    simp only [resume_all] at hr
    split at hr
    · cases hr
    · rename_i w2 hc
      exact ih w2 w1 (CoroutineHandle.resume_null_queue c err w w2 hq hc) hr

/-- C5: a dispatch with the worker queue live appends the continuation to it
once and changes nothing else (nothing is destroyed); with no worker queue the
dispatch is a destroy(): nothing is pushed to either queue, the handle is
recorded as destroyed once and no live frame is left at it, so it cannot be
resumed.  wait_for_workers leaves both queue pointers reset. -/
theorem dispatch_pushes_or_destroys (a : Awaiter) (w : World) :
    (∀ q, w.globalQueue = some q →
        a.push_or_destroy w = some { w with globalQueue := some ⟨q.queue ++ [a.coro]⟩ })
    ∧ (w.globalQueue = none →
        a.push_or_destroy w = CoroutineHandle.destroy a.coro w
        ∧ (∀ h, a.coro = some h → w.frames[h]? = none →
            a.push_or_destroy w = some { w with destroyed := w.destroyed ++ [h] })
        ∧ ∀ h w1, a.coro = some h → a.push_or_destroy w = some w1 →
            w1.globalQueue = none ∧ w1.mainThreadQueue = w.mainThreadQueue
            ∧ w1.destroyed.count h = w.destroyed.count h + 1
            ∧ ∀ f, w1.frames[h]? ≠ some (some f))
    ∧ (∀ err w1, wait_for_workers err w = some w1 →
        w1.globalQueue = none ∧ w1.mainThreadQueue = none) := by
  refine ⟨?_, ?_, ?_⟩
  · intro q hq
    simp [Awaiter.push_or_destroy, hq, AsyncQueue.push, Vector.append]
  · intro hq
    refine ⟨by simp [Awaiter.push_or_destroy, hq], ?_, ?_⟩
    · intro h hc hfr
      simp [Awaiter.push_or_destroy, hq, hc, CoroutineHandle.destroy, hfr]
    · intro h w1 hc hp
      simp only [Awaiter.push_or_destroy, hq, hc] at hp
      have hs := CoroutineHandle.destroy_spec h w w1 hp
      exact ⟨by rw [hs.1, hq], hs.2.1, hs.2.2.2.2.2.2.2.2.2.1, hs.2.2.2.2.2.2.2.2.2.2⟩
  · intro err w1 hw
    unfold wait_for_workers at hw
    simp only at hw
    split at hw
    · cases hw
    · split at hw
      · cases hw
      · rename_i w2 hr
        cases hw
        exact ⟨resume_all_null_queue err _ _ w2 rfl hr, rfl⟩

/-! ## Properties of co_main and of awaiting a task twice -/

/-- C6, counterexample: coroutine 7 awaits task 10 through co_main and the
task finishes; the continuation 7 is then on the global worker queue, and the
main-thread queue holds only the task 10 itself. -/
theorem run_on_main_continuation_on_worker_queue :
    ∃ t2 w2,
      co_main_then_finish (Task.mk (some 10) { result := false }) (some 7) true exampleWorld
        = some (t2, w2)
      ∧ w2.globalQueue = some ⟨[some 7]⟩
      ∧ w2.mainThreadQueue = some ⟨[some 10]⟩
      ∧ ¬ (some 7 ∈ ([some 10] : List CoroutineHandle)) :=
  ⟨_, _, rfl, rfl, rfl, by decide⟩

/-- C6, amended: awaiting a task through co_main pushes the task's own
coroutine onto the main-thread queue and nothing onto the worker queue, so the
task body runs on the main thread; when the task finishes, the awaiting
continuation is pushed onto the global worker queue and the main-thread queue
is left as it was. -/
theorem co_main_runs_task_on_main {T : Type} (task : Task T) (h : Nat) (value : T)
    (w : World) (mq gq : CoroutineQueue)
    (hm : w.mainThreadQueue = some mq) (hg : w.globalQueue = some gq) :
    ∃ m1 w1 t2 w2,
      (co_main task).await_suspend (some h) w = some (m1, w1)
      ∧ w1.mainThreadQueue = some ⟨mq.queue ++ [task.coro]⟩
      ∧ w1.globalQueue = some gq
      ∧ m1.task.co_return value w1 = some (t2, w2)
      ∧ co_main_then_finish task (some h) value w = some (t2, w2)
      ∧ t2.promise.result = value
      ∧ w2.globalQueue = some ⟨gq.queue ++ [some h]⟩
      ∧ w2.mainThreadQueue = some ⟨mq.queue ++ [task.coro]⟩ := by
  have h1 : (co_main task).await_suspend (some h) w
      = some (⟨{ task with promise := { task.promise with awaiter := { coro := some h } } }⟩,
              { w with mainThreadQueue := some ⟨mq.queue ++ [task.coro]⟩ }) := by
    simp [co_main, MainThreadAwaiter.await_suspend, hm, AsyncQueue.push, Vector.append]
  have h2 : Task.co_return
        ({ task with promise := { task.promise with awaiter := { coro := some h } } } : Task T)
        value { w with mainThreadQueue := some ⟨mq.queue ++ [task.coro]⟩ }
      = some ({ task with promise := { result := value, awaiter := { coro := some h } } },
              { w with mainThreadQueue := some ⟨mq.queue ++ [task.coro]⟩,
                       globalQueue := some ⟨gq.queue ++ [some h]⟩ }) := by
    simp [Task.co_return, promise_type.return_value, Awaiter.notify, Awaiter.push_or_destroy,
      hg, AsyncQueue.push, Vector.append]
  refine ⟨_, _, _, _, h1, rfl, hg, h2, ?_, rfl, rfl, rfl⟩
  simp only [co_main_then_finish, h1, h2]

/-- Witness for the amended C6. -/
theorem co_main_runs_task_on_main_witness :
    ∃ m1 w1 t2 w2,
      (co_main (Task.mk (some 10) { result := false })).await_suspend (some 7) exampleWorld
        = some (m1, w1)
      ∧ w1.mainThreadQueue = some ⟨(AsyncQueue.new : CoroutineQueue).queue ++ [some 10]⟩
      ∧ w1.globalQueue = some AsyncQueue.new
      ∧ m1.task.co_return true w1 = some (t2, w2)
      ∧ co_main_then_finish (Task.mk (some 10) { result := false }) (some 7) true exampleWorld
          = some (t2, w2)
      ∧ t2.promise.result = true
      ∧ w2.globalQueue = some ⟨(AsyncQueue.new : CoroutineQueue).queue ++ [some 7]⟩
      ∧ w2.mainThreadQueue = some ⟨(AsyncQueue.new : CoroutineQueue).queue ++ [some 10]⟩ :=
  co_main_runs_task_on_main (Task.mk (some 10) { result := false }) 7 true exampleWorld
    AsyncQueue.new AsyncQueue.new rfl rfl

/-- C7, counterexample: the task of frame 0 was awaited by coroutine 7 and has
run to completion; a second await by coroutine 8 returns normally, has
installed coroutine 8 as notifier and has pushed the finished coroutine onto
the worker queue again; the worker that pops it skips it, after which both
queues are empty and coroutine 8 is neither queued nor destroyed. -/
theorem second_await_is_not_rejected :
    ∃ w0 w1 w2,
      exampleAwaitedOnce = some w0
      ∧ CoroutineHandle.done (some 0) w0 = some true
      ∧ Task.await_ready (Task.mk (some 0) ({ result := true } : promise_type Bool)) = false
      ∧ Task.co_await 0 (some 8) w0 = some w1
      ∧ w1.globalQueue = some ⟨[some 0]⟩
      ∧ w1.frames[0]? = some (some (Frame.upload_texture 0 false
          { result := true, awaiter := { coro := some 8 } } true))
      ∧ worker_thread.turn false w1 = some (WorkerStatus.looping, w2)
      ∧ w2.globalQueue = some ⟨[]⟩ ∧ w2.mainThreadQueue = some ⟨[]⟩ ∧ w2.destroyed = [] :=
  ⟨_, _, _, rfl, rfl, rfl, rfl, rfl, rfl, rfl, rfl, rfl, rfl⟩

/-- C7, amended: a second await on a completed task is not rejected.
await_ready is false, so the awaiter suspends; await_suspend installs it as the
notifier and pushes the finished coroutine onto the worker queue again, for
every task and whether or not it has completed; the worker that pops a
finished coroutine skips it, so nothing is resumed and nobody is notified. -/
theorem second_await_reenqueues_and_is_skipped (u t : Nat) (finalize : Bool)
    (promise : promise_type Bool) (c : CoroutineHandle) (err : Bool) (w : World)
    (q : CoroutineQueue)
    (hf : w.frames[u]? = some (some (Frame.upload_texture t finalize promise true)))
    (hq : w.globalQueue = some q) :
    Task.await_ready (Task.mk (some u) promise) = false
    ∧ Task.co_await u c w
        = some { w with
            globalQueue := some ⟨q.queue ++ [some u]⟩,
            frames := w.frames.set u
              (some (Frame.upload_texture t finalize { promise with awaiter := { coro := c } }
                true)) }
    ∧ (∀ (w2 : World) (rest : List CoroutineHandle) (p2 : promise_type Bool),
        w2.frames[u]? = some (some (Frame.upload_texture t finalize p2 true)) →
        w2.globalQueue = some ⟨some u :: rest⟩ →
        worker_thread.turn err w2
          = some (WorkerStatus.looping, { w2 with globalQueue := some ⟨rest⟩ }))
    ∧ (∀ (T : Type) (task : Task T) (w0 : World) (q0 : CoroutineQueue),
        w0.globalQueue = some q0 →
        task.await_ready = false
        ∧ task.await_suspend c w0
            = some ({ task with promise := { task.promise with awaiter := { coro := c } } },
                    { w0 with globalQueue := some ⟨q0.queue ++ [task.coro]⟩ })) := by
  refine ⟨rfl, ?_, ?_, ?_⟩
  · simp [Task.co_await, hf, Task.await_ready, Task.await_suspend, hq, AsyncQueue.push,
      Vector.append]
  · intro w2 rest p2 hf2 hq2
    simp [worker_thread.turn, hq2, AsyncQueue.pop, Vector.remove, CoroutineHandle.done, hf2]
  · intro T task w0 q0 hq0
    simp [Task.await_ready, Task.await_suspend, hq0, AsyncQueue.push, Vector.append]

/-- Witness for the amended C7: the completed task of `exampleAwaitedOnce`. -/
theorem second_await_reenqueues_and_is_skipped_witness :
    Task.await_ready (Task.mk (some 0)
        ({ result := true, awaiter := { coro := some 7 } } : promise_type Bool)) = false
    ∧ Task.co_await 0 (some 8) (exampleAwaitedOnce.getD World.start)
        = some { exampleAwaitedOnce.getD World.start with
            globalQueue := some ⟨(AsyncQueue.new : CoroutineQueue).queue ++ [some 0]⟩,
            frames := (exampleAwaitedOnce.getD World.start).frames.set 0
              (some (Frame.upload_texture 0 false
                { ({ result := true, awaiter := { coro := some 7 } } : promise_type Bool) with
                  awaiter := { coro := some 8 } }
                true)) }
    ∧ (∀ (w2 : World) (rest : List CoroutineHandle) (p2 : promise_type Bool),
        w2.frames[0]? = some (some (Frame.upload_texture 0 false p2 true)) →
        w2.globalQueue = some ⟨some 0 :: rest⟩ →
        worker_thread.turn false w2
          = some (WorkerStatus.looping, { w2 with globalQueue := some ⟨rest⟩ }))
    ∧ (∀ (T : Type) (task : Task T) (w0 : World) (q0 : CoroutineQueue),
        w0.globalQueue = some q0 →
        task.await_ready = false
        ∧ task.await_suspend (some 8) w0
            = some ({ task with promise := { task.promise with awaiter := { coro := some 8 } } },
                    { w0 with globalQueue := some ⟨q0.queue ++ [task.coro]⟩ })) :=
  second_await_reenqueues_and_is_skipped 0 0 false
    { result := true, awaiter := { coro := some 7 } } (some 8) false
    (exampleAwaitedOnce.getD World.start) AsyncQueue.new rfl rfl

/-! ## Properties of tile release -/

/-- The destructor of a well-formed tile deletes `texture[0..current_lod]`,
one call each, in index order. -/
theorem Tile.dtor_spec (tile : Tile) (gl : GLState)
    (hlod : -1 ≤ tile.current_lod ∧ tile.current_lod ≤ 1) (htex : tile.texture.length = 2) :
    tile.dtor gl
      = some { gl with deleted := gl.deleted ++ tile.texture.take (tile.current_lod + 1).toNat } := by
  obtain ⟨a, b, hab⟩ : ∃ a b, tile.texture = [a, b] := by
    match htx : tile.texture, htex with
    | [a, b], _ => exact ⟨a, b, rfl⟩
  have hcases : tile.current_lod = -1 ∨ tile.current_lod = 0 ∨ tile.current_lod = 1 := by omega
  rcases hcases with h | h | h <;>
    simp [Tile.dtor, h, hab, List.range_succ, glDeleteTextures]

/-- C8: release_tile on a tile with no production in flight destroys it
before returning: the Tile object is freed, glDeleteTextures is called once
for each of texture[0..current_lod], in index order (no call when current_lod
is -1), and nothing else changes. -/
theorem release_tile_immediate (t : Nat) (tile : Tile) (w : World)
    (ht : w.tiles[t]? = some (some tile)) (hwip : tile.wip = false)
    (hlod : -1 ≤ tile.current_lod ∧ tile.current_lod ≤ 1) (htex : tile.texture.length = 2) :
    release_tile t w
      = some { w with
          tiles := w.tiles.set t none,
          gl := { w.gl with
            deleted := w.gl.deleted ++ tile.texture.take (tile.current_lod + 1).toNat } } := by
  simp [release_tile, ht, hwip, del_obj, Tile.dtor_spec tile w.gl hlod htex]

/-- Witness for C8: the fully built example tile, which owns textures 1 and 2. -/
theorem release_tile_immediate_witness :
    release_tile 0 (exampleBuilt.getD World.start)
      = some { exampleBuilt.getD World.start with
          tiles := (exampleBuilt.getD World.start).tiles.set 0 none,
          gl := { (exampleBuilt.getD World.start).gl with
            deleted := (exampleBuilt.getD World.start).gl.deleted ++
              ([1, 2] : List GLuint).take ((1 : Int) + 1).toNat } } :=
  release_tile_immediate 0
    { wip := false, color := 5, texture := [1, 2], released := false, current_lod := 1,
      pos := (0, 0) }
    (exampleBuilt.getD World.start) rfl rfl (by decide) rfl

theorem Awaiter.notify_tiles (a : Awaiter) (w w1 : World) (hn : a.notify w = some w1) :
    w1.tiles = w.tiles ∧ w1.gl = w.gl := by
  have hpush : ∀ (w0 : World), a.push_or_destroy w0 = some w1 →
      w1.tiles = w0.tiles ∧ w1.gl = w0.gl := by
    intro w0 hp
    unfold Awaiter.push_or_destroy at hp
    split at hp
    · cases hp; exact ⟨rfl, rfl⟩
    · cases hc : a.coro with
      | none => rw [hc] at hp; simp [CoroutineHandle.destroy] at hp
      | some h =>
        rw [hc] at hp
        have hs := CoroutineHandle.destroy_spec h w0 w1 hp
        exact ⟨hs.2.2.1, hs.2.2.2.1⟩
  unfold Awaiter.notify at hn
  split at hn
  · cases hn; exact ⟨rfl, rfl⟩
  · split at hn
    · split at hn
      · cases hn
      · simp only at hn
        split at hn
        · have h2 := hpush _ hn
          exact h2
        · cases hn; exact ⟨rfl, rfl⟩
    · exact hpush w hn

theorem build_tile_await_upload_tiles (h t : Nat) (finalize : Bool) (awaiter : Awaiter)
    (w w1 : World) (hb : build_tile.await_upload h t finalize awaiter w = some w1) :
    w1.tiles = w.tiles ∧ w1.gl = w.gl := by
  unfold build_tile.await_upload at hb
  simp only [upload_texture, co_main, MainThreadAwaiter.await_suspend] at hb
  split at hb
  · rename_i m w2 u hm _
    cases hb
    split at hm
    · cases hm
    · cases hm; exact ⟨rfl, rfl⟩
  · cases hb

theorem build_tile_co_return_tiles (h : Nat) (awaiter : Awaiter) (w w1 : World)
    (hb : build_tile.co_return h awaiter w = some w1) :
    w1.tiles = w.tiles ∧ w1.gl = w.gl := by
  unfold build_tile.co_return at hb
  split at hb
  · cases hb
  · rename_i w2 hn
    cases hb
    exact Awaiter.notify_tiles awaiter w w2 hn

/-- No part of the `build_tile` body writes a tile or calls OpenGL. -/
theorem build_tile_body_tiles (h t : Nat) (pc : BuildPc) (task : CoroutineHandle)
    (awaiter : Awaiter) (w w1 : World)
    (hb : build_tile.body h t pc task awaiter w = some w1) :
    w1.tiles = w.tiles ∧ w1.gl = w.gl := by
  unfold build_tile.body at hb
  split at hb
  · split at hb
    · exact build_tile_await_upload_tiles h t false awaiter w w1 hb
    · cases hb
  · split at hb
    · cases hb
    · rename_i u
      split at hb
      · split at hb
        · cases hb
        · rename_i w2 hd
          have hs := CoroutineHandle.destroy_spec u w w2 hd
          split at hb
          · have h2 := build_tile_co_return_tiles h awaiter w2 w1 hb
            exact ⟨h2.1.trans hs.2.2.1, h2.2.trans hs.2.2.2.1⟩
          · have h2 := build_tile_await_upload_tiles h t true awaiter w2 w1 hb
            exact ⟨h2.1.trans hs.2.2.1, h2.2.trans hs.2.2.2.1⟩
      · cases hb
  · split at hb
    · cases hb
    · rename_i u
      split at hb
      · split at hb
        · cases hb
        · rename_i w2 hd
          have hs := CoroutineHandle.destroy_spec u w w2 hd
          have h2 := build_tile_co_return_tiles h awaiter w2 w1 hb
          exact ⟨h2.1.trans hs.2.2.1, h2.2.trans hs.2.2.2.1⟩
      · cases hb

theorem del_obj_other_tile (t t1 : Nat) (w w1 : World) (hne : t ≠ t1)
    (hd : del_obj t1 w = some w1) : w1.tiles[t]? = w.tiles[t]? := by
  unfold del_obj at hd
  split at hd
  · split at hd
    · cases hd
    · cases hd
      simp [List.getElem?_set_ne (Ne.symm hne)]
  · cases hd

/-- An `upload_texture` checkpoint for the tile `t1` leaves every other tile
as it is. -/
theorem upload_texture_body_other_tile (h t t1 : Nat) (finalize : Bool)
    (promise : promise_type Bool) (err : Bool) (w w1 : World) (hne : t ≠ t1)
    (hb : upload_texture.body h t1 finalize promise err w = some w1) :
    w1.tiles[t]? = w.tiles[t]? := by
  have hco : ∀ (value : Bool) (w0 : World),
      upload_texture.co_return h t1 finalize promise value w0 = some w1 →
      w1.tiles = w0.tiles := by
    intro value w0 hc
    exact (Awaiter.notify_tiles _ _ w1 hc).1
  unfold upload_texture.body at hb
  simp only [glGenTextures] at hb
  split at hb
  · split at hb
    · split at hb <;> split at hb
      · split at hb
        · cases hb
        · rename_i w3 hdel
          rw [hco _ _ hb, del_obj_other_tile t t1 _ w3 hne hdel]
          simp [List.getElem?_set_ne (Ne.symm hne)]
      · rw [hco _ _ hb]
        simp [List.getElem?_set_ne (Ne.symm hne)]
      · split at hb
        · cases hb
        · rename_i w3 hdel
          rw [hco _ _ hb, del_obj_other_tile t t1 _ w3 hne hdel]
          simp [List.getElem?_set_ne (Ne.symm hne)]
      · rw [hco _ _ hb]
        simp [List.getElem?_set_ne (Ne.symm hne)]
    · cases hb
  · cases hb

/-- Only an `upload_texture` checkpoint for the tile `t` itself can change or
free the tile `t`: resuming any other coroutine leaves it as it is. -/
theorem resume_keeps_tile (t x : Nat) (err : Bool) (w w1 : World)
    (hx : ∀ finalize promise done,
      w.frames[x]? ≠ some (some (Frame.upload_texture t finalize promise done)))
    (hr : CoroutineHandle.resume (some x) err w = some w1) :
    w1.tiles[t]? = w.tiles[t]? := by
  unfold CoroutineHandle.resume at hr
  simp only at hr
  split at hr
  · rename_i t1 finalize promise hf
    have hne : t ≠ t1 := by
      intro e
      subst e
      exact hx finalize promise false hf
    exact upload_texture_body_other_tile x t t1 finalize promise err w w1 hne hr
  · rw [(build_tile_body_tiles _ _ _ _ _ w w1 hr).1]
  · cases hr

/-- An `upload_texture` checkpoint that finds the tile released: the new
texture is stored, the tile is destroyed with every texture it owns, the task
result is `false`, and the awaiter of the task is notified. -/
theorem upload_texture_body_released (u t : Nat) (finalize : Bool)
    (promise : promise_type Bool) (err : Bool) (w : World) (tile : Tile)
    (ht : w.tiles[t]? = some (some tile)) (hrel : tile.released = true)
    (hlod : -1 ≤ tile.current_lod ∧ tile.current_lod ≤ 0) (htex : tile.texture.length = 2) :
    upload_texture.body u t finalize promise err w
      = promise.awaiter.notify (released_checkpoint u t finalize promise err w tile) := by
  have hlt : t < w.tiles.length := by
    rcases List.getElem?_eq_some_iff.mp ht with ⟨hlt, _⟩
    exact hlt
  have hl : 0 ≤ tile.current_lod + 1 ∧ tile.current_lod + 1 < 2 := by omega
  have hd : ∀ wip : Bool,
      Tile.dtor
        { tile with current_lod := tile.current_lod + 1,
                    texture := tile.texture.set (tile.current_lod + 1).toNat (w.gl.generated + 1),
                    wip := wip, released := true }
        { generated := w.gl.generated + 1, deleted := w.gl.deleted }
      = some { generated := w.gl.generated + 1,
               deleted := w.gl.deleted ++
                 (tile.texture.set (tile.current_lod + 1).toNat (w.gl.generated + 1)).take
                   (tile.current_lod + 1 + 1).toNat } := by
    intro wip
    rw [Tile.dtor_spec _ _ (by constructor <;> simp <;> omega) (by simpa using htex)]
  unfold upload_texture.body released_checkpoint
  simp only [glGenTextures, ht, hl, and_self, if_true]
  cases finalize <;>
    simp [hrel, del_obj, List.getElem?_set_self hlt, hd, upload_texture.co_return,
      promise_type.return_value]

/-- The part of `build_tile` that runs after a checkpoint which destroyed the
tile, or after the last checkpoint: it frees the awaited task and its own
frame, and does nothing else. -/
theorem build_tile_body_stops (b u t : Nat) (pc : BuildPc) (finalize : Bool)
    (promise : promise_type Bool) (done : Bool) (w : World)
    (hu : w.frames[u]? = some (some (Frame.upload_texture t finalize promise done)))
    (hpc : (pc = BuildPc.lod0 ∧ promise.result = false) ∨ pc = BuildPc.lod1) :
    build_tile.body b t pc (some u) {} w
      = some { w with frames := (w.frames.set u none).set b none,
                      destroyed := w.destroyed ++ [u] } := by
  rcases hpc with ⟨h0, hres⟩ | h1
  · subst h0
    simp [build_tile.body, hu, CoroutineHandle.destroy, hres, build_tile.co_return,
      Awaiter.notify]
  · subst h1
    simp [build_tile.body, hu, CoroutineHandle.destroy, build_tile.co_return, Awaiter.notify]

/-- C9: release_tile on a tile whose production is in flight only sets its
released flag.  From then on no resumed coroutine other than an upload_texture
checkpoint for this tile changes or frees it; the next such checkpoint frees
the tile and every texture it owns and reports false; and build_tile, resumed
after that checkpoint (or after its last one), frees the awaited task and its
own frame and does nothing else, so it does not touch the tile and no step of
it is left. -/
theorem release_tile_deferred (t : Nat) (tile : Tile) (w : World)
    (ht : w.tiles[t]? = some (some tile)) (hwip : tile.wip = true) :
    release_tile t w
        = some { w with tiles := w.tiles.set t (some { tile with released := true }) }
    ∧ (∀ (x : Nat) (err : Bool) (w0 w1 : World),
        (∀ finalize promise done,
          w0.frames[x]? ≠ some (some (Frame.upload_texture t finalize promise done))) →
        CoroutineHandle.resume (some x) err w0 = some w1 →
        w1.tiles[t]? = w0.tiles[t]?)
    ∧ (∀ (u : Nat) (finalize : Bool) (promise : promise_type Bool) (err : Bool) (w0 : World)
        (tile0 : Tile),
        w0.frames[u]? = some (some (Frame.upload_texture t finalize promise false)) →
        w0.tiles[t]? = some (some tile0) →
        tile0.released = true →
        (-1 ≤ tile0.current_lod ∧ tile0.current_lod ≤ 0) →
        tile0.texture.length = 2 →
        CoroutineHandle.resume (some u) err w0
            = promise.awaiter.notify (released_checkpoint u t finalize promise err w0 tile0)
        ∧ (∀ w1, CoroutineHandle.resume (some u) err w0 = some w1 →
            w1.tiles[t]? = some none
            ∧ w1.gl = (released_checkpoint u t finalize promise err w0 tile0).gl)
        ∧ (∀ (b : Nat) (q : CoroutineQueue),
            promise.awaiter = { coro := some b } → w0.globalQueue = some q →
            CoroutineHandle.resume (some u) err w0
              = some { released_checkpoint u t finalize promise err w0 tile0 with
                  globalQueue := some ⟨q.queue ++ [some b]⟩ }))
    ∧ (∀ (b u : Nat) (pc : BuildPc) (finalize : Bool) (promise : promise_type Bool)
        (err : Bool) (w0 : World),
        w0.frames[b]? = some (some (Frame.build_tile t pc (some u) {})) →
        w0.frames[u]? = some (some (Frame.upload_texture t finalize promise true)) →
        ((pc = BuildPc.lod0 ∧ promise.result = false) ∨ pc = BuildPc.lod1) →
        CoroutineHandle.resume (some b) err w0
          = some { w0 with frames := (w0.frames.set u none).set b none,
                           destroyed := w0.destroyed ++ [u] }) := by
  refine ⟨?_, ?_, ?_, ?_⟩
  · simp [release_tile, ht, hwip]
  · intro x err w0 w1 hx hr
    exact resume_keeps_tile t x err w0 w1 hx hr
  · intro u finalize promise err w0 tile0 hf ht0 hrel hlod htex
    have hres : CoroutineHandle.resume (some u) err w0
        = promise.awaiter.notify (released_checkpoint u t finalize promise err w0 tile0) := by
      simp only [CoroutineHandle.resume, hf]
      exact upload_texture_body_released u t finalize promise err w0 tile0 ht0 hrel hlod htex
    have hlt : t < w0.tiles.length := by
      rcases List.getElem?_eq_some_iff.mp ht0 with ⟨hlt, _⟩
      exact hlt
    refine ⟨hres, ?_, ?_⟩
    · intro w1 h1
      rw [hres] at h1
      have hn := Awaiter.notify_tiles _ _ w1 h1
      refine ⟨?_, hn.2⟩
      rw [hn.1]
      simp [released_checkpoint, List.getElem?_set_self hlt]
    · intro b q haw hq
      rw [hres, haw]
      simp [Awaiter.notify, Awaiter.push_or_destroy, released_checkpoint, hq, AsyncQueue.push,
        Vector.append]
  · intro b u pc finalize promise err w0 hb hu hpc
    simp only [CoroutineHandle.resume, hb]
    exact build_tile_body_stops b u t pc finalize promise true w0 hu hpc

/-- Witness for C9: the example tile is released while its first checkpoint
is pending; the checkpoint (frame 1) then frees it and notifies build_tile
(frame 0), which stops. -/
theorem release_tile_deferred_witness :
    release_tile 0 (exampleLod0Pending.getD World.start)
        = some { exampleLod0Pending.getD World.start with
            tiles := (exampleLod0Pending.getD World.start).tiles.set 0
              (some { exampleTile with released := true }) }
    ∧ CoroutineHandle.resume (some 1) false (exampleReleased.getD World.start)
        = some { released_checkpoint 1 0 false { result := false, awaiter := { coro := some 0 } }
                   false (exampleReleased.getD World.start) { exampleTile with released := true } with
            globalQueue := some ⟨(AsyncQueue.new : CoroutineQueue).queue ++ [some 0]⟩ }
    ∧ CoroutineHandle.resume (some 0) false (exampleReleasedDone.getD World.start)
        = some { exampleReleasedDone.getD World.start with
            frames := ((exampleReleasedDone.getD World.start).frames.set 1 none).set 0 none,
            destroyed := (exampleReleasedDone.getD World.start).destroyed ++ [1] } :=
  ⟨(release_tile_deferred 0 exampleTile (exampleLod0Pending.getD World.start) rfl rfl).1,
   ((release_tile_deferred 0 exampleTile (exampleLod0Pending.getD World.start) rfl rfl).2.2.1
      1 false { result := false, awaiter := { coro := some 0 } } false
      (exampleReleased.getD World.start) { exampleTile with released := true }
      rfl rfl rfl (by decide) rfl).2.2 0 AsyncQueue.new rfl rfl,
   (release_tile_deferred 0 exampleTile (exampleLod0Pending.getD World.start) rfl rfl).2.2.2
      0 1 BuildPc.lod0 false { result := false, awaiter := { coro := some 0 } } false
      (exampleReleasedDone.getD World.start) rfl rfl (Or.inl ⟨rfl, rfl⟩)⟩

/-! ## Properties of teardown -/

/-- C10, counterexample: main_loop ends while the first checkpoint of the
example tile is pending.  wait_for_workers runs that checkpoint and the
notifier destroys the build_tile task (frames 0 and 1); the destructor of the
TileManager then releases the tile.  At the end the tile is still allocated,
marked released, its texture 1 is not deleted, no coroutine frame is left and
both queues are gone.  Destroying the task of a released tile directly leaves
the tile allocated as well. -/
theorem teardown_leaves_released_tile :
    ∃ w w1,
      exampleTeardown = some w
      ∧ w.tiles = [some { wip := true, color := 5, texture := [1, 0], released := true,
                          current_lod := 0, pos := (0, 0) }]
      ∧ w.gl.deleted = [] ∧ w.destroyed = [0, 1] ∧ w.frames = [none, none]
      ∧ w.globalQueue = none ∧ w.mainThreadQueue = none
      ∧ CoroutineHandle.destroy (some 0) (exampleReleased.getD World.start) = some w1
      ∧ w1.frames = [none, none]
      ∧ w1.tiles = [some { exampleTile with released := true }]
      ∧ w1.gl.deleted = [] :=
  ⟨_, _, rfl, rfl, rfl, rfl, rfl, rfl, rfl, rfl, rfl, rfl, rfl⟩

/-- C10, amended: destroying a build_tile task, directly or through a notifier
that finds no worker queue, frees coroutine frames only: the frame itself and
the task it is suspended on; every tile and every texture stay as they are.
A tile is changed or freed by no resumed coroutine other than an
upload_texture checkpoint for that tile. -/
theorem task_destruction_keeps_tile (b t : Nat) (pc : BuildPc) (task : CoroutineHandle)
    (aw : Awaiter) (w : World)
    (hb : w.frames[b]? = some (some (Frame.build_tile t pc task aw))) :
    (∀ w1, CoroutineHandle.destroy (some b) w = some w1 → w1.tiles = w.tiles ∧ w1.gl = w.gl)
    ∧ (∀ w1, w.globalQueue = none → Awaiter.notify { coro := some b } w = some w1 →
        w1.tiles = w.tiles ∧ w1.gl = w.gl ∧ w1.globalQueue = none)
    ∧ (∀ (u : Nat) (f : Frame), task = some u → pc ≠ BuildPc.initial →
        w.frames[u]? = some (some f) → u ≠ b →
        CoroutineHandle.destroy (some b) w
          = some { w with frames := (w.frames.set b none).set u none,
                          destroyed := w.destroyed ++ [b, u] })
    ∧ (pc = BuildPc.initial →
        CoroutineHandle.destroy (some b) w
          = some { w with frames := w.frames.set b none, destroyed := w.destroyed ++ [b] })
    ∧ (∀ (x : Nat) (err : Bool) (w0 w1 : World),
        (∀ finalize promise done,
          w0.frames[x]? ≠ some (some (Frame.upload_texture t finalize promise done))) →
        CoroutineHandle.resume (some x) err w0 = some w1 →
        w1.tiles[t]? = w0.tiles[t]?) := by
  refine ⟨?_, ?_, ?_, ?_, ?_⟩
  · intro w1 hd
    have hs := CoroutineHandle.destroy_spec b w w1 hd
    exact ⟨hs.2.2.1, hs.2.2.2.1⟩
  · intro w1 hq hn
    have ht := Awaiter.notify_tiles _ w w1 hn
    exact ⟨ht.1, ht.2, Awaiter.notify_null_queue _ w w1 hq hn⟩
  · intro u f htask hpc hu hne
    subst htask
    have hne2 : ¬ b = u := fun e => hne e.symm
    cases pc with
    | initial => exact absurd rfl hpc
    | lod0 => simp [CoroutineHandle.destroy, hb, List.getElem?_set_ne hne2, hu]
    | lod1 => simp [CoroutineHandle.destroy, hb, List.getElem?_set_ne hne2, hu]
  · intro hpc
    subst hpc
    simp [CoroutineHandle.destroy, hb]
  · intro x err w0 w1 hx hr
    exact resume_keeps_tile t x err w0 w1 hx hr

/-- Witness for the amended C10: the task of the released example tile is
destroyed while its first checkpoint is pending. -/
theorem task_destruction_keeps_tile_witness :
    CoroutineHandle.destroy (some 0) (exampleReleased.getD World.start)
      = some { exampleReleased.getD World.start with
          frames := ((exampleReleased.getD World.start).frames.set 0 none).set 1 none,
          destroyed := (exampleReleased.getD World.start).destroyed ++ [0, 1] }
    ∧ (exampleReleased.getD World.start).tiles[0]?
        = some (some { exampleTile with released := true }) :=
  ⟨(task_destruction_keeps_tile 0 0 BuildPc.lod0 (some 1) {}
      (exampleReleased.getD World.start) rfl).2.2.1 1
      (Frame.upload_texture 0 false { result := false, awaiter := { coro := some 0 } } false)
      rfl (by decide) rfl (by decide),
   rfl⟩

/-! ## Properties of Queue -/

theorem Queue.pop_loop_eq {T : Type} (s1 : List T) :
    ∀ (n : Nat) (s2 : List T), n ≤ s1.length →
      Queue.pop_loop s1 n s2 = s2 ++ (s1.take n).reverse := by
  intro n
  induction n with
  | zero => intro s2 _; simp [Queue.pop_loop]
  | succ n ih =>
    intro s2 hn
    have hlt : n < s1.length := by omega
    simp only [Queue.pop_loop, List.getElem?_eq_getElem hlt]
    rw [ih _ (by omega)]
    have htake : s1.take (n + 1) = s1.take n ++ [s1[n]] := by
      rw [List.take_succ, List.getElem?_eq_getElem hlt]; rfl
    rw [htake, List.reverse_append]
    simp [Vector.append]

theorem Vector.remove_last {T : Type} (l : List T) (y : T) :
    Vector.remove (l ++ [y]) ((l ++ [y]).length - 1) = l := by
  have hlen : (l ++ [y]).length - 1 = l.length := by simp
  rw [Vector.remove, hlen, List.eraseIdx_append_of_length_le (le_refl _)]
  simp

/-- With the queue content read oldest first as `s2.reverse ++ s1`, `pop`
returns the head of the content and leaves its tail. -/
theorem Queue.pop_spec {T : Type} (q : Queue T) (x : T) (rest : List T)
    (h : q.s2.reverse ++ q.s1 = x :: rest) :
    ∃ q1, q.pop = some (x, q1) ∧ q1.s2.reverse ++ q1.s1 = rest := by
  rcases List.eq_nil_or_concat q.s2 with h2 | ⟨init, y, h2⟩
  · -- the second stack is empty: the first one is reversed into it
    rw [h2] at h
    simp only [List.reverse_nil, List.nil_append] at h
    have hlen : ¬ q.s1.length = 0 := by rw [h]; simp
    refine ⟨⟨[], rest.reverse⟩, ?_, by simp⟩
    simp only [Queue.pop, h2, List.length_nil, if_true, hlen, if_false]
    rw [Queue.pop_loop_eq q.s1 q.s1.length [] (le_refl _)]
    simp only [List.take_length, List.nil_append, h, List.reverse_cons, Vector.last,
      List.getLast?_append, List.getLast?_singleton, Option.or, Vector.clear]
    rw [Vector.remove_last]
  · -- the second stack holds the oldest item on top
    rw [h2] at h
    simp only [List.concat_eq_append, List.reverse_append, List.reverse_cons, List.reverse_nil,
      List.nil_append, List.singleton_append, List.cons_append, List.cons.injEq] at h
    obtain ⟨hy, hrest⟩ := h
    subst hy
    refine ⟨⟨q.s1, init⟩, ?_, hrest⟩
    have hlen : ¬ q.s2.length = 0 := by rw [h2]; simp
    simp only [Queue.pop, hlen, if_false]
    rw [h2]
    simp only [List.concat_eq_append, Vector.last, List.getLast?_append,
      List.getLast?_singleton, Option.or]
    rw [Vector.remove_last]

theorem Queue.length_eq {T : Type} (q : Queue T) :
    q.length = (q.s2.reverse ++ q.s1).length := by
  simp [Queue.length]; omega

/-- The invariant of a guarded run: the popped items followed by the queue
content are the pushed items. -/
theorem QueueTrace.run_guarded {T : Type} (ops : List (QueueOp T)) :
    ∀ (r : QueueTrace T), r.guarded ops →
      r.popped ++ (r.q.s2.reverse ++ r.q.s1) = r.pushed →
      ∃ r1, r.run ops = some r1
        ∧ r1.popped ++ (r1.q.s2.reverse ++ r1.q.s1) = r1.pushed := by
  induction ops with
  | nil => intro r _ h; exact ⟨r, rfl, h⟩
  | cons op ops ih =>
    intro r hg h
    cases op with
    | push elem =>
      simp only [QueueTrace.guarded] at hg
      simp only [QueueTrace.run, QueueTrace.step]
      apply ih _ hg
      simp only [Queue.push, Vector.append]
      rw [← h]; simp
    | pop =>
      simp only [QueueTrace.guarded] at hg
      obtain ⟨hpos, hg2⟩ := hg
      rw [Queue.length_eq] at hpos
      cases hc : r.q.s2.reverse ++ r.q.s1 with
      | nil => rw [hc] at hpos; simp at hpos
      | cons x rest =>
        obtain ⟨q1, hpop, hq1⟩ := Queue.pop_spec r.q x rest hc
        simp only [hpop] at hg2
        simp only [QueueTrace.run, QueueTrace.step, hpop]
        apply ih _ hg2
        simp only [hq1]
        rw [← h, hc]; simp

/-- C17: for every sequence of push and pop calls on an empty Queue in which
each pop is applied at length() > 0, no pop reaches the fatal branch, the
items returned by the pops are the first pushed items in push order (the k-th
pop returns the k-th pushed item), and length() is the number of pushes minus
the number of pops. -/
theorem queue_is_fifo {T : Type} (ops : List (QueueOp T))
    (hg : (QueueTrace.fresh : QueueTrace T).guarded ops) :
    ∃ r, (QueueTrace.fresh : QueueTrace T).run ops = some r
      ∧ r.popped = r.pushed.take r.popped.length
      ∧ (∀ k, k < r.popped.length → r.popped[k]? = r.pushed[k]?)
      ∧ r.q.length = r.pushed.length - r.popped.length
      ∧ r.popped.length ≤ r.pushed.length := by
  obtain ⟨r, hrun, hinv⟩ := QueueTrace.run_guarded ops QueueTrace.fresh hg
    (by simp [QueueTrace.fresh, Queue.new])
  have hlen : r.pushed.length = r.popped.length + r.q.length := by
    rw [← hinv, Queue.length_eq]; simp
  refine ⟨r, hrun, ?_, ?_, by omega, by omega⟩
  · rw [← hinv]; simp
  · intro k hk
    rw [← hinv, List.getElem?_append_left hk]

/-- Witness for C17: push 1, push 2, pop, push 3, pop, pop. -/
theorem queue_is_fifo_witness :
    ∃ r, (QueueTrace.fresh : QueueTrace Nat).run
          [.push 1, .push 2, .pop, .push 3, .pop, .pop] = some r
      ∧ r.popped = r.pushed.take r.popped.length
      ∧ (∀ k, k < r.popped.length → r.popped[k]? = r.pushed[k]?)
      ∧ r.q.length = r.pushed.length - r.popped.length
      ∧ r.popped.length ≤ r.pushed.length :=
  queue_is_fifo [.push 1, .push 2, .pop, .push 3, .pop, .pop]
    (by simp [QueueTrace.guarded, QueueTrace.fresh, Queue.new, Queue.push, Queue.pop,
      Queue.pop_loop, Queue.length, Vector.append, Vector.clear, Vector.last, Vector.remove])

/-- C18, failing input: after push 1, push 2, pop, push 3 the queue holds 2
and 3; first() is 2, which the next pop returns, but last() is 2 as well,
although 3 is the most recently pushed item still queued (the pops that follow
return 2 and then 3). -/
theorem queue_last_misses_first_stack :
    ∃ q, (QueueTrace.fresh : QueueTrace Nat).run [.push 1, .push 2, .pop, .push 3]
          = some ⟨q, [1, 2, 3], [1]⟩
      ∧ q.first = some 2
      ∧ q.last = some 2
      ∧ (QueueTrace.mk q [1, 2, 3] [1]).run [.pop, .pop]
          = some ⟨Queue.new, [1, 2, 3], [1, 2, 3]⟩ :=
  ⟨_, rfl, rfl, rfl, rfl⟩

/-! ## Properties of the tile window -/

/-- One axis of the window: a pixel `p` of a screen interval that starts at
`tl` and is `w >= 1` wide lies in one of the `w / ts + 2` tiles counted from
the tile of `tl`. -/
theorem window_axis (ts tl w p : Int) (hts : 0 < ts) (hw : 1 ≤ w) (h1 : tl ≤ p)
    (h2 : p ≤ tl + w - 1) :
    0 ≤ Int.fdiv p ts - Int.fdiv tl ts
      ∧ Int.fdiv p ts - Int.fdiv tl ts < Int.tdiv w ts + 2 := by
  rw [Int.fdiv_eq_ediv p (le_of_lt hts), Int.fdiv_eq_ediv tl (le_of_lt hts),
    Int.tdiv_eq_ediv (by omega) (le_of_lt hts)]
  have hmono : tl / ts ≤ p / ts := Int.ediv_le_ediv hts h1
  have hp : p / ts ≤ (tl + w - 1) / ts := Int.ediv_le_ediv hts h2
  have htl : tl < (tl / ts + 1) * ts := Int.lt_ediv_add_one_mul_self tl hts
  have hwl : w < (w / ts + 1) * ts := Int.lt_ediv_add_one_mul_self w hts
  have hup : (tl + w - 1) / ts < tl / ts + w / ts + 2 := by
    apply Int.ediv_lt_of_lt_mul hts
    nlinarith
  constructor <;> omega

/-- C16: for every tile size with positive components and every screen
rectangle Rect_WH(tl, size) with size at least 1 in both directions, every
pixel p of the rectangle has the tile index floor_div(p, ts) - base inside the
window of update: both components are at least 0 and less than those of vis,
so contains(visrect, index) holds. -/
theorem window_covers_screen (ts tl size p : Vec2i)
    (hts : 0 < ts.1 ∧ 0 < ts.2) (hsize : 1 ≤ size.1 ∧ 1 ≤ size.2)
    (hp : Vec2i.le tl p = true ∧ Vec2i.le p (Vec2i.sub (Vec2i.add tl size) (1, 1)) = true) :
    0 ≤ (Vec2i.sub (floor_div p ts) (TileManager.update.base ts (Rect_WH tl size))).1
    ∧ 0 ≤ (Vec2i.sub (floor_div p ts) (TileManager.update.base ts (Rect_WH tl size))).2
    ∧ (Vec2i.sub (floor_div p ts) (TileManager.update.base ts (Rect_WH tl size))).1
        < (TileManager.update.vis ts (Rect_WH tl size)).1
    ∧ (Vec2i.sub (floor_div p ts) (TileManager.update.base ts (Rect_WH tl size))).2
        < (TileManager.update.vis ts (Rect_WH tl size)).2
    ∧ contains (Rect_WH (0, 0) (TileManager.update.vis ts (Rect_WH tl size)))
        (Vec2i.sub (floor_div p ts) (TileManager.update.base ts (Rect_WH tl size))) = true := by
  obtain ⟨h1, h2⟩ := hp
  simp only [Vec2i.le, Vec2i.sub, Vec2i.add, Bool.and_eq_true, decide_eq_true_eq] at h1 h2
  have hx := window_axis ts.1 tl.1 size.1 p.1 hts.1 hsize.1 h1.1 (by omega)
  have hy := window_axis ts.2 tl.2 size.2 p.2 hts.2 hsize.2 h1.2 (by omega)
  have hw : (Rect_WH tl size).size = size := by
    simp only [Rect.size, Rect.width, Rect.height, Rect_WH, Vec2i.sub, Vec2i.add]
    apply Prod.ext <;> simp only <;> omega
  have htl : (Rect_WH tl size).top_left = tl := by
    simp [Rect.top_left, Rect_WH]
  simp only [TileManager.update.base, TileManager.update.vis, hw, htl]
  simp only [Rect_WH, floor_div, Vec2i.sub, Vec2i.add, Vec2i.div, contains, Vec2i.le,
    Bool.and_eq_true, decide_eq_true_eq]
  omega

/-- Witness for C16: tiles of 128 pixels, a 1280 x 720 screen panned to
(-130, 5), and its bottom-right pixel. -/
theorem window_covers_screen_witness :
    0 ≤ (Vec2i.sub (floor_div (1149, 724) (128, 128))
          (TileManager.update.base (128, 128) (Rect_WH (-130, 5) (1280, 720)))).1
    ∧ 0 ≤ (Vec2i.sub (floor_div (1149, 724) (128, 128))
          (TileManager.update.base (128, 128) (Rect_WH (-130, 5) (1280, 720)))).2
    ∧ (Vec2i.sub (floor_div (1149, 724) (128, 128))
          (TileManager.update.base (128, 128) (Rect_WH (-130, 5) (1280, 720)))).1
        < (TileManager.update.vis (128, 128) (Rect_WH (-130, 5) (1280, 720))).1
    ∧ (Vec2i.sub (floor_div (1149, 724) (128, 128))
          (TileManager.update.base (128, 128) (Rect_WH (-130, 5) (1280, 720)))).2
        < (TileManager.update.vis (128, 128) (Rect_WH (-130, 5) (1280, 720))).2
    ∧ contains (Rect_WH (0, 0) (TileManager.update.vis (128, 128) (Rect_WH (-130, 5) (1280, 720))))
        (Vec2i.sub (floor_div (1149, 724) (128, 128))
          (TileManager.update.base (128, 128) (Rect_WH (-130, 5) (1280, 720)))) = true :=
  window_covers_screen (128, 128) (-130, 5) (1280, 720) (1149, 724)
    (by decide) (by decide) (by decide)

/-! ## Properties of a checkpoint on a tile that is not released -/

/-- An `upload_texture` checkpoint that finds the tile not released, whether
or not `glGetError` reports an error. -/
theorem upload_texture_body_advances (u t : Nat) (finalize : Bool)
    (promise : promise_type Bool) (err : Bool) (w : World) (tile : Tile)
    (ht : w.tiles[t]? = some (some tile)) (hrel : tile.released = false)
    (hlod : -1 ≤ tile.current_lod ∧ tile.current_lod ≤ 0) :
    upload_texture.body u t finalize promise err w
      = promise.awaiter.notify (advanced_checkpoint u t finalize promise err w tile) := by
  have hl : 0 ≤ tile.current_lod + 1 ∧ tile.current_lod + 1 < 2 := by omega
  unfold upload_texture.body advanced_checkpoint
  simp only [glGenTextures, ht, hl, and_self, if_true]
  cases finalize <;>
    simp [hrel, upload_texture.co_return, promise_type.return_value]

/-- C12, counterexample: the first checkpoint of the example tile runs with
glGetError reporting an error.  Before it the tile has current_lod -1 and
texture handles 0, 0; after it the tile has current_lod 0 and displays the
new texture 1, and one line was printed. -/
theorem failed_upload_advances_example :
    ∃ w0 w1,
      exampleLod0Pending = some w0
      ∧ main_loop.drain true w0 = some w1
      ∧ w0.tiles = [some { exampleTile with current_lod := -1, texture := [0, 0] }]
      ∧ w1.tiles = [some { exampleTile with current_lod := 0, texture := [1, 0] }]
      ∧ w0.printed = 0 ∧ w1.printed = 1 :=
  ⟨_, _, rfl, rfl, rfl, rfl, rfl, rfl⟩

/-- C12, amended: a failed upload is logged and is not fatal, and the
checkpoint goes on as after a successful upload: on a tile that is alive and
not released, current_lod is incremented, the generated texture name is stored
at the new level and a finalizing upload clears wip; the only difference the
error makes is the printed line. -/
theorem failed_upload_still_advances (u t : Nat) (finalize : Bool)
    (promise : promise_type Bool) (err : Bool) (w : World) (tile : Tile)
    (hf : w.frames[u]? = some (some (Frame.upload_texture t finalize promise false)))
    (ht : w.tiles[t]? = some (some tile)) (hrel : tile.released = false)
    (hlod : -1 ≤ tile.current_lod ∧ tile.current_lod ≤ 0) :
    CoroutineHandle.resume (some u) err w
        = promise.awaiter.notify (advanced_checkpoint u t finalize promise err w tile)
    ∧ (advanced_checkpoint u t finalize promise true w tile)
        = { advanced_checkpoint u t finalize promise false w tile with printed := w.printed + 1 }
    ∧ ∀ w1, CoroutineHandle.resume (some u) err w = some w1 →
        w1.tiles[t]? = some (some { tile with
          current_lod := tile.current_lod + 1,
          texture := tile.texture.set (tile.current_lod + 1).toNat (w.gl.generated + 1),
          wip := if finalize then false else tile.wip })
        ∧ w1.gl = { w.gl with generated := w.gl.generated + 1 } := by
  have hres : CoroutineHandle.resume (some u) err w
      = promise.awaiter.notify (advanced_checkpoint u t finalize promise err w tile) := by
    simp only [CoroutineHandle.resume, hf]
    exact upload_texture_body_advances u t finalize promise err w tile ht hrel hlod
  have hlt : t < w.tiles.length := by
    rcases List.getElem?_eq_some_iff.mp ht with ⟨hlt, _⟩
    exact hlt
  refine ⟨hres, by simp [advanced_checkpoint], ?_⟩
  intro w1 h1
  rw [hres] at h1
  have hn := Awaiter.notify_tiles _ _ w1 h1
  rw [hn.1, hn.2]
  simp [advanced_checkpoint, List.getElem?_set_self hlt]

/-- Witness for the amended C12: the first checkpoint of the example tile with
a failed upload. -/
theorem failed_upload_still_advances_witness :
    CoroutineHandle.resume (some 1) true (exampleLod0Pending.getD World.start)
        = Awaiter.notify { coro := some 0 }
            (advanced_checkpoint 1 0 false { result := false, awaiter := { coro := some 0 } }
              true (exampleLod0Pending.getD World.start) exampleTile)
    ∧ (advanced_checkpoint 1 0 false { result := false, awaiter := { coro := some 0 } }
              true (exampleLod0Pending.getD World.start) exampleTile).tiles
        = [some { exampleTile with current_lod := 0, texture := [1, 0] }] :=
  ⟨(failed_upload_still_advances 1 0 false { result := false, awaiter := { coro := some 0 } }
      true (exampleLod0Pending.getD World.start) exampleTile rfl rfl rfl (by decide)).1,
   rfl⟩

/-! ## Properties of the worker loop -/

theorem Awaiter.notify_queue_grows (a : Awaiter) (w w1 : World) (q : CoroutineQueue)
    (hq : w.globalQueue = some q) (hn : a.notify w = some w1) :
    ∃ extra, w1.globalQueue = some ⟨q.queue ++ extra⟩ := by
  have hpush : ∀ (w0 : World), w0.globalQueue = some q → a.push_or_destroy w0 = some w1 →
      ∃ extra, w1.globalQueue = some ⟨q.queue ++ extra⟩ := by
    intro w0 hq0 hp
    simp only [Awaiter.push_or_destroy, hq0] at hp
    cases hp
    exact ⟨[a.coro], by simp [AsyncQueue.push, Vector.append]⟩
  unfold Awaiter.notify at hn
  split at hn
  · cases hn; exact ⟨[], by simp [hq]⟩
  · split at hn
    · split at hn
      · cases hn
      · simp only at hn
        split at hn
        · exact hpush _ (by simpa using hq) hn
        · cases hn; exact ⟨[], by simp [hq]⟩
    · exact hpush w hq hn

theorem upload_texture_body_queue_grows (h t : Nat) (finalize : Bool)
    (promise : promise_type Bool) (err : Bool) (w w1 : World) (q : CoroutineQueue)
    (hq : w.globalQueue = some q)
    (hb : upload_texture.body h t finalize promise err w = some w1) :
    ∃ extra, w1.globalQueue = some ⟨q.queue ++ extra⟩ := by
  have hco : ∀ (value : Bool) (w0 : World), w0.globalQueue = some q →
      upload_texture.co_return h t finalize promise value w0 = some w1 →
      ∃ extra, w1.globalQueue = some ⟨q.queue ++ extra⟩ := by
    intro value w0 hq0 hc
    exact Awaiter.notify_queue_grows _ _ w1 q (by simpa using hq0) hc
  unfold upload_texture.body at hb
  simp only [glGenTextures] at hb
  split at hb
  · split at hb
    · split at hb <;> split at hb
      · split at hb
        · cases hb
        · rename_i w3 hdel
          have h3 := (del_obj_queues t _ w3 hdel).1
          exact hco _ w3 (by simpa [h3] using hq) hb
      · exact hco _ _ (by simpa using hq) hb
      · split at hb
        · cases hb
        · rename_i w3 hdel
          have h3 := (del_obj_queues t _ w3 hdel).1
          exact hco _ w3 (by simpa [h3] using hq) hb
      · exact hco _ _ (by simpa using hq) hb
    · cases hb
  · cases hb

theorem build_tile_body_queue_grows (h t : Nat) (pc : BuildPc) (task : CoroutineHandle)
    (awaiter : Awaiter) (w w1 : World) (q : CoroutineQueue) (hq : w.globalQueue = some q)
    (hb : build_tile.body h t pc task awaiter w = some w1) :
    ∃ extra, w1.globalQueue = some ⟨q.queue ++ extra⟩ := by
  have hco : ∀ (w0 : World), w0.globalQueue = some q →
      build_tile.co_return h awaiter w0 = some w1 →
      ∃ extra, w1.globalQueue = some ⟨q.queue ++ extra⟩ := by
    intro w0 hq0 hc
    unfold build_tile.co_return at hc
    split at hc
    · cases hc
    · rename_i w2 hn
      cases hc
      exact Awaiter.notify_queue_grows awaiter w0 w2 q hq0 hn
  have haw : ∀ (finalize : Bool) (w0 : World), w0.globalQueue = some q →
      build_tile.await_upload h t finalize awaiter w0 = some w1 →
      ∃ extra, w1.globalQueue = some ⟨q.queue ++ extra⟩ := by
    intro finalize w0 hq0 hc
    exact ⟨[], by rw [build_tile_await_upload_queue h t finalize awaiter w0 w1 hc, hq0]; simp⟩
  unfold build_tile.body at hb
  split at hb
  · split at hb
    · exact haw false w hq hb
    · cases hb
  · split at hb
    · cases hb
    · rename_i u
      split at hb
      · split at hb
        · cases hb
        · rename_i w2 hd
          have h2 : w2.globalQueue = some q := by
            rw [(CoroutineHandle.destroy_spec u w w2 hd).1, hq]
          split at hb
          · exact hco w2 h2 hb
          · exact haw true w2 h2 hb
      · cases hb
  · split at hb
    · cases hb
    · rename_i u
      split at hb
      · split at hb
        · cases hb
        · rename_i w2 hd
          have h2 : w2.globalQueue = some q := by
            rw [(CoroutineHandle.destroy_spec u w w2 hd).1, hq]
          exact hco w2 h2 hb
      · cases hb

/-- Resuming a coroutine leaves the worker queue as it is, up to items pushed
at its end. -/
theorem resume_queue_grows (c : CoroutineHandle) (err : Bool) (w w1 : World)
    (q : CoroutineQueue) (hq : w.globalQueue = some q)
    (hr : CoroutineHandle.resume c err w = some w1) :
    ∃ extra, w1.globalQueue = some ⟨q.queue ++ extra⟩ := by
  unfold CoroutineHandle.resume at hr
  split at hr
  · cases hr
  · split at hr
    · exact upload_texture_body_queue_grows _ _ _ _ _ w w1 q hq hr
    · exact build_tile_body_queue_grows _ _ _ _ _ w w1 q hq hr
    · cases hr

theorem worker_turn_item (err : Bool) (w : World) (a : Nat) (rest : List CoroutineHandle)
    (hq : w.globalQueue = some ⟨some a :: rest⟩) :
    worker_thread.turn err w
      = (worker_thread.process err w a).map (fun w1 => (WorkerStatus.looping, w1)) := by
  simp only [worker_thread.turn, worker_thread.process, hq, AsyncQueue.pop, Vector.remove,
    List.eraseIdx_cons_zero, if_true]
  cases CoroutineHandle.done (some a) { w with globalQueue := some ⟨rest⟩ } with
  | none => rfl
  | some d =>
    cases d with
    | true => rfl
    | false =>
      simp only
      cases CoroutineHandle.resume (some a) err { w with globalQueue := some ⟨rest⟩ } <;> rfl

theorem worker_turn_sentinel (err : Bool) (w : World) (rest : List CoroutineHandle)
    (hq : w.globalQueue = some ⟨none :: rest⟩) :
    worker_thread.turn err w
      = some (WorkerStatus.returned, { w with globalQueue := some ⟨rest⟩ }) := by
  simp [worker_thread.turn, hq, AsyncQueue.pop, Vector.remove]

theorem worker_process_queue (err : Bool) (w w1 : World) (a : Nat)
    (rest : List CoroutineHandle) (hq : w.globalQueue = some ⟨some a :: rest⟩)
    (hp : worker_thread.process err w a = some w1) :
    ∃ extra, w1.globalQueue = some ⟨rest ++ extra⟩ := by
  simp only [worker_thread.process, hq, if_true] at hp
  split at hp
  · cases hp
  · cases hp; exact ⟨[], by simp⟩
  · exact resume_queue_grows _ err _ w1 ⟨rest⟩ rfl hp

/-- The loop of `worker_thread` on a queue that holds the non-null items
`items`, then a null item, then `behind`. -/
theorem worker_loop_items (err : Bool) (items : List Nat) :
    ∀ (behind : List CoroutineHandle) (w : World) (fuel : Nat),
      w.globalQueue = some ⟨items.map some ++ none :: behind⟩ → items.length < fuel →
      (∀ w1, items.foldlM (worker_thread.process err) w = some w1 →
        ∃ pushed, w1.globalQueue = some ⟨none :: behind ++ pushed⟩
          ∧ worker_thread err fuel w
              = some (WorkerStatus.returned,
                      { w1 with globalQueue := some ⟨behind ++ pushed⟩ }))
      ∧ (items.foldlM (worker_thread.process err) w = none →
          worker_thread err fuel w = none) := by
  induction items with
  | nil =>
    intro behind w fuel hq hfuel
    obtain ⟨f, rfl⟩ : ∃ f, fuel = f + 1 := ⟨fuel - 1, by simp at hfuel; omega⟩
    simp only [List.map_nil, List.nil_append] at hq
    refine ⟨?_, ?_⟩
    · intro w1 h1
      simp only [List.foldlM_nil, pure, Option.some.injEq] at h1
      subst h1
      refine ⟨[], by simp [hq], ?_⟩
      simp [worker_thread, worker_turn_sentinel err w behind hq]
    · intro h1
      simp [pure] at h1
  | cons a rest ih =>
    intro behind w fuel hq hfuel
    obtain ⟨f, rfl⟩ : ∃ f, fuel = f + 1 := ⟨fuel - 1, by simp at hfuel; omega⟩
    have hq1 : w.globalQueue = some ⟨some a :: (rest.map some ++ none :: behind)⟩ := by
      simpa using hq
    have hturn := worker_turn_item err w a _ hq1
    simp only [List.foldlM_cons, bind, Option.bind]
    cases hp : worker_thread.process err w a with
    | none =>
      refine ⟨by intro w1 h1; simp at h1, ?_⟩
      intro _
      simp [worker_thread, hturn, hp]
    | some w2 =>
      obtain ⟨extra, hq2⟩ := worker_process_queue err w w2 a _ hq1 hp
      have hq2b : w2.globalQueue = some ⟨rest.map some ++ none :: (behind ++ extra)⟩ := by
        rw [hq2]; simp
      have hloop : worker_thread err (f + 1) w = worker_thread err f w2 := by
        simp [worker_thread, hturn, hp]
      obtain ⟨ih1, ih2⟩ := ih (behind ++ extra) w2 f hq2b
        (by simp only [List.length_cons] at hfuel; omega)
      refine ⟨?_, ?_⟩
      · intro w1 h1
        obtain ⟨pushed, hfin, hres⟩ := ih1 w1 h1
        refine ⟨extra ++ pushed, by simpa using hfin, ?_⟩
        rw [hloop, hres]
        simp
      · intro h1
        rw [hloop]
        exact ih2 h1

theorem terminate_workers_pushes (n : Nat) (q : CoroutineQueue) :
    (List.range n).foldl (fun q1 _ => q1.push none) q
      = ⟨q.queue ++ List.replicate n none⟩ := by
  have h : ∀ (l : List Nat) (q0 : CoroutineQueue),
      l.foldl (fun q1 _ => q1.push none) q0 = ⟨q0.queue ++ List.replicate l.length none⟩ := by
    intro l
    induction l with
    | nil => intro q0; simp
    | cons x l ih =>
      intro q0
      rw [List.foldl_cons, ih]
      simp [AsyncQueue.push, Vector.append, List.replicate_succ]
  simpa using h (List.range n) q

/-- C14: on a worker queue that holds the non-null items `items`, then a stop
item, then `behind`, the worker pops and processes `items` in queue order,
each once (an item that is done() is skipped, any other is resumed), then pops
the stop item and returns; what was behind the stop item is still queued, in
order, followed by what the resumed items pushed.  If processing an item is
undefined, so is the loop.  terminate_workers appends one stop item per
worker. -/
theorem worker_loop_fifo (err : Bool) (items : List Nat) (behind : List CoroutineHandle)
    (w : World) (fuel : Nat)
    (hq : w.globalQueue = some ⟨items.map some ++ none :: behind⟩)
    (hfuel : items.length < fuel) :
    (∀ w1, items.foldlM (worker_thread.process err) w = some w1 →
        ∃ pushed, w1.globalQueue = some ⟨none :: behind ++ pushed⟩
          ∧ worker_thread err fuel w
              = some (WorkerStatus.returned,
                      { w1 with globalQueue := some ⟨behind ++ pushed⟩ }))
    ∧ (items.foldlM (worker_thread.process err) w = none →
        worker_thread err fuel w = none)
    ∧ (∀ (w0 : World) (q : CoroutineQueue), w0.globalQueue = some q →
        terminate_workers w0
          = some { w0 with globalQueue := some ⟨q.queue ++ List.replicate w0.workers none⟩ }) := by
  obtain ⟨h1, h2⟩ := worker_loop_items err items behind w fuel hq hfuel
  refine ⟨h1, h2, ?_⟩
  intro w0 q hq0
  simp [terminate_workers, hq0, terminate_workers_pushes]

/-! ## Properties of a production that is not released -/

theorem getElem?_lt {α : Type} (l : List α) (i : Nat) (v : α) (h : l[i]? = some v) :
    i < l.length := by
  rcases List.getElem?_eq_some_iff.mp h with ⟨hlt, _⟩
  exact hlt

theorem set_append_self {α : Type} (fs : List α) (h : Nat) (y z : α) (hlt : h < fs.length) :
    (fs.set h z ++ [y])[h]? = some z := by
  rw [List.getElem?_append_left (by simpa using hlt), List.getElem?_set_self hlt]

theorem set_append_new {α : Type} (fs : List α) (h : Nat) (y z : α) :
    (fs.set h z ++ [y])[fs.length]? = some y := by
  have hl : (fs.set h z).length = fs.length := List.length_set ..
  rw [List.getElem?_append_right (by omega), hl]
  simp

theorem set_append_other {α : Type} (fs : List α) (h i : Nat) (y z : α) (hi : h ≠ i)
    (hlt : i < fs.length) : (fs.set h z ++ [y])[i]? = fs[i]? := by
  rw [List.getElem?_append_left (by simpa using hlt), List.getElem?_set_ne hi]

theorem append_set_set {α : Type} (fs : List α) (h : Nat) (x y z : α) (hlt : h < fs.length) :
    ((fs ++ [x]).set fs.length y).set h z = fs.set h z ++ [y] := by
  apply List.ext_getElem?
  intro i
  have hl : (fs ++ [x]).length = fs.length + 1 := by simp
  have hne : fs.length ≠ h := by omega
  by_cases hih : h = i
  · subst hih
    rw [set_append_self fs h y z hlt, List.getElem?_set_self (by simp; omega)]
  · rw [List.getElem?_set_ne hih]
    by_cases hil : fs.length = i
    · subst hil
      rw [set_append_new, List.getElem?_set_self (by omega)]
    · rw [List.getElem?_set_ne hil]
      by_cases hlt2 : i < fs.length
      · rw [set_append_other fs h i y z hih hlt2, List.getElem?_append_left hlt2]
      · rw [List.getElem?_eq_none (by simp; omega), List.getElem?_eq_none (by simp; omega)]

/-- The state after `build_tile` at `h` has suspended on
`co_await co_main(upload_texture(t, ..., finalize))`. -/
theorem build_tile_await_upload_eq (h t : Nat) (finalize : Bool) (awaiter : Awaiter)
    (w : World) (mq : CoroutineQueue) (hm : w.mainThreadQueue = some mq)
    (hlt : h < w.frames.length) :
    build_tile.await_upload h t finalize awaiter w
      = some { w with
          mainThreadQueue := some ⟨mq.queue ++ [some w.frames.length]⟩,
          frames := w.frames.set h
              (some (Frame.build_tile t (if finalize then BuildPc.lod1 else BuildPc.lod0)
                (some w.frames.length) awaiter)) ++
              [some (Frame.upload_texture t finalize
                { result := false, awaiter := { coro := some h } } false)] } := by
  simp only [build_tile.await_upload, upload_texture, co_main, MainThreadAwaiter.await_suspend,
    hm, AsyncQueue.push, Vector.append]
  rw [append_set_set _ _ _ _ _ hlt]

/-- The first step of `build_tile`: the coarse upload is queued for the main
thread. -/
theorem production_start (b t : Nat) (err : Bool) (w : World) (mq : CoroutineQueue)
    (hp : Production b t ProdStage.created w) (hm : w.mainThreadQueue = some mq) :
    ∃ w1, CoroutineHandle.resume (some b) err w = some w1
      ∧ Production b t (ProdStage.coarse_pending w.frames.length) w1
      ∧ w1.mainThreadQueue = some ⟨mq.queue ++ [some w.frames.length]⟩
      ∧ w1.globalQueue = w.globalQueue ∧ w1.tiles = w.tiles ∧ w1.gl = w.gl := by
  obtain ⟨hb, tile, ht, hrest⟩ := hp
  have hlt := getElem?_lt _ _ _ hb
  have hres : CoroutineHandle.resume (some b) err w
      = build_tile.await_upload b t false {} w := by
    simp [CoroutineHandle.resume, hb, build_tile.body, ht]
  rw [hres, build_tile_await_upload_eq b t false {} w mq hm hlt]
  refine ⟨_, rfl, ?_, rfl, rfl, rfl, rfl⟩
  simp only [Production, tile_state]
  exact ⟨set_append_self _ _ _ _ hlt, set_append_new _ _ _ _, tile, ht, hrest⟩

/-- A checkpoint on a tile that is not released, with the worker queue live:
the tile advances and the awaiting `build_tile` is pushed for the workers. -/
theorem upload_step (b u t : Nat) (finalize err : Bool) (w : World) (gq : CoroutineQueue)
    (tile : Tile)
    (hf : w.frames[u]? = some (some (Frame.upload_texture t finalize
        { result := false, awaiter := { coro := some b } } false)))
    (ht : w.tiles[t]? = some (some tile)) (hrel : tile.released = false)
    (hlod : -1 ≤ tile.current_lod ∧ tile.current_lod ≤ 0) (hq : w.globalQueue = some gq) :
    CoroutineHandle.resume (some u) err w
      = some { advanced_checkpoint u t finalize
                 { result := false, awaiter := { coro := some b } } err w tile with
               globalQueue := some ⟨gq.queue ++ [some b]⟩ } := by
  simp only [CoroutineHandle.resume, hf]
  rw [upload_texture_body_advances u t finalize _ err w tile ht hrel hlod]
  simp [Awaiter.notify, Awaiter.push_or_destroy, advanced_checkpoint, hq, AsyncQueue.push,
    Vector.append]

theorem production_coarse_upload (b t u : Nat) (err : Bool) (w : World) (gq : CoroutineQueue)
    (hp : Production b t (ProdStage.coarse_pending u) w) (hq : w.globalQueue = some gq) :
    ∃ w1, CoroutineHandle.resume (some u) err w = some w1
      ∧ Production b t (ProdStage.coarse_done u (w.gl.generated + 1)) w1
      ∧ w1.globalQueue = some ⟨gq.queue ++ [some b]⟩
      ∧ w1.mainThreadQueue = w.mainThreadQueue := by
  obtain ⟨hb, hf, tile, ht, hrel, hwip, hlod, hlen, _⟩ := hp
  have hne : ¬ u = b := by
    intro e; subst e; rw [hb] at hf; cases hf
  have hlu := getElem?_lt _ _ _ hf
  have hlt := getElem?_lt _ _ _ ht
  rw [upload_step b u t false err w gq tile hf ht hrel (by omega) hq]
  refine ⟨_, rfl, ?_, rfl, rfl⟩
  simp only [Production, tile_state, advanced_checkpoint]
  refine ⟨by rw [List.getElem?_set_ne hne]; exact hb,
    by rw [List.getElem?_set_self hlu], _, List.getElem?_set_self hlt, hrel, ?_, ?_, ?_, ?_⟩
  · simpa using hwip
  · simp [hlod]
  · simpa using hlen
  · obtain ⟨x, y, hxy⟩ : ∃ x y, tile.texture = [x, y] := by
      match htx : tile.texture, hlen with
      | [x, y], _ => exact ⟨x, y, rfl⟩
    simp [hlod, hxy]

theorem production_resume_coarse (b t u : Nat) (id0 : GLuint) (err : Bool) (w : World)
    (mq : CoroutineQueue)
    (hp : Production b t (ProdStage.coarse_done u id0) w) (hm : w.mainThreadQueue = some mq) :
    ∃ w1, CoroutineHandle.resume (some b) err w = some w1
      ∧ Production b t (ProdStage.full_pending w.frames.length id0) w1
      ∧ w1.mainThreadQueue = some ⟨mq.queue ++ [some w.frames.length]⟩
      ∧ w1.globalQueue = w.globalQueue ∧ w1.tiles = w.tiles ∧ w1.gl = w.gl := by
  obtain ⟨hb, hf, tile, ht, hrest⟩ := hp
  have hlt := getElem?_lt _ _ _ hb
  have hres : CoroutineHandle.resume (some b) err w
      = build_tile.await_upload b t true {}
          { w with destroyed := w.destroyed ++ [u], frames := w.frames.set u none } := by
    simp [CoroutineHandle.resume, hb, build_tile.body, hf, CoroutineHandle.destroy]
  rw [hres, build_tile_await_upload_eq b t true {}
    { w with destroyed := w.destroyed ++ [u], frames := w.frames.set u none } mq hm
    (by simpa using hlt)]
  refine ⟨_, rfl, ?_, by simp, rfl, rfl, rfl⟩
  simp only [Production, tile_state, List.length_set, if_true]
  exact ⟨set_append_self _ _ _ _ (by simpa using hlt),
    by simp, tile, ht, hrest⟩

theorem production_full_upload (b t u : Nat) (id0 : GLuint) (err : Bool) (w : World)
    (gq : CoroutineQueue)
    (hp : Production b t (ProdStage.full_pending u id0) w) (hq : w.globalQueue = some gq) :
    ∃ w1, CoroutineHandle.resume (some u) err w = some w1
      ∧ Production b t (ProdStage.full_done u id0 (w.gl.generated + 1)) w1
      ∧ w1.globalQueue = some ⟨gq.queue ++ [some b]⟩
      ∧ w1.mainThreadQueue = w.mainThreadQueue := by
  obtain ⟨hb, hf, tile, ht, hrel, hwip, hlod, hlen, hids⟩ := hp
  have hne : ¬ u = b := by
    intro e; subst e; rw [hb] at hf; cases hf
  have hlu := getElem?_lt _ _ _ hf
  have hlt := getElem?_lt _ _ _ ht
  rw [upload_step b u t true err w gq tile hf ht hrel (by omega) hq]
  refine ⟨_, rfl, ?_, rfl, rfl⟩
  simp only [Production, tile_state, advanced_checkpoint]
  refine ⟨by rw [List.getElem?_set_ne hne]; exact hb,
    by rw [List.getElem?_set_self hlu], _, List.getElem?_set_self hlt, hrel, ?_, ?_, ?_, ?_⟩
  · simp
  · simp [hlod]
  · simpa using hlen
  · obtain ⟨x, y, hxy⟩ : ∃ x y, tile.texture = [x, y] := by
      match htx : tile.texture, hlen with
      | [x, y], _ => exact ⟨x, y, rfl⟩
    simp only [hlod, hxy] at hids ⊢
    simp at hids
    simp [hids]

theorem production_finish (b t u : Nat) (id0 id1 : GLuint) (err : Bool) (w : World)
    (hp : Production b t (ProdStage.full_done u id0 id1) w) :
    ∃ w1, CoroutineHandle.resume (some b) err w = some w1
      ∧ Production b t (ProdStage.finished id0 id1) w1
      ∧ w1.globalQueue = w.globalQueue ∧ w1.mainThreadQueue = w.mainThreadQueue
      ∧ w1.tiles = w.tiles ∧ w1.gl = w.gl := by
  obtain ⟨hb, hf, hrest⟩ := hp
  have hlt := getElem?_lt _ _ _ hb
  have hres : CoroutineHandle.resume (some b) err w
      = some { w with frames := (w.frames.set u none).set b none,
                      destroyed := w.destroyed ++ [u] } := by
    simp only [CoroutineHandle.resume, hb]
    exact build_tile_body_stops b u t BuildPc.lod1 true _ true w hf (Or.inr rfl)
  rw [hres]
  refine ⟨_, rfl, ?_, rfl, rfl, rfl, rfl⟩
  simp only [Production]
  exact ⟨List.getElem?_set_self (by simpa using hlt), hrest⟩

theorem append_set_length {α : Type} (l : List α) (x y : α) :
    (l ++ [x]).set l.length y = l ++ [y] := by
  apply List.ext_getElem?
  intro i
  by_cases hi : l.length = i
  · subst hi
    rw [List.getElem?_set_self (by simp), List.getElem?_append_right (le_refl _)]
    simp
  · rw [List.getElem?_set_ne hi]
    by_cases hlt : i < l.length
    · rw [List.getElem?_append_left hlt, List.getElem?_append_left hlt]
    · rw [List.getElem?_eq_none (by simp; omega), List.getElem?_eq_none (by simp; omega)]

/-- What `update` does for one missing window position: a new tile with
`wip = true` at the end of the tile heap, appended to `tiles`, and one new
`build_tile` task, pushed once onto the worker queue. -/
theorem add_tile_eq (tm : TileManager) (pos : Vec2i) (color : Nat) (w : World)
    (q : CoroutineQueue) (hq : w.globalQueue = some q) :
    TileManager.add_tile tm pos color w
      = some ({ tm with tiles := tm.tiles ++ [w.tiles.length] },
              { w with
                tiles := w.tiles ++ [some { color := color, pos := pos, wip := true }],
                frames := w.frames ++
                  [some (Frame.build_tile w.tiles.length BuildPc.initial none {})],
                globalQueue := some ⟨q.queue ++ [some w.frames.length]⟩ }) := by
  simp only [TileManager.add_tile, build_tile, hq, AsyncQueue.push, Vector.append,
    append_set_length]

/-- C13: the production of a tile that is not released goes through these
stages and no others.  update creates the tile with current_lod -1 and wip
set; build_tile queues the coarse upload; the first checkpoint stores the new
texture as texture[0] and leaves current_lod 0 with wip still set; build_tile
queues the full upload; the second checkpoint stores the new texture as
texture[1] and leaves current_lod 1 with wip cleared; build_tile then runs to
completion and the tile stays alive in that state.  At every stage current_lod
is in -1..1 and the texture array has two entries. -/
theorem unreleased_production_reaches_full_detail (b t : Nat) (err : Bool) :
    (∀ (tm tm1 : TileManager) (pos : Vec2i) (color : Nat) (w w1 : World),
        TileManager.add_tile tm pos color w = some (tm1, w1) →
        Production w.frames.length w.tiles.length ProdStage.created w1)
    ∧ (∀ (w : World) (mq : CoroutineQueue),
        Production b t ProdStage.created w → w.mainThreadQueue = some mq →
        ∃ w1, CoroutineHandle.resume (some b) err w = some w1
          ∧ Production b t (ProdStage.coarse_pending w.frames.length) w1
          ∧ w1.mainThreadQueue = some ⟨mq.queue ++ [some w.frames.length]⟩)
    ∧ (∀ (w : World) (u : Nat) (gq : CoroutineQueue),
        Production b t (ProdStage.coarse_pending u) w → w.globalQueue = some gq →
        ∃ w1, CoroutineHandle.resume (some u) err w = some w1
          ∧ Production b t (ProdStage.coarse_done u (w.gl.generated + 1)) w1
          ∧ w1.globalQueue = some ⟨gq.queue ++ [some b]⟩)
    ∧ (∀ (w : World) (u : Nat) (id0 : GLuint) (mq : CoroutineQueue),
        Production b t (ProdStage.coarse_done u id0) w → w.mainThreadQueue = some mq →
        ∃ w1, CoroutineHandle.resume (some b) err w = some w1
          ∧ Production b t (ProdStage.full_pending w.frames.length id0) w1
          ∧ w1.mainThreadQueue = some ⟨mq.queue ++ [some w.frames.length]⟩)
    ∧ (∀ (w : World) (u : Nat) (id0 : GLuint) (gq : CoroutineQueue),
        Production b t (ProdStage.full_pending u id0) w → w.globalQueue = some gq →
        ∃ w1, CoroutineHandle.resume (some u) err w = some w1
          ∧ Production b t (ProdStage.full_done u id0 (w.gl.generated + 1)) w1
          ∧ w1.globalQueue = some ⟨gq.queue ++ [some b]⟩)
    ∧ (∀ (w : World) (u : Nat) (id0 id1 : GLuint),
        Production b t (ProdStage.full_done u id0 id1) w →
        ∃ w1, CoroutineHandle.resume (some b) err w = some w1
          ∧ Production b t (ProdStage.finished id0 id1) w1
          ∧ w1.tiles = w.tiles)
    ∧ (∀ (w : World) (id0 id1 : GLuint), Production b t (ProdStage.finished id0 id1) w →
        ∃ tile, w.tiles[t]? = some (some tile) ∧ tile.wip = false ∧ tile.current_lod = 1
          ∧ tile.texture = [id0, id1] ∧ w.frames[b]? = some none)
    ∧ (∀ (w : World) (u : Nat) (id0 : GLuint),
        Production b t (ProdStage.coarse_done u id0) w
          ∨ Production b t (ProdStage.full_pending u id0) w →
        ∃ tile, w.tiles[t]? = some (some tile) ∧ tile.wip = true ∧ tile.current_lod = 0
          ∧ tile.texture[0]? = some id0)
    ∧ (∀ (w : World) (st : ProdStage), Production b t st w →
        ∃ tile, w.tiles[t]? = some (some tile) ∧ tile.released = false
          ∧ -1 ≤ tile.current_lod ∧ tile.current_lod ≤ 1 ∧ tile.texture.length = 2) := by
  refine ⟨?_, ?_, ?_, ?_, ?_, ?_, ?_, ?_, ?_⟩
  · intro tm tm1 pos color w w1 hadd
    cases hq : w.globalQueue with
    | none => simp [TileManager.add_tile, build_tile, hq] at hadd
    | some q =>
      rw [add_tile_eq tm pos color w q hq] at hadd
      cases hadd
      simp only [Production, tile_state]
      refine ⟨by simp, { color := color, pos := pos, wip := true }, by simp, rfl, rfl, rfl,
        rfl, by simp⟩
  · intro w mq hp hm
    obtain ⟨w1, h1, h2, h3, _⟩ := production_start b t err w mq hp hm
    exact ⟨w1, h1, h2, h3⟩
  · intro w u gq hp hq
    obtain ⟨w1, h1, h2, h3, _⟩ := production_coarse_upload b t u err w gq hp hq
    exact ⟨w1, h1, h2, h3⟩
  · intro w u id0 mq hp hm
    obtain ⟨w1, h1, h2, h3, _⟩ := production_resume_coarse b t u id0 err w mq hp hm
    exact ⟨w1, h1, h2, h3⟩
  · intro w u id0 gq hp hq
    obtain ⟨w1, h1, h2, h3, _⟩ := production_full_upload b t u id0 err w gq hp hq
    exact ⟨w1, h1, h2, h3⟩
  · intro w u id0 id1 hp
    obtain ⟨w1, h1, h2, _, _, h5, _⟩ := production_finish b t u id0 id1 err w hp
    exact ⟨w1, h1, h2, h5⟩
  · intro w id0 id1 hp
    obtain ⟨hb, tile, ht, _, hwip, hlod, hlen, hids⟩ := hp
    refine ⟨tile, ht, hwip, hlod, ?_, hb⟩
    obtain ⟨x, y, hxy⟩ : ∃ x y, tile.texture = [x, y] := by
      match htx : tile.texture, hlen with
      | [x, y], _ => exact ⟨x, y, rfl⟩
    rw [hxy] at hids ⊢
    simpa using hids
  · intro w u id0 hp
    have key : tile_state w t true 0 [id0] := by
      rcases hp with hp | hp
      · exact hp.2.2
      · exact hp.2.2
    obtain ⟨tile, ht, _, hwip, hlod, hlen, hids⟩ := key
    refine ⟨tile, ht, hwip, hlod, ?_⟩
    obtain ⟨x, y, hxy⟩ : ∃ x y, tile.texture = [x, y] := by
      match htx : tile.texture, hlen with
      | [x, y], _ => exact ⟨x, y, rfl⟩
    rw [hxy] at hids ⊢
    simp at hids
    simp [hids]
  · intro w st hp
    have key : ∃ wip lod ids, tile_state w t wip lod ids ∧ -1 ≤ lod ∧ lod ≤ 1 := by
      cases st with
      | created => exact ⟨_, _, _, hp.2, by omega, by omega⟩
      | coarse_pending u => exact ⟨_, _, _, hp.2.2, by omega, by omega⟩
      | coarse_done u id0 => exact ⟨_, _, _, hp.2.2, by omega, by omega⟩
      | full_pending u id0 => exact ⟨_, _, _, hp.2.2, by omega, by omega⟩
      | full_done u id0 id1 => exact ⟨_, _, _, hp.2.2, by omega, by omega⟩
      | finished id0 id1 => exact ⟨_, _, _, hp.2, by omega, by omega⟩
    obtain ⟨wip, lod, ids, ⟨tile, ht, hrel, _, hlod, hlen, _⟩, h1, h2⟩ := key
    exact ⟨tile, ht, hrel, by omega, by omega, hlen⟩

/-! ## Properties of the main-thread hop -/

theorem FramesEvolve.not_upload_mono (fs fs1 : List (Option Frame)) (a : Nat)
    (hev : FramesEvolve fs fs1) (ha : not_upload fs a) : not_upload fs1 a := by
  refine ⟨lt_of_lt_of_le ha.1 hev.1, ?_⟩
  intro f1 hf1
  obtain ⟨f, hf, hk, _⟩ := hev.2 a f1 ha.1 hf1
  rw [← hk]
  exact ha.2 f hf

theorem PipelineInv.evolve (fs fs1 : List (Option Frame)) (gq gq1 : Option CoroutineQueue)
    (hinv : PipelineInv fs gq) (hev : FramesEvolve fs fs1)
    (hnew : ∀ x f b, fs.length ≤ x → fs1[x]? = some (some f) → f.awaiter.coro = some b →
      not_upload fs1 b)
    (hqueue : ∀ q1 a, gq1 = some q1 → some a ∈ q1.queue →
      (∃ q, gq = some q ∧ some a ∈ q.queue) ∨ not_upload fs1 a) :
    PipelineInv fs1 gq1 := by
  refine ⟨?_, ?_⟩
  · intro q1 a hq1 ha
    rcases hqueue q1 a hq1 ha with ⟨q, hq, hmem⟩ | h
    · exact FramesEvolve.not_upload_mono fs fs1 a hev (hinv.1 q a hq hmem)
    · exact h
  · intro x f1 b hf1 hb
    by_cases hx : x < fs.length
    · obtain ⟨f, hf, _, haw⟩ := hev.2 x f1 hx hf1
      exact FramesEvolve.not_upload_mono fs fs1 b hev (hinv.2 x f b hf (by rw [haw]; exact hb))
    · exact hnew x f1 b (by omega) hf1 hb

theorem FramesEvolve.refl (fs : List (Option Frame)) : FramesEvolve fs fs :=
  ⟨le_refl _, fun _ f1 _ h => ⟨f1, h, rfl, rfl⟩⟩

theorem FramesEvolve.set_none (fs : List (Option Frame)) (x : Nat) :
    FramesEvolve fs (fs.set x none) := by
  refine ⟨by simp, ?_⟩
  intro i f1 hi h
  by_cases hx : x = i
  · subst hx
    rw [List.getElem?_set_self hi] at h
    cases h
  · rw [List.getElem?_set_ne hx] at h
    exact ⟨f1, h, rfl, rfl⟩

theorem FramesEvolve.set_same (fs : List (Option Frame)) (x : Nat) (f f1 : Frame)
    (hf : fs[x]? = some (some f)) (hk : f.isUpload = f1.isUpload)
    (haw : f.awaiter = f1.awaiter) : FramesEvolve fs (fs.set x (some f1)) := by
  refine ⟨by simp, ?_⟩
  intro i f2 hi h
  by_cases hx : x = i
  · subst hx
    rw [List.getElem?_set_self hi] at h
    cases h
    exact ⟨f, hf, hk, haw⟩
  · rw [List.getElem?_set_ne hx] at h
    exact ⟨f2, h, rfl, rfl⟩

theorem FramesEvolve.append (fs : List (Option Frame)) (o : Option Frame) :
    FramesEvolve fs (fs ++ [o]) := by
  refine ⟨by simp, ?_⟩
  intro i f1 hi h
  rw [List.getElem?_append_left hi] at h
  exact ⟨f1, h, rfl, rfl⟩

theorem FramesEvolve.trans (fs fs1 fs2 : List (Option Frame)) (h1 : FramesEvolve fs fs1)
    (h2 : FramesEvolve fs1 fs2) : FramesEvolve fs fs2 := by
  refine ⟨le_trans h1.1 h2.1, ?_⟩
  intro i f2 hi h
  obtain ⟨f1, hf1, hk1, ha1⟩ := h2.2 i f2 (lt_of_lt_of_le hi h1.1) h
  obtain ⟨f, hf, hk, ha⟩ := h1.2 i f1 hi hf1
  exact ⟨f, hf, hk.trans hk1, ha.trans ha1⟩

/-- A step that changes old frame slots as `FramesEvolve` allows, adds no
frame and leaves the worker queue alone keeps the invariant. -/
theorem PipelineInv.frames_only (fs fs1 : List (Option Frame)) (gq : Option CoroutineQueue)
    (hinv : PipelineInv fs gq) (hev : FramesEvolve fs fs1) (hlen : fs1.length = fs.length) :
    PipelineInv fs1 gq := by
  apply PipelineInv.evolve fs fs1 gq gq hinv hev
  · intro x f b hx hf _
    have := getElem?_lt _ _ _ hf
    omega
  · intro q1 a hq1 ha
    exact Or.inl ⟨q1, hq1, ha⟩

theorem PipelineInv.push (fs : List (Option Frame)) (q : CoroutineQueue) (c : CoroutineHandle)
    (hinv : PipelineInv fs (some q)) (hc : ∀ a, c = some a → not_upload fs a) :
    PipelineInv fs (some (q.push c)) := by
  apply PipelineInv.evolve fs fs (some q) _ hinv (FramesEvolve.refl fs)
  · intro x f b hx hf _
    have := getElem?_lt _ _ _ hf
    omega
  · intro q1 a hq1 ha
    cases hq1
    simp only [AsyncQueue.push, Vector.append, List.mem_append, List.mem_singleton] at ha
    rcases ha with ha | ha
    · exact Or.inl ⟨q, rfl, ha⟩
    · exact Or.inr (hc a ha.symm)

theorem PipelineInv.queue_subset (fs : List (Option Frame)) (q q1 : CoroutineQueue)
    (hinv : PipelineInv fs (some q)) (hsub : ∀ c, c ∈ q1.queue → c ∈ q.queue) :
    PipelineInv fs (some q1) :=
  ⟨fun q2 a hq2 ha => (by cases hq2; exact hinv.1 q a rfl (hsub _ ha)), hinv.2⟩

theorem PipelineInv.queue_none (fs : List (Option Frame)) (gq : Option CoroutineQueue)
    (hinv : PipelineInv fs gq) : PipelineInv fs none :=
  ⟨fun q2 a hq2 _ => (by cases hq2), hinv.2⟩

theorem destroy_frames_evolve (h : Nat) (w w1 : World)
    (hd : CoroutineHandle.destroy (some h) w = some w1) :
    FramesEvolve w.frames w1.frames ∧ w1.frames.length = w.frames.length
      ∧ w1.globalQueue = w.globalQueue := by
  unfold CoroutineHandle.destroy at hd
  simp only at hd
  split at hd
  · cases hd
    exact ⟨FramesEvolve.refl _, rfl, rfl⟩
  · cases hd
  · cases hd
    exact ⟨FramesEvolve.set_none _ _, by simp, rfl⟩
  · split at hd
    · cases hd
      exact ⟨FramesEvolve.set_none _ _, by simp, rfl⟩
    · cases hd
      exact ⟨FramesEvolve.set_none _ _, by simp, rfl⟩
    · split at hd
      · cases hd
        exact ⟨FramesEvolve.trans _ _ _ (FramesEvolve.set_none _ _) (FramesEvolve.set_none _ _),
          by simp, rfl⟩
      · cases hd

theorem push_or_destroy_inv (a : Awaiter) (w w1 : World)
    (hinv : PipelineInv w.frames w.globalQueue)
    (ha : ∀ b, a.coro = some b → not_upload w.frames b)
    (hp : a.push_or_destroy w = some w1) : PipelineInv w1.frames w1.globalQueue := by
  unfold Awaiter.push_or_destroy at hp
  split at hp
  · rename_i q hq
    cases hp
    rw [hq] at hinv
    exact PipelineInv.push _ q a.coro hinv ha
  · cases hc : a.coro with
    | none => rw [hc] at hp; simp [CoroutineHandle.destroy] at hp
    | some h =>
      rw [hc] at hp
      obtain ⟨hev, hlen, hq⟩ := destroy_frames_evolve h w w1 hp
      rw [hq]
      exact PipelineInv.frames_only _ _ _ hinv hev hlen

theorem notify_inv (a : Awaiter) (w w1 : World)
    (hinv : PipelineInv w.frames w.globalQueue)
    (ha : ∀ b, a.coro = some b → not_upload w.frames b)
    (hn : a.notify w = some w1) : PipelineInv w1.frames w1.globalQueue := by
  unfold Awaiter.notify at hn
  split at hn
  · cases hn; exact hinv
  · split at hn
    · split at hn
      · cases hn
      · simp only at hn
        split at hn
        · exact push_or_destroy_inv a _ w1 (by exact hinv) (by exact ha) hn
        · cases hn; exact hinv
    · exact push_or_destroy_inv a w w1 hinv ha hn

theorem upload_co_return_inv (h t : Nat) (finalize done : Bool) (promise : promise_type Bool)
    (value : Bool) (w w1 : World) (hinv : PipelineInv w.frames w.globalQueue)
    (hf : w.frames[h]? = some (some (Frame.upload_texture t finalize promise done)))
    (hc : upload_texture.co_return h t finalize promise value w = some w1) :
    PipelineInv w1.frames w1.globalQueue := by
  unfold upload_texture.co_return at hc
  have hev : FramesEvolve w.frames (w.frames.set h
      (some (Frame.upload_texture t finalize (promise.return_value value) true))) :=
    FramesEvolve.set_same _ _ _ _ hf rfl rfl
  have hinv1 : PipelineInv (w.frames.set h
      (some (Frame.upload_texture t finalize (promise.return_value value) true)))
      w.globalQueue := PipelineInv.frames_only _ _ _ hinv hev (by simp)
  apply notify_inv _ _ w1 hinv1 _ hc
  intro b hb
  exact hinv1.2 h _ b (List.getElem?_set_self (getElem?_lt _ _ _ hf)) hb

theorem del_obj_frames (t : Nat) (w w1 : World) (hd : del_obj t w = some w1) :
    w1.frames = w.frames ∧ w1.globalQueue = w.globalQueue := by
  have h := del_obj_queues t w w1 hd
  exact ⟨h.2.2.1, h.1⟩

theorem release_tile_frames (t : Nat) (w w1 : World) (hr : release_tile t w = some w1) :
    w1.frames = w.frames ∧ w1.globalQueue = w.globalQueue
      ∧ w1.mainThreadQueue = w.mainThreadQueue := by
  unfold release_tile at hr
  split at hr
  · split at hr
    · cases hr; exact ⟨rfl, rfl, rfl⟩
    · have h := del_obj_queues t w w1 hr
      exact ⟨h.2.2.1, h.1, h.2.1⟩
  · cases hr

theorem upload_body_inv (h t : Nat) (finalize : Bool) (promise : promise_type Bool)
    (err : Bool) (w w1 : World) (hinv : PipelineInv w.frames w.globalQueue)
    (hf : w.frames[h]? = some (some (Frame.upload_texture t finalize promise false)))
    (hb : upload_texture.body h t finalize promise err w = some w1) :
    PipelineInv w1.frames w1.globalQueue := by
  have hco : ∀ (value : Bool) (w0 : World), w0.frames = w.frames →
      w0.globalQueue = w.globalQueue →
      upload_texture.co_return h t finalize promise value w0 = some w1 →
      PipelineInv w1.frames w1.globalQueue := by
    intro value w0 hfr hq hc
    exact upload_co_return_inv h t finalize false promise value w0 w1
      (by rw [hfr, hq]; exact hinv) (by rw [hfr]; exact hf) hc
  unfold upload_texture.body at hb
  simp only [glGenTextures] at hb
  split at hb
  · split at hb
    · split at hb <;> split at hb
      · split at hb
        · cases hb
        · rename_i w3 hdel
          have h3 := del_obj_frames t _ w3 hdel
          exact hco _ w3 h3.1 h3.2 hb
      · exact hco _ _ (by rfl) (by rfl) hb
      · split at hb
        · cases hb
        · rename_i w3 hdel
          have h3 := del_obj_frames t _ w3 hdel
          exact hco _ w3 h3.1 h3.2 hb
      · exact hco _ _ (by rfl) (by rfl) hb
    · cases hb
  · cases hb

theorem await_upload_inv (h t : Nat) (finalize : Bool) (pc : BuildPc) (task : CoroutineHandle)
    (aw : Awaiter) (w w1 : World) (hinv : PipelineInv w.frames w.globalQueue)
    (hf : w.frames[h]? = some (some (Frame.build_tile t pc task aw)))
    (hb : build_tile.await_upload h t finalize aw w = some w1) :
    PipelineInv w1.frames w1.globalQueue := by
  have hlt := getElem?_lt _ _ _ hf
  cases hm : w.mainThreadQueue with
  | none =>
    simp [build_tile.await_upload, upload_texture, co_main, MainThreadAwaiter.await_suspend, hm]
      at hb
  | some mq =>
    rw [build_tile_await_upload_eq h t finalize aw w mq hm hlt] at hb
    cases hb
    apply PipelineInv.evolve w.frames _ w.globalQueue _ hinv
    · exact FramesEvolve.trans _ _ _
        (FramesEvolve.set_same _ h _
          (Frame.build_tile t (if finalize then BuildPc.lod1 else BuildPc.lod0)
            (some w.frames.length) aw) hf rfl rfl)
        (FramesEvolve.append _ _)
    · intro x f b hx hfx hb
      have hx2 : x = w.frames.length := by
        have := getElem?_lt _ _ _ hfx
        simp at this
        omega
      subst hx2
      rw [set_append_new] at hfx
      cases hfx
      simp only [Frame.awaiter, Option.some.injEq] at hb
      subst hb
      refine ⟨by simp; omega, ?_⟩
      intro f2 hf2
      rw [set_append_self _ _ _ _ hlt] at hf2
      cases hf2
      rfl
    · intro q1 a hq1 ha
      exact Or.inl ⟨q1, hq1, ha⟩

theorem build_co_return_inv (h t : Nat) (pc : BuildPc) (task : CoroutineHandle)
    (aw : Awaiter) (w w1 : World) (hinv : PipelineInv w.frames w.globalQueue)
    (hf : w.frames[h]? = some (some (Frame.build_tile t pc task aw)))
    (hb : build_tile.co_return h aw w = some w1) :
    PipelineInv w1.frames w1.globalQueue := by
  unfold build_tile.co_return at hb
  split at hb
  · cases hb
  · rename_i w2 hn
    cases hb
    have h2 := notify_inv aw w w2 hinv (fun b hb => hinv.2 h _ b hf hb) hn
    exact PipelineInv.frames_only _ _ _ h2 (FramesEvolve.set_none _ _) (by simp)

theorem destroy_upload_eq (u t : Nat) (finalize done : Bool) (promise : promise_type Bool)
    (w : World)
    (hu : w.frames[u]? = some (some (Frame.upload_texture t finalize promise done))) :
    CoroutineHandle.destroy (some u) w
      = some { w with destroyed := w.destroyed ++ [u], frames := w.frames.set u none } := by
  simp [CoroutineHandle.destroy, hu]

theorem build_body_inv (h t : Nat) (pc : BuildPc) (task : CoroutineHandle) (aw : Awaiter)
    (w w1 : World) (hinv : PipelineInv w.frames w.globalQueue)
    (hf : w.frames[h]? = some (some (Frame.build_tile t pc task aw)))
    (hb : build_tile.body h t pc task aw w = some w1) :
    PipelineInv w1.frames w1.globalQueue := by
  have hafter : ∀ (u t2 : Nat) (fin2 done2 : Bool) (p2 : promise_type Bool),
      w.frames[u]? = some (some (Frame.upload_texture t2 fin2 p2 done2)) →
      PipelineInv (w.frames.set u none) w.globalQueue
        ∧ (w.frames.set u none)[h]? = some (some (Frame.build_tile t pc task aw)) := by
    intro u t2 fin2 done2 p2 hu
    have hne : ¬ u = h := by
      intro e; subst e; rw [hf] at hu; cases hu
    exact ⟨PipelineInv.frames_only _ _ _ hinv (FramesEvolve.set_none _ _) (by simp),
      by rw [List.getElem?_set_ne hne]; exact hf⟩
  unfold build_tile.body at hb
  split at hb
  · split at hb
    · exact await_upload_inv h t false _ task aw w w1 hinv hf hb
    · cases hb
  · split at hb
    · cases hb
    · rename_i u
      split at hb
      · rename_i t2 fin2 p2 done2 hu
        rw [destroy_upload_eq u t2 fin2 done2 p2 w hu] at hb
        obtain ⟨hi2, hf2⟩ := hafter u t2 fin2 done2 p2 hu
        simp only at hb
        split at hb
        · exact build_co_return_inv h t _ _ aw _ w1 (by exact hi2) (by exact hf2) hb
        · exact await_upload_inv h t true _ _ aw _ w1 (by exact hi2) (by exact hf2) hb
      · cases hb
  · split at hb
    · cases hb
    · rename_i u
      split at hb
      · rename_i t2 fin2 p2 done2 hu
        rw [destroy_upload_eq u t2 fin2 done2 p2 w hu] at hb
        obtain ⟨hi2, hf2⟩ := hafter u t2 fin2 done2 p2 hu
        simp only at hb
        exact build_co_return_inv h t _ _ aw _ w1 (by exact hi2) (by exact hf2) hb
      · cases hb

/-- Resuming any coroutine keeps the invariant. -/
theorem resume_inv (c : CoroutineHandle) (err : Bool) (w w1 : World)
    (hinv : PipelineInv w.frames w.globalQueue)
    (hr : CoroutineHandle.resume c err w = some w1) :
    PipelineInv w1.frames w1.globalQueue := by
  unfold CoroutineHandle.resume at hr
  split at hr
  · cases hr
  · split at hr
    · rename_i hf
      exact upload_body_inv _ _ _ _ err w w1 hinv hf hr
    · rename_i hf
      exact build_body_inv _ _ _ _ _ w w1 hinv hf hr
    · cases hr

theorem resume_all_inv (err : Bool) (buf : List CoroutineHandle) :
    ∀ (w w1 : World), PipelineInv w.frames w.globalQueue → resume_all err buf w = some w1 →
      PipelineInv w1.frames w1.globalQueue := by
  induction buf with
  | nil => intro w w1 hinv hr; simp only [resume_all] at hr; cases hr; exact hinv
  | cons c buf ih =>
    intro w w1 hinv hr
    simp only [resume_all] at hr
    split at hr
    · cases hr
    · rename_i w2 hc
      exact ih w2 w1 (resume_inv c err w w2 hinv hc) hr

theorem add_tile_inv (tm tm1 : TileManager) (pos : Vec2i) (color : Nat) (w w1 : World)
    (hinv : PipelineInv w.frames w.globalQueue)
    (ha : TileManager.add_tile tm pos color w = some (tm1, w1)) :
    PipelineInv w1.frames w1.globalQueue := by
  cases hq : w.globalQueue with
  | none => simp [TileManager.add_tile, build_tile, hq] at ha
  | some q =>
    rw [add_tile_eq tm pos color w q hq] at ha
    cases ha
    apply PipelineInv.evolve w.frames _ w.globalQueue _ hinv (FramesEvolve.append _ _)
    · intro x f b hx hfx hb
      have hx2 : x = w.frames.length := by
        have := getElem?_lt _ _ _ hfx
        simp at this
        omega
      subst hx2
      simp only [List.getElem?_concat_length, Option.some.injEq] at hfx
      subst hfx
      simp [Frame.awaiter] at hb
    · intro q1 a hq1 hmem
      cases hq1
      simp only [List.mem_append, List.mem_singleton, Option.some.injEq] at hmem
      rcases hmem with hmem | hmem
      · exact Or.inl ⟨q, hq, hmem⟩
      · subst hmem
        refine Or.inr ⟨by simp, ?_⟩
        intro f hf
        simp only [List.getElem?_concat_length, Option.some.injEq] at hf
        subst hf
        rfl

theorem update_scan_frames (tile_size base vis : Vec2i) (fuel : Nat) :
    ∀ (i : Nat) (tiles : List Nat) (bits : List Bool) (w : World)
      (tiles1 : List Nat) (bits1 : List Bool) (w1 : World),
      TileManager.update.scan tile_size base vis fuel i tiles bits w
        = some (tiles1, bits1, w1) →
      w1.frames = w.frames ∧ w1.globalQueue = w.globalQueue
        ∧ w1.mainThreadQueue = w.mainThreadQueue := by
  induction fuel with
  | zero =>
    intro i tiles bits w tiles1 bits1 w1 h
    simp only [TileManager.update.scan] at h
    cases h
    exact ⟨rfl, rfl, rfl⟩
  | succ fuel ih =>
    intro i tiles bits w tiles1 bits1 w1 h
    simp only [TileManager.update.scan] at h
    split at h
    · cases h; exact ⟨rfl, rfl, rfl⟩
    · split at h
      · split at h
        · split at h
          · cases h
          · rename_i w2 hrel
            have h2 := release_tile_frames _ w w2 hrel
            have h3 := ih _ _ _ _ _ _ _ h
            exact ⟨h3.1.trans h2.1, h3.2.1.trans h2.2.1, h3.2.2.trans h2.2.2⟩
        · exact ih _ _ _ _ _ _ _ h
      · cases h

theorem update_visit_inv (base vis : Vec2i) (bits : List Bool) (color : Vec2i → Nat)
    (xys : List (Nat × Nat)) :
    ∀ (st st1 : TileManager × World), PipelineInv st.2.frames st.2.globalQueue →
      xys.foldlM (TileManager.update.visit base vis bits color) st = some st1 →
      PipelineInv st1.2.frames st1.2.globalQueue := by
  induction xys with
  | nil =>
    intro st st1 hinv h
    simp only [List.foldlM_nil, pure, Option.some.injEq] at h
    subst h
    exact hinv
  | cons xy xys ih =>
    intro st st1 hinv h
    simp only [List.foldlM_cons, bind, Option.bind] at h
    split at h
    · cases h
    · rename_i st2 hv
      apply ih st2 st1 _ h
      unfold TileManager.update.visit at hv
      simp only at hv
      split at hv
      · cases hv; exact hinv
      · exact add_tile_inv _ _ _ _ _ _ hinv hv

theorem update_inv (tm tm1 : TileManager) (s : Rect) (color : Vec2i → Nat) (w w1 : World)
    (hinv : PipelineInv w.frames w.globalQueue)
    (hu : TileManager.update tm s color w = some (tm1, w1)) :
    PipelineInv w1.frames w1.globalQueue := by
  unfold TileManager.update at hu
  simp only at hu
  split at hu
  · cases hu
  · rename_i tiles bits w2 hscan
    have h2 := update_scan_frames _ _ _ _ _ _ _ _ _ _ _ hscan
    exact update_visit_inv _ _ _ _ _ _ (tm1, w1) (by simp only [h2.1, h2.2.1]; exact hinv) hu

theorem worker_turn_inv (err : Bool) (status : WorkerStatus) (w w1 : World)
    (hinv : PipelineInv w.frames w.globalQueue)
    (ht : worker_thread.turn err w = some (status, w1)) :
    PipelineInv w1.frames w1.globalQueue := by
  unfold worker_thread.turn at ht
  split at ht
  · cases ht
  · rename_i q hq
    rw [hq] at hinv
    split at ht
    · cases ht; rw [hq]; exact hinv
    · rename_i next q1 hpop
      have hsub : ∀ c, c ∈ q1.queue → c ∈ q.queue := by
        intro c hc
        unfold AsyncQueue.pop at hpop
        split at hpop
        · cases hpop
        · rename_i x rest hqq
          cases hpop
          rw [hqq]
          simp only [Vector.remove, hqq, List.eraseIdx_cons_zero] at hc
          exact List.mem_cons_of_mem _ hc
      have hinv1 : PipelineInv w.frames (some q1) := PipelineInv.queue_subset _ q q1 hinv hsub
      simp only at ht
      split at ht
      · cases ht; exact hinv1
      · split at ht
        · cases ht
        · cases ht; exact hinv1
        · split at ht
          · cases ht
          · rename_i w2 hres
            cases ht
            exact resume_inv _ err _ w1 (by exact hinv1) hres

theorem drain_inv (err : Bool) (w w1 : World) (hinv : PipelineInv w.frames w.globalQueue)
    (hd : main_loop.drain err w = some w1) : PipelineInv w1.frames w1.globalQueue := by
  unfold main_loop.drain at hd
  split at hd
  · cases hd
  · split at hd
    · exact resume_all_inv err _ _ w1 (by exact hinv) hd
    · cases hd; exact hinv

theorem wait_for_workers_inv (err : Bool) (w w1 : World)
    (hinv : PipelineInv w.frames w.globalQueue)
    (hw : wait_for_workers err w = some w1) : PipelineInv w1.frames w1.globalQueue := by
  unfold wait_for_workers at hw
  simp only at hw
  split at hw
  · cases hw
  · split at hw
    · cases hw
    · rename_i w2 hr
      cases hw
      exact resume_all_inv err _ _ w2 (by exact PipelineInv.queue_none _ _ hinv) hr

theorem terminate_workers_inv (w w1 : World) (hinv : PipelineInv w.frames w.globalQueue)
    (ht : terminate_workers w = some w1) : PipelineInv w1.frames w1.globalQueue := by
  unfold terminate_workers at ht
  split at ht
  · split at ht
    · cases ht; exact hinv
    · cases ht
  · rename_i q hq
    cases ht
    rw [hq] at hinv
    simp only [terminate_workers_pushes]
    refine ⟨?_, hinv.2⟩
    intro q1 a hq1 ha
    cases hq1
    simp only [List.mem_append, List.mem_replicate] at ha
    rcases ha with ha | ⟨_, ha⟩
    · exact hinv.1 q a rfl ha
    · cases ha

/-- The invariant holds in every reachable state. -/
theorem reachable_inv (w : World) (hr : Reachable w) :
    PipelineInv w.frames w.globalQueue := by
  induction hr with
  | init cpus =>
    refine ⟨?_, ?_⟩
    · intro q a hq ha
      simp only [init_workers, AsyncQueue.new, Option.some.injEq] at hq
      subst hq
      simp at ha
    · intro x f b hf _
      simp [init_workers, World.start] at hf
  | step w w1 _ hstep ih =>
    cases hstep with
    | update tm tm1 s color _ h => exact update_inv tm tm1 s color w w1 ih h
    | release t _ h =>
      have h2 := release_tile_frames t w w1 h
      rw [h2.1, h2.2.1]
      exact ih
    | worker err status _ h => exact worker_turn_inv err status w w1 ih h
    | drain err _ h => exact drain_inv err w w1 ih h
    | terminate _ h => exact terminate_workers_inv w w1 ih h
    | wait err _ h => exact wait_for_workers_inv err w w1 ih h

/-- C15: in every state the pipeline reaches from init_workers by update,
release_tile, worker turns, main-queue drains and the shutdown calls, no
handle on the global worker queue addresses an upload_texture coroutine; so a
turn of worker_thread resumes no checkpoint: it generates and deletes no
texture and writes or frees no tile. -/
theorem checkpoints_stay_on_main_thread (w : World) (hr : Reachable w) :
    (∀ (q : CoroutineQueue) (a : Nat), w.globalQueue = some q → some a ∈ q.queue →
      ∀ t finalize promise done,
        w.frames[a]? ≠ some (some (Frame.upload_texture t finalize promise done)))
    ∧ (∀ (err : Bool) (status : WorkerStatus) (w1 : World),
        worker_thread.turn err w = some (status, w1) → w1.tiles = w.tiles ∧ w1.gl = w.gl) := by
  have hinv := reachable_inv w hr
  have h1 : ∀ (q : CoroutineQueue) (a : Nat), w.globalQueue = some q → some a ∈ q.queue →
      ∀ t finalize promise done,
        w.frames[a]? ≠ some (some (Frame.upload_texture t finalize promise done)) := by
    intro q a hq ha t finalize promise done hf
    have := (hinv.1 q a hq ha).2 _ hf
    simp [Frame.isUpload] at this
  refine ⟨h1, ?_⟩
  intro err status w1 ht
  unfold worker_thread.turn at ht
  split at ht
  · cases ht
  · rename_i q hq
    split at ht
    · cases ht; exact ⟨rfl, rfl⟩
    · rename_i next q1 hpop
      have hhead : next ∈ q.queue := by
        unfold AsyncQueue.pop at hpop
        split at hpop
        · cases hpop
        · rename_i x rest hqq
          cases hpop
          rw [hqq]
          exact List.mem_cons_self _ _
      simp only at ht
      split at ht
      · cases ht; exact ⟨rfl, rfl⟩
      · rename_i a
        split at ht
        · cases ht
        · cases ht; exact ⟨rfl, rfl⟩
        · split at ht
          · cases ht
          · rename_i w2 hres
            cases ht
            unfold CoroutineHandle.resume at hres
            simp only at hres
            split at hres
            · rename_i t finalize promise hf
              exact absurd hf (h1 q a hq hhead t finalize promise false)
            · have h2 := build_tile_body_tiles _ _ _ _ _ _ w1 hres
              exact h2
            · cases hres

/-- Witness for C15: the state after update has created four tiles and a
worker has run the first build_tile up to its checkpoint. -/
theorem checkpoints_stay_on_main_thread_witness :
    (∀ (q : CoroutineQueue) (a : Nat),
      (exampleUpdatedTurn.getD (WorkerStatus.waiting, World.start)).2.globalQueue = some q →
      some a ∈ q.queue →
      ∀ t finalize promise done,
        (exampleUpdatedTurn.getD (WorkerStatus.waiting, World.start)).2.frames[a]?
          ≠ some (some (Frame.upload_texture t finalize promise done)))
    ∧ (∀ (err : Bool) (status : WorkerStatus) (w1 : World),
        worker_thread.turn err (exampleUpdatedTurn.getD (WorkerStatus.waiting, World.start)).2
          = some (status, w1) →
        w1.tiles = (exampleUpdatedTurn.getD (WorkerStatus.waiting, World.start)).2.tiles
          ∧ w1.gl = (exampleUpdatedTurn.getD (WorkerStatus.waiting, World.start)).2.gl) :=
  checkpoints_stay_on_main_thread _
    (Reachable.step _ _
      (Reachable.step _ _ (Reachable.init 2)
        (PipelineStep.update { tile_size := (128, 128) }
          (exampleUpdated.getD ({ tile_size := (128, 128) }, World.start)).1
          (Rect_WH (0, 0) (100, 100)) (fun _ => 5)
          (exampleUpdated.getD ({ tile_size := (128, 128) }, World.start)).2 rfl))
      (PipelineStep.worker false
        (exampleUpdatedTurn.getD (WorkerStatus.waiting, World.start)).1
        (exampleUpdatedTurn.getD (WorkerStatus.waiting, World.start)).2 rfl))

/-- Witness for C14: a worker with a queue that holds the build_tile task of
the example tile and two stop items. -/
theorem worker_loop_fifo_witness :
    ∃ pushed,
      (([0] : List Nat).foldlM (worker_thread.process false)
          (exampleTerminating.getD World.start)).map (fun w => w.globalQueue)
        = some (some ⟨none :: [none] ++ pushed⟩)
      ∧ worker_thread false 2 (exampleTerminating.getD World.start)
        = some (WorkerStatus.returned,
            { (([0] : List Nat).foldlM (worker_thread.process false)
                (exampleTerminating.getD World.start)).getD World.start with
              globalQueue := some ⟨[none] ++ pushed⟩ }) :=
  match (worker_loop_fifo false [0] [none] (exampleTerminating.getD World.start) 2 rfl
      (by decide)).1
      ((([0] : List Nat).foldlM (worker_thread.process false)
        (exampleTerminating.getD World.start)).getD World.start) rfl with
  | ⟨pushed, h1, h2⟩ => ⟨pushed, by rw [← h1]; rfl, h2⟩

/-- Witness for C13: the production of the example tile, from the state that
update leaves to the end of build_tile. -/
theorem unreleased_production_reaches_full_detail_witness :
    Production 0 0 ProdStage.created (exampleSpawned.getD World.start)
    ∧ (∃ w1, CoroutineHandle.resume (some 0) false (exampleSpawned.getD World.start) = some w1
        ∧ Production 0 0
            (ProdStage.coarse_pending (exampleSpawned.getD World.start).frames.length) w1
        ∧ w1.mainThreadQueue
            = some ⟨(AsyncQueue.new : CoroutineQueue).queue ++
                [some (exampleSpawned.getD World.start).frames.length]⟩)
    ∧ (∃ tile, (exampleBuilt.getD World.start).tiles[0]? = some (some tile)
        ∧ tile.wip = false ∧ tile.current_lod = 1 ∧ tile.texture = [1, 2]
        ∧ (exampleBuilt.getD World.start).frames[0]? = some none) :=
  ⟨(unreleased_production_reaches_full_detail 0 0 false).1 { tile_size := (128, 128) }
      { tile_size := (128, 128), tiles := [0] } (0, 0) 5 exampleWorld
      (exampleSpawned.getD World.start) rfl,
   (unreleased_production_reaches_full_detail 0 0 false).2.1 (exampleSpawned.getD World.start)
      AsyncQueue.new
      ((unreleased_production_reaches_full_detail 0 0 false).1 { tile_size := (128, 128) }
        { tile_size := (128, 128), tiles := [0] } (0, 0) 5 exampleWorld
        (exampleSpawned.getD World.start) rfl)
      rfl,
   (unreleased_production_reaches_full_detail 0 0 false).2.2.2.2.2.2.1
      (exampleBuilt.getD World.start) 1 2
      ⟨rfl, _, rfl, rfl, rfl, rfl, rfl, rfl⟩⟩

/-! ## Properties of update -/

/-- The second loop of `update` over the positions `xys`: one `add_tile` for
each position whose bit is clear, in loop order. -/
theorem update_visit_fold (base vis : Vec2i) (bits : List Bool) (color : Vec2i → Nat)
    (xys : List (Nat × Nat)) :
    ∀ (tm : TileManager) (w : World) (q : CoroutineQueue), w.globalQueue = some q →
      xys.foldlM (TileManager.update.visit base vis bits color) (tm, w)
        = some
          ({ tm with
             tiles := tm.tiles ++ List.range' w.tiles.length
               (TileManager.update.unmarked vis bits xys).length },
           { w with
             tiles := w.tiles ++ (TileManager.update.unmarked vis bits xys).map
               (fun xy => some (TileManager.update.new_tile tm.tile_size base color xy)),
             frames := w.frames ++ (List.range' w.tiles.length
               (TileManager.update.unmarked vis bits xys).length).map
               (fun n => some (Frame.build_tile n BuildPc.initial none {})),
             globalQueue := some ⟨q.queue ++ (List.range' w.frames.length
               (TileManager.update.unmarked vis bits xys).length).map some⟩ }) := by
  induction xys with
  | nil =>
    intro tm w q hq
    cases w
    simp only [List.foldlM_nil, TileManager.update.unmarked, List.filter_nil, List.length_nil,
      List.range'_zero, List.append_nil, List.map_nil, pure] at *
    simp [hq]
  | cons xy xys ih =>
    intro tm w q hq
    simp only [List.foldlM_cons, bind, Option.bind]
    by_cases hbit : BitArray.test_bit bits ((xy.2 : Int) * vis.1 + (xy.1 : Int)) = true
    · have hv : TileManager.update.visit base vis bits color (tm, w) xy = some (tm, w) := by
        simp [TileManager.update.visit, hbit]
      have hun : TileManager.update.unmarked vis bits (xy :: xys)
          = TileManager.update.unmarked vis bits xys := by
        simp [TileManager.update.unmarked, List.filter_cons, hbit]
      rw [hv, hun]
      exact ih tm w q hq
    · have hbit2 : BitArray.test_bit bits ((xy.2 : Int) * vis.1 + (xy.1 : Int)) = false := by
        simpa using hbit
      have hv : TileManager.update.visit base vis bits color (tm, w) xy
          = some ({ tm with tiles := tm.tiles ++ [w.tiles.length] },
              { w with
                tiles := w.tiles ++
                  [some (TileManager.update.new_tile tm.tile_size base color xy)],
                frames := w.frames ++
                  [some (Frame.build_tile w.tiles.length BuildPc.initial none {})],
                globalQueue := some ⟨q.queue ++ [some w.frames.length]⟩ }) := by
        simp only [TileManager.update.visit, hbit2, Bool.false_eq_true, if_false]
        rw [add_tile_eq tm _ _ w q hq]
        rfl
      have hun : TileManager.update.unmarked vis bits (xy :: xys)
          = xy :: TileManager.update.unmarked vis bits xys := by
        simp [TileManager.update.unmarked, List.filter_cons, hbit2]
      rw [hv, hun]
      simp only
      rw [ih _ _ ⟨q.queue ++ [some w.frames.length]⟩ rfl]
      simp only [List.length_cons, List.length_append, List.length_singleton,
        List.range'_succ, List.map_cons, List.append_assoc, List.singleton_append,
        List.length_nil, Nat.zero_add]

/-- Removing the last element with `quick_remove` drops it. -/
theorem quick_remove_last (pre : List Nat) (t : Nat) :
    Vector.quick_remove (pre ++ [t]) pre.length = pre := by
  simp [Vector.quick_remove]

/-- Removing an inner element with `quick_remove` moves the last element into
its place. -/
theorem quick_remove_middle (pre rest : List Nat) (t x : Nat) :
    Vector.quick_remove (pre ++ t :: (rest ++ [x])) pre.length = pre ++ x :: rest := by
  have h1 : pre ++ t :: (rest ++ [x]) = (pre ++ t :: rest) ++ [x] := by simp
  have h2 : (pre ++ t :: (rest ++ [x])).getLast? = some x := by
    rw [h1, List.getLast?_concat]
  have h3 : (pre ++ t :: (rest ++ [x])).set pre.length x = (pre ++ x :: rest) ++ [x] := by
    rw [List.set_append_right _ _ (le_refl _)]
    simp
  simp only [Vector.quick_remove, h2, h3, List.dropLast_concat]

/-- A tile that is alive and well formed can be released. -/
theorem release_tile_defined (t : Nat) (tile : Tile) (w : World)
    (ht : w.tiles[t]? = some (some tile))
    (hlod : -1 ≤ tile.current_lod ∧ tile.current_lod ≤ 1) (htex : tile.texture.length = 2) :
    ∃ w1, release_tile t w = some w1 := by
  by_cases hwip : tile.wip = true
  · exact ⟨_, by simp [release_tile, ht, hwip]; rfl⟩
  · have hwip2 : tile.wip = false := by simpa using hwip
    exact ⟨_, release_tile_immediate t tile w ht hwip2 hlod htex⟩

/-- Releasing a tile leaves every other tile as it is and keeps the number of
tile slots. -/
theorem release_tile_others (t : Nat) (w w1 : World) (hr : release_tile t w = some w1) :
    w1.tiles.length = w.tiles.length ∧ ∀ t1, t1 ≠ t → w1.tiles[t1]? = w.tiles[t1]? := by
  unfold release_tile at hr
  split at hr
  · split at hr
    · cases hr
      refine ⟨by simp, ?_⟩
      intro t1 hne
      simp [List.getElem?_set_ne (Ne.symm hne)]
    · unfold del_obj at hr
      split at hr
      · split at hr
        · cases hr
        · cases hr
          refine ⟨by simp, ?_⟩
          intro t1 hne
          simp [List.getElem?_set_ne (Ne.symm hne)]
      · cases hr
  · cases hr

/-- Releasing a list of tiles leaves every tile outside the list as it is, and
keeps the frames, the worker queue and the number of tile slots. -/
theorem release_tiles_others (rel : List Nat) :
    ∀ (w w1 : World), release_tiles rel w = some w1 →
      w1.tiles.length = w.tiles.length ∧ w1.frames = w.frames
        ∧ w1.globalQueue = w.globalQueue
        ∧ ∀ t1, t1 ∉ rel → w1.tiles[t1]? = w.tiles[t1]? := by
  induction rel with
  | nil =>
    intro w w1 h
    simp only [release_tiles] at h
    cases h
    exact ⟨rfl, rfl, rfl, fun _ _ => rfl⟩
  | cons t rel ih =>
    intro w w1 h
    simp only [release_tiles] at h
    split at h
    · cases h
    · rename_i w2 hrel
      have h1 := release_tile_others t w w2 hrel
      have h2 := release_tile_frames t w w2 hrel
      have h3 := ih w2 w1 h
      refine ⟨h3.1.trans h1.1, h3.2.1.trans h2.1, h3.2.2.1.trans h2.2.1, ?_⟩
      intro t1 hn
      simp only [List.mem_cons, not_or] at hn
      rw [h3.2.2.2 t1 hn.2, h1.2 t1 hn.1]

/-- After `quick_remove` at the first position of the part of the list that
is still to be scanned, that part holds the same tiles without the removed
one. -/
theorem quick_remove_at (pre rest : List Nat) (t : Nat) :
    ∃ suf, Vector.quick_remove (pre ++ t :: rest) pre.length = pre ++ suf
      ∧ suf.Perm rest := by
  rcases List.eq_nil_or_concat rest with h | ⟨r, x, h⟩
  · subst h
    exact ⟨[], by simpa using quick_remove_last pre t, List.Perm.refl _⟩
  · have h1 : rest = r ++ [x] := by simpa using h
    subst h1
    refine ⟨x :: r, quick_remove_middle pre r t x, ?_⟩
    simpa using (List.perm_append_singleton x r).symm

/-- The first loop of `update`, entered with `suf` still to be scanned: the
list keeps the tiles whose grid index lies in `visrect`, marks them in the bit
array, and releases each of the others once. -/
theorem update_scan_spec (tile_size base vis : Vec2i) (w0 : World) (n : Nat) :
    ∀ (pre suf : List Nat) (bits : List Bool) (wc : World),
      suf.length = n → suf.Nodup →
      (∀ t ∈ suf, wc.tiles[t]? = w0.tiles[t]? ∧ ∃ tile, w0.tiles[t]? = some (some tile)
          ∧ (-1 ≤ tile.current_lod ∧ tile.current_lod ≤ 1) ∧ tile.texture.length = 2) →
      ∃ kept rel w1,
        TileManager.update.scan tile_size base vis n pre.length (pre ++ suf) bits wc
          = some (pre ++ kept,
              kept.foldl (TileManager.update.mark tile_size base vis w0) bits, w1)
        ∧ kept.Perm (suf.filter (TileManager.update.inside tile_size base vis w0))
        ∧ rel.Perm (suf.filter (fun t => !TileManager.update.inside tile_size base vis w0 t))
        ∧ release_tiles rel wc = some w1 := by
  induction n with
  | zero =>
    intro pre suf bits wc hlen _ _
    have hnil : suf = [] := List.length_eq_zero.mp hlen
    subst hnil
    exact ⟨[], [], wc, by simp [TileManager.update.scan], by simp, by simp,
      by simp [release_tiles]⟩
  | succ n ih =>
    intro pre suf bits wc hlen hnd hall
    match suf, hlen, hnd, hall with
    | t :: rest, hlen, hnd, hall =>
      have hlen1 : rest.length = n := by simpa using hlen
      obtain ⟨hwc, tile, ht0, hlod, htex⟩ := hall t (List.mem_cons_self _ _)
      have hget : (pre ++ t :: rest)[pre.length]? = some t := by
        rw [List.getElem?_append_right (le_refl _)]
        simp
      have hwct : wc.tiles[t]? = some (some tile) := hwc.trans ht0
      have hnd1 := List.nodup_cons.mp hnd
      have hidx : TileManager.update.index tile_size base w0 t
          = some (Vec2i.sub (Vec2i.div tile.pos tile_size) base) := by
        simp [TileManager.update.index, ht0]
      by_cases hc : contains (Rect_WH (0, 0) vis)
          (Vec2i.sub (Vec2i.div tile.pos tile_size) base) = true
      · have hin : TileManager.update.inside tile_size base vis w0 t = true := by
          simp only [TileManager.update.inside, hidx, hc]
        have hall1 : ∀ t1 ∈ rest, wc.tiles[t1]? = w0.tiles[t1]? ∧ ∃ tile,
            w0.tiles[t1]? = some (some tile)
            ∧ (-1 ≤ tile.current_lod ∧ tile.current_lod ≤ 1) ∧ tile.texture.length = 2 :=
          fun t1 h1 => hall t1 (List.mem_cons_of_mem _ h1)
        obtain ⟨kept, rel, w1, hs, hk, hr, hrel⟩ :=
          ih (pre ++ [t]) rest
            (BitArray.set_bit bits ((Vec2i.sub (Vec2i.div tile.pos tile_size) base).2 * vis.1
              + (Vec2i.sub (Vec2i.div tile.pos tile_size) base).1)) wc hlen1 hnd1.2 hall1
        refine ⟨t :: kept, rel, w1, ?_, ?_, ?_, hrel⟩
        · rw [TileManager.update.scan]
          simp only [hget, hwct, hc, Bool.not_true, Bool.false_eq_true, if_false]
          have hs1 := hs
          simp only [List.length_append, List.length_singleton, List.append_assoc,
            List.singleton_append] at hs1
          rw [hs1]
          simp [TileManager.update.mark, hidx]
        · simp only [List.filter_cons, hin, if_true]
          exact List.Perm.cons t hk
        · simpa [List.filter_cons, hin] using hr
      · have hc2 : contains (Rect_WH (0, 0) vis)
            (Vec2i.sub (Vec2i.div tile.pos tile_size) base) = false := by
          simpa using hc
        have hin : TileManager.update.inside tile_size base vis w0 t = false := by
          simp only [TileManager.update.inside, hidx, hc2]
        obtain ⟨wc1, hrl⟩ := release_tile_defined t tile wc hwct hlod htex
        have hoth := release_tile_others t wc wc1 hrl
        obtain ⟨suf1, hq, hperm⟩ := quick_remove_at pre rest t
        have hall1 : ∀ t1 ∈ suf1, wc1.tiles[t1]? = w0.tiles[t1]? ∧ ∃ tile,
            w0.tiles[t1]? = some (some tile)
            ∧ (-1 ≤ tile.current_lod ∧ tile.current_lod ≤ 1) ∧ tile.texture.length = 2 := by
          intro t1 h1
          have hm : t1 ∈ rest := hperm.mem_iff.mp h1
          have hne : t1 ≠ t := fun he => hnd1.1 (he ▸ hm)
          have h2 := hall t1 (List.mem_cons_of_mem _ hm)
          exact ⟨(hoth.2 t1 hne).trans h2.1, h2.2⟩
        obtain ⟨kept, rel, w1, hs, hk, hr, hrel⟩ :=
          ih pre suf1 bits wc1 (hperm.length_eq.trans hlen1)
            (hperm.nodup_iff.mpr hnd1.2) hall1
        refine ⟨kept, t :: rel, w1, ?_, ?_, ?_, ?_⟩
        · rw [TileManager.update.scan]
          simp only [hget, hwct, hc2, Bool.not_false, if_true, hrl, hq]
          exact hs
        · simp only [List.filter_cons, hin, Bool.false_eq_true, if_false]
          exact hk.trans (hperm.filter _)
        · simp only [List.filter_cons, hin, Bool.not_false, if_true]
          exact List.Perm.cons t (hr.trans (hperm.filter _))
        · simp [release_tiles, hrl, hrel]

/-- The test `contains(visrect, index)` of `update` holds exactly for the grid
indices `0 <= x < vis.x`, `0 <= y < vis.y`. -/
theorem contains_visrect (vis index : Vec2i) :
    contains (Rect_WH (0, 0) vis) index = true
      ↔ (0 ≤ index.1 ∧ index.1 < vis.1) ∧ (0 ≤ index.2 ∧ index.2 < vis.2) := by
  simp only [contains, Rect_WH, Vec2i.le, Vec2i.add, Vec2i.sub, Bool.and_eq_true,
    decide_eq_true_eq]
  omega

/-- The second loop of `update` visits exactly the pairs `x < vis.x`,
`y < vis.y`. -/
theorem mem_update_positions (vis : Vec2i) (xy : Nat × Nat) :
    xy ∈ TileManager.update.positions vis ↔ (xy.1 : Int) < vis.1 ∧ (xy.2 : Int) < vis.2 := by
  obtain ⟨x, y⟩ := xy
  simp only [TileManager.update.positions, List.mem_flatMap, List.mem_range, List.mem_map,
    Prod.mk.injEq]
  constructor
  · rintro ⟨y1, hy, x1, hx, rfl, rfl⟩
    omega
  · intro h
    exact ⟨y, by omega, x, by omega, rfl, rfl⟩

/-- The second loop of `update` visits no pair twice. -/
theorem update_positions_nodup (vis : Vec2i) : (TileManager.update.positions vis).Nodup := by
  unfold TileManager.update.positions
  rw [List.nodup_flatMap]
  constructor
  · intro y _
    refine List.Nodup.map ?_ (List.nodup_range _)
    intro a b hab
    simpa using hab
  · refine List.Pairwise.imp ?_ (List.nodup_range _)
    intro a b hne
    simp only [Function.onFun, List.disjoint_left, List.mem_map, List.mem_range, not_exists,
      not_and]
    rintro p ⟨x, _, rfl⟩ x1 _ h
    simp only [Prod.mk.injEq] at h
    exact hne h.2.symm

/-- Inside the window the bit offset `y * vis.x + x` determines `(x, y)`. -/
theorem offset_injective (W x y x1 y1 : Int) (hx : 0 ≤ x ∧ x < W) (hx1 : 0 ≤ x1 ∧ x1 < W)
    (h : y * W + x = y1 * W + x1) : x = x1 ∧ y = y1 := by
  have hy : y = y1 := by
    rcases lt_trichotomy y y1 with hlt | heq | hgt
    · have h1 : (y + 1) * W ≤ y1 * W := by
        apply mul_le_mul_of_nonneg_right (by omega) (by omega)
      have h2 : (y + 1) * W = y * W + W := by ring
      omega
    · exact heq
    · have h1 : (y1 + 1) * W ≤ y * W := by
        apply mul_le_mul_of_nonneg_right (by omega) (by omega)
      have h2 : (y1 + 1) * W = y1 * W + W := by ring
      omega
  subst hy
  exact ⟨by omega, rfl⟩

/-- Inside the window the bit offset lies inside a bit array of `area(vis)`
bits. -/
theorem offset_bound (vis : Vec2i) (x y : Int) (hx : 0 ≤ x ∧ x < vis.1)
    (hy : 0 ≤ y ∧ y < vis.2) : 0 ≤ y * vis.1 + x ∧ y * vis.1 + x < area vis := by
  have h0 : 0 ≤ y * vis.1 := mul_nonneg hy.1 (by omega)
  have h1 : (y + 1) * vis.1 ≤ vis.2 * vis.1 :=
    mul_le_mul_of_nonneg_right (by omega) (by omega)
  have h2 : (y + 1) * vis.1 = y * vis.1 + vis.1 := by ring
  have h3 : area vis = vis.2 * vis.1 := by simp only [area]; ring
  omega

/-- Reading a bit after `set_bit` of a bit inside the array. -/
theorem test_bit_set_bit (bits : List Bool) (o o1 : Int) (ho : 0 ≤ o) (ho1 : 0 ≤ o1)
    (hlt : o.toNat < bits.length) :
    BitArray.test_bit (BitArray.set_bit bits o) o1
      = (decide (o = o1) || BitArray.test_bit bits o1) := by
  simp only [BitArray.test_bit, BitArray.set_bit, List.getD_eq_getElem?_getD,
    List.getElem?_set]
  by_cases h : o = o1
  · subst h
    simp [hlt]
  · have h1 : o.toNat ≠ o1.toNat := by omega
    simp [h, h1]

/-- A tile the first loop keeps has a grid index inside `visrect`. -/
theorem inside_index (ts base vis : Vec2i) (w0 : World) (t : Nat)
    (h : TileManager.update.inside ts base vis w0 t = true) :
    ∃ index, TileManager.update.index ts base w0 t = some index
      ∧ (0 ≤ index.1 ∧ index.1 < vis.1) ∧ (0 ≤ index.2 ∧ index.2 < vis.2) := by
  unfold TileManager.update.inside at h
  split at h
  · rename_i index hidx
    exact ⟨index, hidx, (contains_visrect vis index).mp h⟩
  · cases h

/-- The bit of a window position after the first loop has marked the tiles
`kept`: set when it was set before or when a kept tile has that grid index. -/
theorem mark_fold_test (ts base vis : Vec2i) (w0 : World) (xy : Nat × Nat)
    (hxy : (xy.1 : Int) < vis.1 ∧ (xy.2 : Int) < vis.2) :
    ∀ (kept : List Nat) (bits : List Bool),
      bits.length = (area vis).toNat →
      (∀ t ∈ kept, TileManager.update.inside ts base vis w0 t = true) →
      BitArray.test_bit (kept.foldl (TileManager.update.mark ts base vis w0) bits)
          ((xy.2 : Int) * vis.1 + (xy.1 : Int))
        = (BitArray.test_bit bits ((xy.2 : Int) * vis.1 + (xy.1 : Int))
            || kept.any (fun t =>
                TileManager.update.index ts base w0 t == some ((xy.1 : Int), (xy.2 : Int)))) := by
  intro kept
  induction kept with
  | nil => intro bits _ _; simp
  | cons t kept ih =>
    intro bits hlen hin
    obtain ⟨index, hidx, hb1, hb2⟩ := inside_index ts base vis w0 t (hin t (List.mem_cons_self _ _))
    have hob := offset_bound vis index.1 index.2 hb1 hb2
    have hxb := offset_bound vis (xy.1 : Int) (xy.2 : Int) ⟨by omega, hxy.1⟩ ⟨by omega, hxy.2⟩
    have hmark : TileManager.update.mark ts base vis w0 bits t
        = BitArray.set_bit bits (index.2 * vis.1 + index.1) := by
      simp only [TileManager.update.mark, hidx]
    have hlen1 : (TileManager.update.mark ts base vis w0 bits t).length = (area vis).toNat := by
      rw [hmark]
      simpa [BitArray.set_bit] using hlen
    rw [List.foldl_cons, ih _ hlen1 (fun t1 h1 => hin t1 (List.mem_cons_of_mem _ h1)), hmark,
      test_bit_set_bit bits _ _ hob.1 hxb.1 (by omega), List.any_cons, hidx]
    have hd : decide (index.2 * vis.1 + index.1 = (xy.2 : Int) * vis.1 + (xy.1 : Int))
        = (some index == some ((xy.1 : Int), (xy.2 : Int))) := by
      by_cases he : index = ((xy.1 : Int), (xy.2 : Int))
      · subst he
        simp
      · have hne : ¬ (index.2 * vis.1 + index.1 = (xy.2 : Int) * vis.1 + (xy.1 : Int)) := by
          intro h
          have h2 := offset_injective vis.1 index.1 index.2 (xy.1 : Int) (xy.2 : Int) hb1
            ⟨by omega, hxy.1⟩ h
          exact he (Prod.ext h2.1 h2.2)
        simp [he, hne]
    rw [hd]
    cases BitArray.test_bit bits ((xy.2 : Int) * vis.1 + (xy.1 : Int)) <;>
      cases (some index == some ((xy.1 : Int), (xy.2 : Int))) <;> simp

/-- After the first loop of `update`, started on a cleared bit array, the
positions without a bit are those that are the grid index of no kept tile. -/
theorem unmarked_eq_missing (ts base vis : Vec2i) (w0 : World) (kept : List Nat)
    (bits : List Bool) (hlen : bits.length = (area vis).toNat)
    (hclear : ∀ b ∈ bits, b = false)
    (hin : ∀ t ∈ kept, TileManager.update.inside ts base vis w0 t = true) :
    TileManager.update.unmarked vis
        (kept.foldl (TileManager.update.mark ts base vis w0) bits)
        (TileManager.update.positions vis)
      = TileManager.update.missing ts base vis w0 kept := by
  unfold TileManager.update.unmarked TileManager.update.missing
  apply List.filter_congr
  intro xy hxy
  have hb := (mem_update_positions vis xy).mp hxy
  rw [mark_fold_test ts base vis w0 xy hb kept bits hlen hin]
  have h0 : BitArray.test_bit bits ((xy.2 : Int) * vis.1 + (xy.1 : Int)) = false := by
    simp only [BitArray.test_bit, List.getD_eq_getElem?_getD]
    cases hg : bits[((xy.2 : Int) * vis.1 + (xy.1 : Int)).toNat]? with
    | none => rfl
    | some b => exact hclear b (List.mem_iff_getElem?.mpr ⟨_, hg⟩)
  rw [h0, Bool.false_or]

/-- A tile on a multiple of the tile size has grid index `(x, y)` exactly
when it sits on the pixel position of `base + (x, y)`. -/
theorem index_iff_pos (ts base : Vec2i) (w : World) (t : Nat) (tile : Tile) (xy : Nat × Nat)
    (hts : 0 < ts.1 ∧ 0 < ts.2) (ht : w.tiles[t]? = some (some tile))
    (hm : ∃ g : Vec2i, tile.pos = Vec2i.mul g ts) :
    TileManager.update.index ts base w t = some ((xy.1 : Int), (xy.2 : Int))
      ↔ tile_pos w t = some (TileManager.update.pos_of ts base xy) := by
  obtain ⟨g, hg⟩ := hm
  have h1 : (g.1 * ts.1).tdiv ts.1 = g.1 := Int.mul_tdiv_cancel _ (by omega)
  have h2 : (g.2 * ts.2).tdiv ts.2 = g.2 := Int.mul_tdiv_cancel _ (by omega)
  simp only [TileManager.update.index, tile_pos, ht, TileManager.update.pos_of, hg,
    Vec2i.mul, Vec2i.div, Vec2i.sub, Vec2i.add, Option.some.injEq, Prod.mk.injEq, h1, h2]
  constructor
  · rintro ⟨ha, hb⟩
    have ha1 : g.1 = base.1 + (xy.1 : Int) := by omega
    have hb1 : g.2 = base.2 + (xy.2 : Int) := by omega
    rw [ha1, hb1]
    exact ⟨rfl, rfl⟩
  · rintro ⟨ha, hb⟩
    have ha1 := Int.eq_of_mul_eq_mul_right (by omega) ha
    have hb1 := Int.eq_of_mul_eq_mul_right (by omega) hb
    omega

/-- The pixel position determines the window position. -/
theorem pos_of_injective (ts base : Vec2i) (hts : 0 < ts.1 ∧ 0 < ts.2) :
    Function.Injective (TileManager.update.pos_of ts base) := by
  intro a b h
  simp only [TileManager.update.pos_of, Vec2i.mul, Vec2i.add, Prod.mk.injEq] at h
  have ha1 := Int.eq_of_mul_eq_mul_right (by omega) h.1
  have hb1 := Int.eq_of_mul_eq_mul_right (by omega) h.2
  apply Prod.ext <;> omega

/-- For a tile on a multiple of the tile size, the test of the first loop of
`update` says whether the tile sits on a grid coordinate of the window. -/
theorem inside_eq_in_window (ts base vis : Vec2i) (w : World) (t : Nat) (tile : Tile)
    (hts : 0 < ts.1 ∧ 0 < ts.2) (ht : w.tiles[t]? = some (some tile))
    (hm : ∃ g : Vec2i, tile.pos = Vec2i.mul g ts) :
    TileManager.update.inside ts base vis w t = TileManager.update.in_window ts base vis w t := by
  have htp : tile_pos w t = some tile.pos := by simp only [tile_pos, ht]
  rw [Bool.eq_iff_iff]
  constructor
  · intro h
    obtain ⟨index, hidx, hb1, hb2⟩ := inside_index ts base vis w t h
    have hcast : index = (((((index.1.toNat, index.2.toNat) : Nat × Nat).1 : Nat) : Int),
        ((((index.1.toNat, index.2.toNat) : Nat × Nat).2 : Nat) : Int)) := by
      apply Prod.ext <;> simp only <;> omega
    rw [hcast] at hidx
    have hp := (index_iff_pos ts base w t tile _ hts ht hm).mp hidx
    have hmem : (index.1.toNat, index.2.toNat) ∈ TileManager.update.positions vis := by
      rw [mem_update_positions]
      constructor <;> simp only <;> omega
    simp only [TileManager.update.in_window, hp, TileManager.update.window, decide_eq_true_eq,
      List.mem_map]
    exact ⟨_, hmem, rfl⟩
  · intro h
    simp only [TileManager.update.in_window, htp, TileManager.update.window, decide_eq_true_eq,
      List.mem_map] at h
    obtain ⟨xy, hmem, hxy⟩ := h
    have hb := (mem_update_positions vis xy).mp hmem
    have hidx := (index_iff_pos ts base w t tile xy hts ht hm).mpr (by rw [htp, hxy])
    simp only [TileManager.update.inside, hidx]
    rw [contains_visrect]
    simp only
    omega

/-- Reading the slots that an append adds. -/
theorem map_getElem?_appended {T : Type} (B : List T) :
    ∀ (A : List T) (f : Option T → Option Vec2i),
      (List.range' A.length B.length).map (fun i => f (A ++ B)[i]?)
        = B.map (fun b => f (some b)) := by
  induction B with
  | nil => intro A f; simp
  | cons b B ih =>
    intro A f
    have h := ih (A ++ [b]) f
    simp only [List.length_append, List.length_singleton, List.append_assoc,
      List.singleton_append] at h
    have h0 : (A ++ b :: B)[A.length]? = some b := by
      rw [List.getElem?_append_right (le_refl _)]
      simp
    simp only [List.length_cons, List.range'_succ, List.map_cons, h, h0]

/-- The tiles the first loop keeps sit, one each, on the window positions
whose bit the loop has set. -/
theorem kept_positions_perm (ts base vis : Vec2i) (w : World) (kept : List Nat)
    (hts : 0 < ts.1 ∧ 0 < ts.2)
    (halive : ∀ t ∈ kept, ∃ tile, w.tiles[t]? = some (some tile)
      ∧ ∃ g : Vec2i, tile.pos = Vec2i.mul g ts)
    (hin : ∀ t ∈ kept, TileManager.update.inside ts base vis w t = true)
    (hnd : (kept.map (tile_pos w)).Nodup) :
    (kept.map (tile_pos w)).Perm
      (((TileManager.update.positions vis).filter (fun xy =>
          kept.any (fun t =>
            TileManager.update.index ts base w t == some ((xy.1 : Int), (xy.2 : Int))))).map
        (fun xy => some (TileManager.update.pos_of ts base xy))) := by
  rw [List.perm_ext_iff_of_nodup hnd]
  · intro p
    simp only [List.mem_map, List.mem_filter, List.any_eq_true, beq_iff_eq]
    constructor
    · rintro ⟨t, ht, rfl⟩
      obtain ⟨tile, hal, hm⟩ := halive t ht
      obtain ⟨index, hidx, hb1, hb2⟩ := inside_index ts base vis w t (hin t ht)
      have hcast : index = (((((index.1.toNat, index.2.toNat) : Nat × Nat).1 : Nat) : Int),
          ((((index.1.toNat, index.2.toNat) : Nat × Nat).2 : Nat) : Int)) := by
        apply Prod.ext <;> simp only <;> omega
      rw [hcast] at hidx
      have hmem : (index.1.toNat, index.2.toNat) ∈ TileManager.update.positions vis := by
        rw [mem_update_positions]
        constructor <;> simp only <;> omega
      exact ⟨(index.1.toNat, index.2.toNat), ⟨hmem, t, ht, hidx⟩,
        ((index_iff_pos ts base w t tile _ hts hal hm).mp hidx).symm⟩
    · rintro ⟨xy, ⟨_, t, ht, hidx⟩, rfl⟩
      obtain ⟨tile, hal, hm⟩ := halive t ht
      exact ⟨t, ht, (index_iff_pos ts base w t tile xy hts hal hm).mp hidx⟩
  · refine List.Nodup.map ?_ ((update_positions_nodup vis).filter _)
    intro a b hab
    exact pos_of_injective ts base hts (Option.some.inj hab)

/-- C11: update makes the tile set equal to the visible window. For a tile
size > 0, any screen rectangle and a TileManager whose tiles are alive, sit on
pairwise distinct multiples of the tile size and are well formed, update
returns; the tiles on a grid coordinate of the window (kept) stay in the list
with their state unchanged, the others (released) leave the list and the
world is the one that one release_tile call for each of them produces; for each
window position that no kept tile occupies one tile with wip = true is
appended, with one build_tile frame and one handle on the worker queue and
nothing else; and the positions of the resulting list are, one each, the
pixel positions (base + (x, y)) * tile_size of the window, which are pairwise
distinct. -/
theorem update_matches_window (tm : TileManager) (s : Rect) (color : Vec2i → Nat) (w : World)
    (q : CoroutineQueue)
    (hts : 0 < tm.tile_size.1 ∧ 0 < tm.tile_size.2)
    (hq : w.globalQueue = some q)
    (htiles : ∀ t ∈ tm.tiles, ∃ tile, w.tiles[t]? = some (some tile)
      ∧ (∃ g : Vec2i, tile.pos = Vec2i.mul g tm.tile_size)
      ∧ (-1 ≤ tile.current_lod ∧ tile.current_lod ≤ 1) ∧ tile.texture.length = 2)
    (hdist : tm.tiles.Pairwise (fun a b => tile_pos w a ≠ tile_pos w b)) :
    ∃ tm1 w1 kept released wr miss,
      TileManager.update tm s color w = some (tm1, w1)
      ∧ kept.Perm (tm.tiles.filter (TileManager.update.in_window tm.tile_size
          (TileManager.update.base tm.tile_size s) (TileManager.update.vis tm.tile_size s) w))
      ∧ released.Perm (tm.tiles.filter (fun t => !TileManager.update.in_window tm.tile_size
          (TileManager.update.base tm.tile_size s) (TileManager.update.vis tm.tile_size s) w t))
      ∧ release_tiles released w = some wr
      ∧ miss = TileManager.update.missing tm.tile_size (TileManager.update.base tm.tile_size s)
          (TileManager.update.vis tm.tile_size s) w kept
      ∧ tm1.tiles = kept ++ List.range' w.tiles.length miss.length
      ∧ w1 = { wr with
          tiles := wr.tiles ++ miss.map (fun xy => some (TileManager.update.new_tile
            tm.tile_size (TileManager.update.base tm.tile_size s) color xy)),
          frames := w.frames ++ (List.range' w.tiles.length miss.length).map
            (fun n => some (Frame.build_tile n BuildPc.initial none {})),
          globalQueue := some ⟨q.queue ++
            (List.range' w.frames.length miss.length).map some⟩ }
      ∧ (∀ xy ∈ miss, (TileManager.update.new_tile tm.tile_size
          (TileManager.update.base tm.tile_size s) color xy).wip = true)
      ∧ (∀ t ∈ kept, w1.tiles[t]? = w.tiles[t]?)
      ∧ (tm1.tiles.map (tile_pos w1)).Perm ((TileManager.update.window tm.tile_size
          (TileManager.update.base tm.tile_size s)
          (TileManager.update.vis tm.tile_size s)).map some)
      ∧ (TileManager.update.window tm.tile_size (TileManager.update.base tm.tile_size s)
          (TileManager.update.vis tm.tile_size s)).Nodup := by
  generalize hbase : TileManager.update.base tm.tile_size s = base
  generalize hvis : TileManager.update.vis tm.tile_size s = vis
  -- the bit array the first loop starts from
  have hbits : ∃ bits0 : List Bool,
      (if (tm.tile_bits.length : Int) ≠ area vis then BitArray.new (area vis)
        else BitArray.clear tm.tile_bits) = bits0
      ∧ bits0.length = (area vis).toNat ∧ ∀ b ∈ bits0, b = false := by
    refine ⟨_, rfl, ?_, ?_⟩
    · split
      · simp [BitArray.new]
      · rename_i h
        have h1 : (tm.tile_bits.length : Int) = area vis := by simpa using h
        simp only [BitArray.clear, List.length_replicate]
        omega
    · intro b hb
      split at hb
      · exact (List.mem_replicate.mp hb).2
      · exact (List.mem_replicate.mp hb).2
  obtain ⟨bits0, hb0, hlen0, hclear0⟩ := hbits
  have hnd : tm.tiles.Nodup := by
    refine List.Pairwise.imp ?_ hdist
    intro a b h he
    exact h (by rw [he])
  have hall : ∀ t ∈ tm.tiles, w.tiles[t]? = w.tiles[t]? ∧ ∃ tile, w.tiles[t]? = some (some tile)
      ∧ (-1 ≤ tile.current_lod ∧ tile.current_lod ≤ 1) ∧ tile.texture.length = 2 := by
    intro t ht
    obtain ⟨tile, h1, _, h3, h4⟩ := htiles t ht
    exact ⟨rfl, tile, h1, h3, h4⟩
  obtain ⟨kept, rel, wr, hscan, hk, hr, hrel⟩ :=
    update_scan_spec tm.tile_size base vis w tm.tiles.length [] tm.tiles bits0 w rfl hnd hall
  simp only [List.length_nil, List.nil_append] at hscan
  -- the test of the loop is the window test on these tiles
  have hcongr : ∀ t ∈ tm.tiles, TileManager.update.inside tm.tile_size base vis w t
      = TileManager.update.in_window tm.tile_size base vis w t := by
    intro t ht
    obtain ⟨tile, h1, h2, _, _⟩ := htiles t ht
    exact inside_eq_in_window tm.tile_size base vis w t tile hts h1 h2
  have hfk : tm.tiles.filter (TileManager.update.inside tm.tile_size base vis w)
      = tm.tiles.filter (TileManager.update.in_window tm.tile_size base vis w) :=
    List.filter_congr hcongr
  have hfr : tm.tiles.filter (fun t => !TileManager.update.inside tm.tile_size base vis w t)
      = tm.tiles.filter (fun t => !TileManager.update.in_window tm.tile_size base vis w t) :=
    List.filter_congr (fun t ht => by rw [hcongr t ht])
  have hkmem : ∀ t ∈ kept, t ∈ tm.tiles
      ∧ TileManager.update.inside tm.tile_size base vis w t = true := by
    intro t ht
    exact List.mem_filter.mp (hk.mem_iff.mp ht)
  have hrmem : ∀ t ∈ rel, TileManager.update.inside tm.tile_size base vis w t = false := by
    intro t ht
    simpa using (List.mem_filter.mp (hr.mem_iff.mp ht)).2
  have hwr := release_tiles_others rel w wr hrel
  have hqr : wr.globalQueue = some q := hwr.2.2.1.trans hq
  have hin : ∀ t ∈ kept, TileManager.update.inside tm.tile_size base vis w t = true :=
    fun t ht => (hkmem t ht).2
  have hfold := update_visit_fold base vis
    (kept.foldl (TileManager.update.mark tm.tile_size base vis w) bits0) color
    (TileManager.update.positions vis)
    { tm with screen_offset := s.top_left, tiles := kept,
              tile_bits := kept.foldl (TileManager.update.mark tm.tile_size base vis w) bits0 }
    wr q hqr
  rw [unmarked_eq_missing tm.tile_size base vis w kept bits0 hlen0 hclear0 hin] at hfold
  simp only [hwr.1, hwr.2.1] at hfold
  have hkeep : ∀ t ∈ kept, wr.tiles[t]? = w.tiles[t]? ∧ t < wr.tiles.length := by
    intro t ht
    have hnot : t ∉ rel := by
      intro hm
      have h1 := hrmem t hm
      rw [hin t ht] at h1
      cases h1
    obtain ⟨tile, h1, _⟩ := htiles t (hkmem t ht).1
    have hlt : t < w.tiles.length := by
      by_contra hge
      rw [List.getElem?_eq_none (by omega)] at h1
      cases h1
    exact ⟨hwr.2.2.2 t hnot, by omega⟩
  refine ⟨{ tm with
              screen_offset := s.top_left,
              tiles := kept ++ List.range' w.tiles.length
                (TileManager.update.missing tm.tile_size base vis w kept).length,
              tile_bits := kept.foldl (TileManager.update.mark tm.tile_size base vis w) bits0 },
    _, kept, rel, wr, _, ?_, hfk ▸ hk, hfr ▸ hr, hrel, rfl, rfl, rfl, ?_, ?_, ?_, ?_⟩
  · simp only [TileManager.update, hbase, hvis, hb0, hscan]
    exact hfold
  · intro xy _
    rfl
  · intro t ht
    simp only
    rw [List.getElem?_append_left (hkeep t ht).2]
    exact (hkeep t ht).1
  · simp only [List.map_append]
    have h1 : kept.map (tile_pos
        { wr with
          tiles := wr.tiles ++ (TileManager.update.missing tm.tile_size base vis w kept).map
            (fun xy => some (TileManager.update.new_tile tm.tile_size base color xy)),
          frames := w.frames ++ (List.range' w.tiles.length
            (TileManager.update.missing tm.tile_size base vis w kept).length).map
            (fun n => some (Frame.build_tile n BuildPc.initial none {})),
          globalQueue := some ⟨q.queue ++ (List.range' w.frames.length
            (TileManager.update.missing tm.tile_size base vis w kept).length).map some⟩ })
        = kept.map (tile_pos w) := by
      apply List.map_congr_left
      intro t ht
      simp only [tile_pos]
      rw [List.getElem?_append_left (hkeep t ht).2, (hkeep t ht).1]
    have h2 := map_getElem?_appended
      ((TileManager.update.missing tm.tile_size base vis w kept).map
        (fun xy => some (TileManager.update.new_tile tm.tile_size base color xy)))
      wr.tiles
      (fun o => match o with
        | some (some tile) => some tile.pos
        | _ => none)
    simp only [List.length_map, List.map_map, hwr.1] at h2
    have h3 : (List.range' w.tiles.length
        (TileManager.update.missing tm.tile_size base vis w kept).length).map (tile_pos
        { wr with
          tiles := wr.tiles ++ (TileManager.update.missing tm.tile_size base vis w kept).map
            (fun xy => some (TileManager.update.new_tile tm.tile_size base color xy)),
          frames := w.frames ++ (List.range' w.tiles.length
            (TileManager.update.missing tm.tile_size base vis w kept).length).map
            (fun n => some (Frame.build_tile n BuildPc.initial none {})),
          globalQueue := some ⟨q.queue ++ (List.range' w.frames.length
            (TileManager.update.missing tm.tile_size base vis w kept).length).map some⟩ })
        = (TileManager.update.missing tm.tile_size base vis w kept).map
            (fun xy => some (TileManager.update.pos_of tm.tile_size base xy)) := by
      refine Eq.trans ?_ (h2.trans ?_)
      · apply List.map_congr_left
        intro t _
        rfl
      · apply List.map_congr_left
        intro xy _
        rfl
    rw [h1, h3]
    have hndk : (kept.map (tile_pos w)).Nodup := by
      have hs : (tm.tiles.map (tile_pos w)).Nodup := by
        rw [List.Nodup, List.pairwise_map]
        exact hdist
      have hsub : ((tm.tiles.filter (TileManager.update.inside tm.tile_size base vis w)).map
          (tile_pos w)).Nodup := hs.sublist ((List.filter_sublist _).map _)
      exact ((hk.map (tile_pos w)).nodup_iff).mpr hsub
    have hkp := kept_positions_perm tm.tile_size base vis w kept hts
      (fun t ht => by
        obtain ⟨tile, h1, h2, _⟩ := htiles t (hkmem t ht).1
        exact ⟨tile, h1, h2⟩) hin hndk
    have hpart := List.filter_append_perm (fun xy : Nat × Nat =>
        kept.any (fun t =>
          TileManager.update.index tm.tile_size base w t == some ((xy.1 : Int), (xy.2 : Int))))
      (TileManager.update.positions vis)
    have hpm := hpart.map (fun xy => some (TileManager.update.pos_of tm.tile_size base xy))
    rw [List.map_append] at hpm
    simp only [TileManager.update.window, List.map_map]
    exact (List.Perm.append hkp (List.Perm.refl _)).trans hpm
  · exact List.Nodup.map (pos_of_injective tm.tile_size base hts) (update_positions_nodup vis)

/-- Witness for C11: the four example tiles under a screen scrolled to the
left, which keeps two of them, releases two and creates two. -/
theorem update_matches_window_witness :
    ∃ tm1 w1 kept released wr miss,
      TileManager.update exampleManaged.1 exampleScrolled (fun _ => 7) exampleManaged.2
        = some (tm1, w1)
      ∧ kept.Perm (exampleManaged.1.tiles.filter
          (TileManager.update.in_window exampleManaged.1.tile_size
            (TileManager.update.base exampleManaged.1.tile_size exampleScrolled)
            (TileManager.update.vis exampleManaged.1.tile_size exampleScrolled)
            exampleManaged.2))
      ∧ released.Perm (exampleManaged.1.tiles.filter
          (fun t => !TileManager.update.in_window exampleManaged.1.tile_size
            (TileManager.update.base exampleManaged.1.tile_size exampleScrolled)
            (TileManager.update.vis exampleManaged.1.tile_size exampleScrolled)
            exampleManaged.2 t))
      ∧ release_tiles released exampleManaged.2 = some wr
      ∧ miss = TileManager.update.missing exampleManaged.1.tile_size
          (TileManager.update.base exampleManaged.1.tile_size exampleScrolled)
          (TileManager.update.vis exampleManaged.1.tile_size exampleScrolled)
          exampleManaged.2 kept
      ∧ tm1.tiles = kept ++ List.range' exampleManaged.2.tiles.length miss.length
      ∧ w1 = { wr with
          tiles := wr.tiles ++ miss.map (fun xy => some (TileManager.update.new_tile
            exampleManaged.1.tile_size
            (TileManager.update.base exampleManaged.1.tile_size exampleScrolled)
            (fun _ => 7) xy)),
          frames := exampleManaged.2.frames ++
            (List.range' exampleManaged.2.tiles.length miss.length).map
              (fun n => some (Frame.build_tile n BuildPc.initial none {})),
          globalQueue := some ⟨(exampleManaged.2.globalQueue.getD ⟨[]⟩).queue ++
            (List.range' exampleManaged.2.frames.length miss.length).map some⟩ }
      ∧ (∀ xy ∈ miss, (TileManager.update.new_tile exampleManaged.1.tile_size
          (TileManager.update.base exampleManaged.1.tile_size exampleScrolled)
          (fun _ => 7) xy).wip = true)
      ∧ (∀ t ∈ kept, w1.tiles[t]? = exampleManaged.2.tiles[t]?)
      ∧ (tm1.tiles.map (tile_pos w1)).Perm
          ((TileManager.update.window exampleManaged.1.tile_size
            (TileManager.update.base exampleManaged.1.tile_size exampleScrolled)
            (TileManager.update.vis exampleManaged.1.tile_size exampleScrolled)).map some)
      ∧ (TileManager.update.window exampleManaged.1.tile_size
          (TileManager.update.base exampleManaged.1.tile_size exampleScrolled)
          (TileManager.update.vis exampleManaged.1.tile_size exampleScrolled)).Nodup :=
  update_matches_window exampleManaged.1 exampleScrolled (fun _ => 7) exampleManaged.2
    (exampleManaged.2.globalQueue.getD ⟨[]⟩) (by decide) (by rfl)
    (by
      intro t ht
      have h : t = 0 ∨ t = 1 ∨ t = 2 ∨ t = 3 := by
        have h0 : exampleManaged.1.tiles = [0, 1, 2, 3] := by rfl
        rw [h0] at ht
        simpa using ht
      rcases h with rfl | rfl | rfl | rfl
      · exact ⟨_, rfl, ⟨(0, 0), rfl⟩, by decide, rfl⟩
      · exact ⟨_, rfl, ⟨(1, 0), rfl⟩, by decide, rfl⟩
      · exact ⟨_, rfl, ⟨(0, 1), rfl⟩, by decide, rfl⟩
      · exact ⟨_, rfl, ⟨(1, 1), rfl⟩, by decide, rfl⟩)
    (by decide)

end CppMandel
